import Mathlib

/-!
HHVM array iteration (`hphp/runtime/base/array-iterator.h`).

A shallow embedding of `ArrayIter` and of the template dispatchers `IterateV` /
`IterateKV`, together with the properties of the iteration subsystem that the
specification states about them.

Conventions of the embedding.

* A pointer is its address (`Nat`, `0` is `nullptr`); the objects behind the addresses
  live in a `Heap`.  Dereferencing an address the heap does not hold yields `none`.
* `assertx` is a precondition: a violated assertion yields `none`.
* Loops that the source does not bound take a `fuel` argument; `none` is also the
  answer of a loop that ran out of fuel.
* Caller-supplied callbacks own a state of type `σ` and act on that state only (they do
  not change the heap or the reference counts, and they do not throw); every invocation
  is appended to the `log` of the `World`, as are the reference-count operations of the
  iteration code itself.
-/

set_option autoImplicit false

namespace HPHP

/-! ## Values -/

/-- Modelled from the spec: the type tag of a value (`datatype.h` is not under `src/`).
The dispatchers only classify a tag as array-like, object, reference or other. -/
inductive DataType where
  | KindOfUninit
  | KindOfNull
  | KindOfBoolean
  | KindOfInt64
  | KindOfDouble
  | KindOfPersistentString
  | KindOfString
  | KindOfPersistentVec
  | KindOfVec
  | KindOfPersistentDict
  | KindOfDict
  | KindOfPersistentKeyset
  | KindOfKeyset
  | KindOfPersistentArray
  | KindOfArray
  | KindOfObject
  | KindOfResource
  | KindOfRef
  deriving DecidableEq, Repr

/-- Modelled from the spec: `isArrayLikeType` of `datatype.h` (not under `src/`):
the tags of the array-like values (vec, dict, keyset and plain arrays, counted or not). -/
def isArrayLikeType : DataType → Bool
  | .KindOfPersistentVec | .KindOfVec
  | .KindOfPersistentDict | .KindOfDict
  | .KindOfPersistentKeyset | .KindOfKeyset
  | .KindOfPersistentArray | .KindOfArray => true
  | _ => false

/-- Modelled from the spec: `isRefType` of `datatype.h` (not under `src/`). -/
def isRefType : DataType → Bool
  | .KindOfRef => true
  | _ => false

/-- A `TypedValue` (`typed-value.h` is not under `src/`; the iteration code reads the two
fields): the 64-bit payload `m_data` (read as `num`, `parr` or `pobj`) and the type tag
`m_type`. -/
structure TypedValue where
  m_data : Int
  m_type : DataType
  deriving DecidableEq, Repr

/-- The `parr` reading of the payload: the address of an `ArrayData`. -/
def TypedValue.parr (tv : TypedValue) : Nat := tv.m_data.toNat

/-- The `pobj` reading of the payload: the address of an `ObjectData`. -/
def TypedValue.pobj (tv : TypedValue) : Nat := tv.m_data.toNat

/-- Modelled from the spec: `make_tv<KindOfInt64>(n)` (`typed-value.h` is not under
`src/`): the integer value `n`. -/
def make_tv_Int64 (n : Int) : TypedValue := ⟨n, .KindOfInt64⟩

/-! ## Containers and objects (external collaborators, taken as parameters) -/

/-- The part of `ArrayData` the iteration code consumes (`array-data.h` is not under
`src/`): the elements in the container's iteration order, the three layout
predicates, and the position-cursor primitives. -/
structure ArrayData where
  /-- The `(key, value)` pairs in iteration order. -/
  elems : List (TypedValue × TypedValue)
  hasPackedLayout : Bool
  hasMixedLayout : Bool
  isKeyset : Bool
  iter_begin : Int
  iter_end : Int
  iter_advance : Int → Int
  /-- Key at a cursor (`nvGetKey`; `getKey` wraps the same value). -/
  nvGetKey : Int → TypedValue
  /-- Value at a cursor (`rvalPos`; `getValue` wraps the same value). -/
  rvalPos : Int → TypedValue

/-- Modelled from the spec: `ArrayData::size` (`array-data.h` is not under `src/`): the
number of elements of the container. -/
def ArrayData.size (ad : ArrayData) : Nat := ad.elems.length

/-- Modelled from the spec: `ArrayData::empty` (`array-data.h` is not under `src/`): the
container has no element. -/
def ArrayData.empty (ad : ArrayData) : Bool := ad.size == 0

/-- The values of the container in iteration order. -/
def ArrayData.values (ad : ArrayData) : List TypedValue := ad.elems.map Prod.snd

/-- The cursor reached from `iter_begin` by `n` applications of `iter_advance`. -/
def ArrayData.cursorAt (ad : ArrayData) : Nat → Int
  | 0 => ad.iter_begin
  | n + 1 => ad.iter_advance (ad.cursorAt n)

/-- The position-cursor contract of a container: walking from `iter_begin` with
`iter_advance` passes, for each element in iteration order, a cursor that differs from
the end sentinel and at which the key and value lookups give that element, and then
arrives at `iter_end`. -/
def ArrayData.CursorContract (ad : ArrayData) : Prop :=
  ad.cursorAt ad.size = ad.iter_end ∧
  ∀ (i : Nat) (hi : i < ad.elems.length),
    ad.cursorAt i ≠ ad.iter_end ∧
    ad.nvGetKey (ad.cursorAt i) = (ad.elems.get ⟨i, hi⟩).1 ∧
    ad.rvalPos (ad.cursorAt i) = (ad.elems.get ⟨i, hi⟩).2

instance (ad : ArrayData) : Decidable ad.CursorContract := by
  unfold ArrayData.CursorContract
  exact inferInstance

/-- The kinds of built-in collections (`CollectionType`). -/
inductive CollectionType where
  | Vector
  | Map
  | Set
  | Pair
  | ImmVector
  | ImmMap
  | ImmSet
  deriving DecidableEq, Repr

/-- The part of `ObjectData` and of the `collections::` helpers the iteration code
consumes (`object-data.h`, `collections.h` are not under `src/`). -/
structure ObjectData where
  isCollection : Bool
  collectionType : CollectionType
  /-- The result of `collections::asArray`: the address of the array view, `0` if none. -/
  asArray : Nat
  /-- The element `collections::at(obj, key)` points to; `none` when the lookup throws. -/
  collections_at : TypedValue → Option TypedValue
  /-- The out-parameter of `iterableObject`. -/
  isIterable : Bool
  /-- The address of the object `iterableObject` returns. -/
  iterableObject : Nat
  /-- The adapted traversal (`valid` / `key` / `current`), as a function of the number of
  move-next steps made since the rewind. -/
  valid : Int → Bool
  key : Int → TypedValue
  current : Int → TypedValue

/-- The objects behind the addresses. -/
structure Heap where
  arr : Nat → Option ArrayData
  obj : Nat → Option ObjectData

/-- Dereference of an `ArrayData*`. -/
def Heap.arrayAt (h : Heap) (p : Nat) : Option ArrayData :=
  if p = 0 then none else h.arr p

/-- Dereference of an `ObjectData*`. -/
def Heap.objectAt (h : Heap) (p : Nat) : Option ObjectData :=
  if p = 0 then none else h.obj p

/-! ## `ArrayIter` -/

/-- The enum `IterNextIndex`. -/
inductive IterNextIndex where
  | ArrayPacked
  | ArrayMixed
  | Array
  | Object
  deriving DecidableEq, Repr

/-- The enum `ArrayIter::Type`. -/
inductive IterType where
  | TypeUndefined
  | TypeArray
  | TypeIterator
  deriving DecidableEq, Repr

/-- The fields of `ArrayIter`; `m_data` is the word of the union of `m_data` and `m_obj`,
with the low bit as the tag of an object source. -/
structure ArrayIter where
  m_data : Nat
  m_pos : Int
  m_itype : IterType
  m_nextHelperIdx : IterNextIndex
  deriving DecidableEq, Repr

namespace ArrayIter

/-- The test `hasArrayData`: `!((intptr_t)m_data & 1)`. -/
def hasArrayData (it : ArrayIter) : Bool := (it.m_data &&& 1) == 0

/-- The accessor `getArrayData`: asserts `hasArrayData()`, returns `m_data`. -/
def getArrayData (it : ArrayIter) : Option Nat :=
  if it.hasArrayData then some it.m_data else none

/-- The accessor `getObject`: asserts `!hasArrayData()`, returns `m_obj & ~1`. -/
def getObject (it : ArrayIter) : Option Nat :=
  if !it.hasArrayData then some (it.m_data &&& 0xFFFFFFFFFFFFFFFE) else none

/-- The setter `setArrayData<Local>`. -/
def setArrayData (Local : Bool) (h : Heap) (self : ArrayIter) (ad : Nat) :
    Option ArrayIter :=
  if (ad &&& 1) != 0 then none                      -- assertx((intptr_t(ad) & 1) == 0)
  else if Local && ad == 0 then none                -- assertx(!Local || ad)
  else
    let s := { self with m_data := if Local then 0 else ad,
                         m_nextHelperIdx := IterNextIndex.ArrayMixed }
    if ad != 0 then
      match h.arrayAt ad with
      | none => none
      | some a =>
        if a.hasPackedLayout then
          some { s with m_nextHelperIdx := IterNextIndex.ArrayPacked }
        else if !a.hasMixedLayout then
          some { s with m_nextHelperIdx := IterNextIndex.Array }
        else some s
    else some s

/-- The setter `setObject`. -/
def setObject (self : ArrayIter) (obj : Nat) : Option ArrayIter :=
  if (obj &&& 1) != 0 then none                     -- assertx((intptr_t(obj) & 1) == 0)
  else some { self with m_data := obj ||| 1, m_nextHelperIdx := IterNextIndex.Object }

/-- The constructor `ArrayIter()`, run on the uninitialised storage `self`. -/
def ctor_default (self : ArrayIter) : ArrayIter := { self with m_data := 0 }

/-- The constructor `ArrayIter(const ArrayData* data, NoInc)`. -/
def ctor_NoInc (h : Heap) (self : ArrayIter) (data : Nat) : Option ArrayIter :=
  match setArrayData false h self data with
  | none => none
  | some s =>
    if data != 0 then
      match h.arrayAt data with
      | none => none
      | some a => some { s with m_pos := a.iter_begin }
    else some s

/-- The constructor `ArrayIter(const ArrayData* data, Local)`. -/
def ctor_Local (h : Heap) (self : ArrayIter) (data : Nat) : Option ArrayIter :=
  match setArrayData true h self data with
  | none => none
  | some s =>
    if data != 0 then
      match h.arrayAt data with
      | none => none
      | some a => some { s with m_pos := a.iter_begin }
    else some s

/-- Modelled from the spec: `endHelper` (defined in `array-iterator.cpp`, not under
`src/`): for an object source, the end is reached when "the adapted object traversal
reports exhaustion".  The state of the traversal is the number of move-next steps since
the rewind, kept in `m_pos`. -/
def endHelper (h : Heap) (it : ArrayIter) : Option Bool :=
  match it.getObject with
  | none => none
  | some p =>
    match h.objectAt p with
    | none => none
    | some o => some (!o.valid it.m_pos)

/-- Modelled from the spec: `nextHelper` (defined in `array-iterator.cpp`, not under
`src/`): for an object source, advance "invokes the object adapter's move-next
operation". -/
def nextHelper (h : Heap) (it : ArrayIter) : Option ArrayIter :=
  match it.getObject with
  | none => none
  | some p =>
    match h.objectAt p with
    | none => none
    | some _ => some { it with m_pos := it.m_pos + 1 }

/-- The test `end`. -/
def end_ (h : Heap) (it : ArrayIter) : Option Bool :=
  if it.hasArrayData then
    match it.getArrayData with
    | none => none
    | some ad =>
      if ad = 0 then some true
      else
        match h.arrayAt ad with
        | none => none
        | some a => some (it.m_pos == a.iter_end)
  else endHelper h it

/-- The conversion `operator bool`: `!end()`. -/
def toBool (h : Heap) (it : ArrayIter) : Option Bool :=
  (it.end_ h).map (fun b => !b)

/-- The step `next` (and `operator++`). -/
def next (h : Heap) (it : ArrayIter) : Option ArrayIter :=
  if it.hasArrayData then
    match it.getArrayData with
    | none => none
    | some ad =>
      match h.arrayAt ad with                        -- assertx(ad)
      | none => none
      | some a =>
        if it.m_pos == a.iter_end then none          -- assertx(m_pos != ad->iter_end())
        else some { it with m_pos := a.iter_advance it.m_pos }
  else nextHelper h it

/-- The accessor `nvFirst`: the key at the cursor. -/
def nvFirst (h : Heap) (it : ArrayIter) : Option TypedValue :=
  match it.getArrayData with
  | none => none
  | some ad =>
    match h.arrayAt ad with
    | none => none
    | some a => if it.m_pos == a.iter_end then none else some (a.nvGetKey it.m_pos)

/-- The accessor `nvSecond`: the value at the cursor. -/
def nvSecond (h : Heap) (it : ArrayIter) : Option TypedValue :=
  match it.getArrayData with
  | none => none
  | some ad =>
    match h.arrayAt ad with
    | none => none
    | some a => if it.m_pos == a.iter_end then none else some (a.rvalPos it.m_pos)

/-- The iterator after `n` calls of `next`. -/
def nextN (h : Heap) : Nat → ArrayIter → Option ArrayIter
  | 0, it => some it
  | n + 1, it =>
    match it.next h with
    | none => none
    | some it' => nextN h n it'

/-- The loop `for (; !iter.end(); iter.next())` whose body records the key and the value
at the cursor: the recorded pairs and the iterator the loop leaves behind. -/
def forLoop (h : Heap) : Nat → ArrayIter → Option (List (TypedValue × TypedValue) × ArrayIter)
  | 0, _ => none
  | fuel + 1, it =>
    match it.end_ h with
    | none => none
    | some true => some ([], it)
    | some false =>
      match it.nvFirst h, it.nvSecond h with
      | some k, some v =>
        match it.next h with
        | none => none
        | some it' =>
          match forLoop h fuel it' with
          | none => none
          | some (rest, last) => some ((k, v) :: rest, last)
      | _, _ => none

/-- Modelled from the spec: `secondRval` / `secondVal` (defined in `array-iterator.cpp`,
not under `src/`): the read-only accessor of the current value of a container source,
under the precondition of `nvSecond`; on an object source it is fatal. -/
def secondVal (h : Heap) (it : ArrayIter) : Option TypedValue :=
  if it.hasArrayData then it.nvSecond h else none

/-- The accessor `first`: the key at the cursor; for an object source `firstHelper`,
modelled from the spec (it is defined in `array-iterator.cpp`, not under `src/`) as the
key the adapted traversal reports at its current step. -/
def first (h : Heap) (it : ArrayIter) : Option TypedValue :=
  if it.hasArrayData then it.nvFirst h
  else
    match it.getObject with
    | none => none
    | some p =>
      match h.objectAt p with
      | none => none
      | some o => some (o.key it.m_pos)

/-- Modelled from the spec: `second` (defined in `array-iterator.cpp`, not under `src/`):
the current value; for an object source the value the adapted traversal reports at its
current step. -/
def second (h : Heap) (it : ArrayIter) : Option TypedValue :=
  if it.hasArrayData then it.nvSecond h
  else
    match it.getObject with
    | none => none
    | some p =>
      match h.objectAt p with
      | none => none
      | some o => some (o.current it.m_pos)

/-- The storage of a local `ArrayIter` before its constructor runs. -/
def uninit : ArrayIter := ⟨0, 0, .TypeUndefined, .ArrayPacked⟩

end ArrayIter

/-! ## Callbacks, reference counts and the log -/

/-- What the dispatchers do to the outside: reference-count operations on a container,
invocations of the caller-supplied callbacks, and positional reads of a collection. -/
inductive Event where
  | incRefCount (ad : Nat)
  | decRefArr (ad : Nat)
  | preArrFn (ad : Nat)
  | arrFn (v : TypedValue)
  | arrFnKV (k v : TypedValue)
  | preCollFn (obj : Nat)
  | objFn (v : TypedValue)
  | objFnKV (k v : TypedValue)
  | collectionsAt (obj : Nat) (key : TypedValue)
  deriving DecidableEq, Repr

/-- The mutable surroundings of a dispatch: the state `user` owned by the callbacks, the
reference counts of the containers by address, and the log of events so far. -/
structure World (σ : Type) where
  user : σ
  count : Nat → Int
  log : List Event

/-- A callback argument of the templates: a plain `bool`, or a callable acting on the
state of the caller (a callable returning `void` is one that always answers `false`). -/
inductive Callback (α σ : Type) where
  | const (b : Bool)
  | fn (f : α → σ → Bool × σ)

variable {α σ : Type}

/-- Modelled from the spec: `ArrayData::incRefCount` (`array-data.h` is not under `src/`):
the container is pinned. -/
def World.incRefCount (w : World σ) (ad : Nat) : World σ :=
  { w with count := Function.update w.count ad (w.count ad + 1),
           log := w.log ++ [Event.incRefCount ad] }

/-- Modelled from the spec: `decRefArr` (not under `src/`): the container is released. -/
def World.decRefArr (w : World σ) (ad : Nat) : World σ :=
  { w with count := Function.update w.count ad (w.count ad - 1),
           log := w.log ++ [Event.decRefArr ad] }

/-- Modelled from the spec: `ArrayData::call_helper` (`array-data.h` is not under `src/`):
a `bool` is returned as it is, a callable is invoked on the arguments and its answer
returned.  The invocation is logged as `ev a`. -/
def ArrayData.call_helper (f : Callback α σ) (ev : α → Event) (a : α) (w : World σ) :
    Bool × World σ :=
  match f with
  | .const b => (b, w)
  | .fn g => ((g a w.user).1, { w with user := (g a w.user).2, log := w.log ++ [ev a] })

/-- A direct walk over the elements `xs`: the visitor is called on each element in turn
until it answers `true`. -/
def walk (fn : Callback α σ) (ev : α → Event) : List α → World σ → World σ
  | [], w => w
  | x :: xs, w =>
    if (ArrayData.call_helper fn ev x w).1 then (ArrayData.call_helper fn ev x w).2
    else walk fn ev xs (ArrayData.call_helper fn ev x w).2

/-- A direct walk bracketed, when `IncRef` holds, by a pin and a release of the
container. -/
def pinnedWalk (IncRef : Bool) (adata : Nat) (fn : Callback α σ) (ev : α → Event)
    (xs : List α) (w : World σ) : World σ :=
  if IncRef then (walk fn ev xs (w.incRefCount adata)).decRefArr adata
  else walk fn ev xs w

/-- Modelled from the spec: `PackedArray::IterateV<ArrFn, IncRef>` (`packed-array-defs.h`
is not under `src/`): "a direct per-representation walk" that invokes the visitor per
element, in iteration order, "with early-exit support". -/
def PackedArray.IterateV (IncRef : Bool) (adata : Nat) (a : ArrayData)
    (arrFn : Callback TypedValue σ) (w : World σ) : World σ :=
  pinnedWalk IncRef adata arrFn Event.arrFn a.values w

/-- Modelled from the spec: `MixedArray::IterateV<ArrFn, IncRef>` (`mixed-array-defs.h` is
not under `src/`): the direct walk of the hash-based layout. -/
def MixedArray.IterateV (IncRef : Bool) (adata : Nat) (a : ArrayData)
    (arrFn : Callback TypedValue σ) (w : World σ) : World σ :=
  pinnedWalk IncRef adata arrFn Event.arrFn a.values w

/-- Modelled from the spec: `SetArray::Iterate<ArrFn, IncRef>` (`set-array.h` is not under
`src/`): the direct walk of the set-like layout, the visitor receiving each element. -/
def SetArray.Iterate (IncRef : Bool) (adata : Nat) (a : ArrayData)
    (fn : Callback TypedValue σ) (ev : TypedValue → Event) (w : World σ) : World σ :=
  pinnedWalk IncRef adata fn ev a.values w

/-- Modelled from the spec: `PackedArray::IterateKV<ArrFn, IncRef>` (`packed-array-defs.h`
is not under `src/`): the direct walk, the visitor receiving key and value. -/
def PackedArray.IterateKV (IncRef : Bool) (adata : Nat) (a : ArrayData)
    (arrFn : Callback (TypedValue × TypedValue) σ) (w : World σ) : World σ :=
  pinnedWalk IncRef adata arrFn (fun kv => Event.arrFnKV kv.1 kv.2) a.elems w

/-- Modelled from the spec: `MixedArray::IterateKV<ArrFn, IncRef>` (`mixed-array-defs.h`
is not under `src/`): the direct walk, the visitor receiving key and value. -/
def MixedArray.IterateKV (IncRef : Bool) (adata : Nat) (a : ArrayData)
    (arrFn : Callback (TypedValue × TypedValue) σ) (w : World σ) : World σ :=
  pinnedWalk IncRef adata arrFn (fun kv => Event.arrFnKV kv.1 kv.2) a.elems w

namespace ArrayIter

/-- Modelled from the spec: the constructor `ArrayIter(const ArrayData*)` (`arrInit`,
defined in `array-iterator.cpp`, not under `src/`): the iterator "begins at its first
position" and, not being constructed in the no-increment mode, owns a reference to the
container. -/
def ctor (h : Heap) (self : ArrayIter) (data : Nat) (w : World σ) :
    Option (ArrayIter × World σ) :=
  match ctor_NoInc h self data with
  | none => none
  | some it => some (it, if data != 0 then w.incRefCount data else w)

/-- Modelled from the spec: the constructor `ArrayIter(ObjectData*, NoInc)` (`objInit`,
defined in `array-iterator.cpp`, not under `src/`): a source object "resolves via the
object's iteration-protocol adapter, producing an internal traversal object, or, for
built-in collection-like objects, a converted container"; the traversal starts rewound. -/
def ctor_obj_NoInc (h : Heap) (self : ArrayIter) (obj : Nat) (w : World σ) :
    Option (ArrayIter × World σ) :=
  match h.objectAt obj with
  | none => none
  | some o =>
    if o.isCollection && o.asArray != 0 then ctor h self o.asArray w
    else
      match setObject self obj with
      | none => none
      | some s => some ({ s with m_pos := 0 }, w)

/-- Modelled from the spec: `destruct` (defined in `array-iterator.cpp`, not under `src/`):
the iterator is destroyed "releasing any owned handle"; the reference counts of objects
are not tracked. -/
def destruct (it : ArrayIter) (w : World σ) : World σ :=
  if it.hasArrayData && it.m_data != 0 then w.decRefArr it.m_data else w

/-- The method `reset`: `destruct(); m_data = nullptr;`. -/
def reset (it : ArrayIter) (w : World σ) : ArrayIter × World σ :=
  ({ it with m_data := 0 }, it.destruct w)

end ArrayIter

/-! ## Template based iteration: `IterateV` -/

/-- The loop of the fallback of the array overload of `IterateV`:
`for (...; iter; ++iter) { if (call_helper(arrFn, iter.secondVal())) break; }`. -/
def IterateV_array.loop (h : Heap) (arrFn : Callback TypedValue σ) :
    Nat → ArrayIter → World σ → Option (ArrayIter × World σ)
  | 0, _, _ => none
  | fuel + 1, iter, w =>
    match iter.toBool h with
    | none => none
    | some false => some (iter, w)
    | some true =>
      match iter.secondVal h with
      | none => none
      | some v =>
        if (ArrayData.call_helper arrFn Event.arrFn v w).1 then
          some (iter, (ArrayData.call_helper arrFn Event.arrFn v w).2)
        else
          match iter.next h with
          | none => none
          | some iter' =>
            IterateV_array.loop h arrFn fuel iter' (ArrayData.call_helper arrFn Event.arrFn v w).2

/-- The overload `IterateV<ArrFn, IncRef>(const ArrayData* adata, ArrFn arrFn)`. -/
def IterateV_array (IncRef : Bool) (h : Heap) (fuel : Nat) (adata : Nat)
    (arrFn : Callback TypedValue σ) (w : World σ) : Option (Bool × World σ) :=
  match h.arrayAt adata with
  | none => none
  | some a =>
    if a.empty then some (true, w)
    else if a.hasPackedLayout then
      some (true, PackedArray.IterateV IncRef adata a arrFn w)
    else if a.hasMixedLayout then
      some (true, MixedArray.IterateV IncRef adata a arrFn w)
    else if a.isKeyset then
      some (true, SetArray.Iterate IncRef adata a arrFn Event.arrFn w)
    else
      match ArrayIter.ctor h ArrayIter.uninit adata w with
      | none => none
      | some (iter, w1) =>
        match IterateV_array.loop h arrFn fuel iter w1 with
        | none => none
        | some (last, w2) => some (true, last.destruct w2)

/-- The block `do_array` of the `TypedValue` overload of `IterateV`; the `SCOPE_EXIT`
releases the container on each of the two ways out. -/
def IterateV.do_array (h : Heap) (fuel : Nat) (adata : Nat) (preArrFn : Callback Nat σ)
    (arrFn : Callback TypedValue σ) (w : World σ) : Option (Bool × World σ) :=
  match h.arrayAt adata with
  | none => none
  | some _ =>
    if (ArrayData.call_helper preArrFn Event.preArrFn adata (w.incRefCount adata)).1 then
      some (true,
        (ArrayData.call_helper preArrFn Event.preArrFn adata (w.incRefCount adata)).2.decRefArr
          adata)
    else
      match IterateV_array false h fuel adata arrFn
          (ArrayData.call_helper preArrFn Event.preArrFn adata (w.incRefCount adata)).2 with
      | none => none
      | some (b, w2) => some (b, w2.decRefArr adata)

/-- The read `*collections::at(odata, &tv)`, logged. -/
def collections.at_ (obj : Nat) (odata : ObjectData) (tv : TypedValue) (w : World σ) :
    Option (TypedValue × World σ) :=
  match odata.collections_at tv with
  | none => none
  | some e => some (e, { w with log := w.log ++ [Event.collectionsAt obj tv] })

/-- The loop of the object branch of `IterateV`:
`for (...; iter; ++iter) { if (call_helper(objFn, iter.second().asTypedValue())) break; }`. -/
def IterateV.objLoop (h : Heap) (objFn : Callback TypedValue σ) :
    Nat → ArrayIter → World σ → Option (ArrayIter × World σ)
  | 0, _, _ => none
  | fuel + 1, iter, w =>
    match iter.toBool h with
    | none => none
    | some false => some (iter, w)
    | some true =>
      match iter.second h with
      | none => none
      | some v =>
        if (ArrayData.call_helper objFn Event.objFn v w).1 then
          some (iter, (ArrayData.call_helper objFn Event.objFn v w).2)
        else
          match iter.next h with
          | none => none
          | some iter' =>
            IterateV.objLoop h objFn fuel iter' (ArrayData.call_helper objFn Event.objFn v w).2

/-- The overload `IterateV(const TypedValue& it, preArrFn, arrFn, preCollFn, objFn)`. -/
def IterateV (h : Heap) (fuel : Nat) (it : TypedValue) (preArrFn : Callback Nat σ)
    (arrFn : Callback TypedValue σ) (preCollFn : Callback Nat σ)
    (objFn : Callback TypedValue σ) (w : World σ) : Option (Bool × World σ) :=
  if isRefType it.m_type then none                     -- assertx(!isRefType(it.m_type))
  else if isArrayLikeType it.m_type then
    IterateV.do_array h fuel it.parr preArrFn arrFn w
  else
    match preCollFn with
    | .const b => some (b, w)                          -- PreCollFn is bool
    | .fn _ =>
      if it.m_type != DataType.KindOfObject then some (false, w)
      else
        match h.objectAt it.pobj with
        | none => none
        | some odata =>
          if odata.isCollection then
            if (ArrayData.call_helper preCollFn Event.preCollFn it.pobj w).1 then
              some (true, (ArrayData.call_helper preCollFn Event.preCollFn it.pobj w).2)
            else if odata.asArray != 0 then
              IterateV.do_array h fuel odata.asArray preArrFn arrFn
                (ArrayData.call_helper preCollFn Event.preCollFn it.pobj w).2
            else if odata.collectionType != CollectionType.Pair then none   -- assertx
            else
              match collections.at_ it.pobj odata (make_tv_Int64 0)
                  (ArrayData.call_helper preCollFn Event.preCollFn it.pobj w).2 with
              | none => none
              | some (e0, w0) =>
                if !(ArrayData.call_helper arrFn Event.arrFn e0 w0).1 then
                  match collections.at_ it.pobj odata
                      { make_tv_Int64 0 with m_data := 1 }
                      (ArrayData.call_helper arrFn Event.arrFn e0 w0).2 with
                  | none => none
                  | some (e1, w1) =>
                    some (true, (ArrayData.call_helper arrFn Event.arrFn e1 w1).2)
                else some (true, (ArrayData.call_helper arrFn Event.arrFn e0 w0).2)
          else
            match objFn with
            | .const b => some (b, w)                  -- ObjFn is bool
            | .fn _ =>
              if !odata.isIterable then some (false, w)
              else
                match ArrayIter.ctor_obj_NoInc h ArrayIter.uninit odata.iterableObject w with
                | none => none
                | some (iter, w1) =>
                  match IterateV.objLoop h objFn fuel iter w1 with
                  | none => none
                  | some (last, w2) => some (true, last.destruct w2)

/-- The overload `IterateV(it, preArrFn, arrFn, preCollFn)`: passes `false` for `objFn`. -/
def IterateV4 (h : Heap) (fuel : Nat) (it : TypedValue) (preArrFn : Callback Nat σ)
    (arrFn : Callback TypedValue σ) (preCollFn : Callback Nat σ) (w : World σ) :
    Option (Bool × World σ) :=
  IterateV h fuel it preArrFn arrFn preCollFn (Callback.const false) w

/-- The overload `IterateV(it, preArrFn, arrFn)`: passes `false` for `preCollFn`. -/
def IterateV3 (h : Heap) (fuel : Nat) (it : TypedValue) (preArrFn : Callback Nat σ)
    (arrFn : Callback TypedValue σ) (w : World σ) : Option (Bool × World σ) :=
  IterateV4 h fuel it preArrFn arrFn (Callback.const false) w

/-! ## Template based iteration: `IterateKV` -/

/-- The event of a call `arrFn(k, v)`. -/
def Event.ofKV (kv : TypedValue × TypedValue) : Event := Event.arrFnKV kv.1 kv.2

/-- The event of a call `objFn(k, v)`. -/
def Event.ofObjKV (kv : TypedValue × TypedValue) : Event := Event.objFnKV kv.1 kv.2

/-- The loop of the fallback of the array overload of `IterateKV`:
`for (...; iter; ++iter) { if (call_helper(arrFn, iter.nvFirst(), iter.secondVal())) break; }`. -/
def IterateKV_array.loop (h : Heap) (arrFn : Callback (TypedValue × TypedValue) σ) :
    Nat → ArrayIter → World σ → Option (ArrayIter × World σ)
  | 0, _, _ => none
  | fuel + 1, iter, w =>
    match iter.toBool h with
    | none => none
    | some false => some (iter, w)
    | some true =>
      match iter.nvFirst h, iter.secondVal h with
      | some k, some v =>
        if (ArrayData.call_helper arrFn Event.ofKV (k, v) w).1 then
          some (iter, (ArrayData.call_helper arrFn Event.ofKV (k, v) w).2)
        else
          match iter.next h with
          | none => none
          | some iter' =>
            IterateKV_array.loop h arrFn fuel iter'
              (ArrayData.call_helper arrFn Event.ofKV (k, v) w).2
      | _, _ => none

/-- The overload `IterateKV<ArrFn, IncRef>(const ArrayData* adata, ArrFn arrFn)`.  The
branch of the set-like layout calls `arrFn(v, v)` directly, so `ArrFn` is a callable. -/
def IterateKV_array (IncRef : Bool) (h : Heap) (fuel : Nat) (adata : Nat)
    (arrFn : TypedValue × TypedValue → σ → Bool × σ) (w : World σ) :
    Option (Bool × World σ) :=
  match h.arrayAt adata with
  | none => none
  | some a =>
    if a.empty then some (true, w)
    else if a.hasMixedLayout then
      some (true, MixedArray.IterateKV IncRef adata a (Callback.fn arrFn) w)
    else if a.hasPackedLayout then
      some (true, PackedArray.IterateKV IncRef adata a (Callback.fn arrFn) w)
    else if a.isKeyset then
      some (true, SetArray.Iterate IncRef adata a
        (Callback.fn (fun v => arrFn (v, v))) (fun v => Event.arrFnKV v v) w)
    else
      match ArrayIter.ctor h ArrayIter.uninit adata w with
      | none => none
      | some (iter, w1) =>
        match IterateKV_array.loop h (Callback.fn arrFn) fuel iter w1 with
        | none => none
        | some (last, w2) => some (true, last.destruct w2)

/-- The block `do_array` of the `TypedValue` overload of `IterateKV`; `preArrFn` is called
directly, so `PreArrFn` is a callable. -/
def IterateKV.do_array (h : Heap) (fuel : Nat) (adata : Nat) (preArrFn : Nat → σ → Bool × σ)
    (arrFn : TypedValue × TypedValue → σ → Bool × σ) (w : World σ) :
    Option (Bool × World σ) :=
  match h.arrayAt adata with
  | none => none
  | some _ =>
    if (ArrayData.call_helper (Callback.fn preArrFn) Event.preArrFn adata
        (w.incRefCount adata)).1 then
      some (true,
        (ArrayData.call_helper (Callback.fn preArrFn) Event.preArrFn adata
          (w.incRefCount adata)).2.decRefArr adata)
    else
      match IterateKV_array false h fuel adata arrFn
          (ArrayData.call_helper (Callback.fn preArrFn) Event.preArrFn adata
            (w.incRefCount adata)).2 with
      | none => none
      | some (b, w2) => some (b, w2.decRefArr adata)

/-- The loop of the object branch of `IterateKV`. -/
def IterateKV.objLoop (h : Heap) (objFn : Callback (TypedValue × TypedValue) σ) :
    Nat → ArrayIter → World σ → Option (ArrayIter × World σ)
  | 0, _, _ => none
  | fuel + 1, iter, w =>
    match iter.toBool h with
    | none => none
    | some false => some (iter, w)
    | some true =>
      match iter.first h, iter.second h with
      | some k, some v =>
        if (ArrayData.call_helper objFn Event.ofObjKV (k, v) w).1 then
          some (iter, (ArrayData.call_helper objFn Event.ofObjKV (k, v) w).2)
        else
          match iter.next h with
          | none => none
          | some iter' =>
            IterateKV.objLoop h objFn fuel iter'
              (ArrayData.call_helper objFn Event.ofObjKV (k, v) w).2
      | _, _ => none

/-- The overload `IterateKV(const TypedValue& it, preArrFn, arrFn, preCollFn, objFn)`. -/
def IterateKV (h : Heap) (fuel : Nat) (it : TypedValue) (preArrFn : Nat → σ → Bool × σ)
    (arrFn : TypedValue × TypedValue → σ → Bool × σ) (preCollFn : Callback Nat σ)
    (objFn : Callback (TypedValue × TypedValue) σ) (w : World σ) :
    Option (Bool × World σ) :=
  if isRefType it.m_type then none                     -- assertx(!isRefType(it.m_type))
  else if isArrayLikeType it.m_type then
    IterateKV.do_array h fuel it.parr preArrFn arrFn w
  else
    match preCollFn with
    | .const b => some (b, w)                          -- PreCollFn is bool
    | .fn _ =>
      if it.m_type != DataType.KindOfObject then some (false, w)
      else
        match h.objectAt it.pobj with
        | none => none
        | some odata =>
          if odata.isCollection then
            if (ArrayData.call_helper preCollFn Event.preCollFn it.pobj w).1 then
              some (true, (ArrayData.call_helper preCollFn Event.preCollFn it.pobj w).2)
            else if odata.asArray != 0 then
              IterateKV.do_array h fuel odata.asArray preArrFn arrFn
                (ArrayData.call_helper preCollFn Event.preCollFn it.pobj w).2
            else if odata.collectionType != CollectionType.Pair then none   -- assertx
            else
              match collections.at_ it.pobj odata (make_tv_Int64 0)
                  (ArrayData.call_helper preCollFn Event.preCollFn it.pobj w).2 with
              | none => none
              | some (e0, w0) =>
                if !(ArrayData.call_helper (Callback.fn arrFn) Event.ofKV
                    (make_tv_Int64 0, e0) w0).1 then
                  match collections.at_ it.pobj odata
                      { make_tv_Int64 0 with m_data := 1 }
                      (ArrayData.call_helper (Callback.fn arrFn) Event.ofKV
                        (make_tv_Int64 0, e0) w0).2 with
                  | none => none
                  | some (e1, w1) =>
                    some (true, (ArrayData.call_helper (Callback.fn arrFn) Event.ofKV
                      ({ make_tv_Int64 0 with m_data := 1 }, e1) w1).2)
                else
                  some (true, (ArrayData.call_helper (Callback.fn arrFn) Event.ofKV
                    (make_tv_Int64 0, e0) w0).2)
          else
            match objFn with
            | .const b => some (b, w)                  -- ObjFn is bool
            | .fn _ =>
              if !odata.isIterable then some (false, w)
              else
                match ArrayIter.ctor_obj_NoInc h ArrayIter.uninit odata.iterableObject w with
                | none => none
                | some (iter, w1) =>
                  match IterateKV.objLoop h objFn fuel iter w1 with
                  | none => none
                  | some (last, w2) => some (true, last.destruct w2)

/-- The overload `IterateKV(it, preArrFn, arrFn, preCollFn)`: passes `false` for `objFn`. -/
def IterateKV4 (h : Heap) (fuel : Nat) (it : TypedValue) (preArrFn : Nat → σ → Bool × σ)
    (arrFn : TypedValue × TypedValue → σ → Bool × σ) (preCollFn : Callback Nat σ)
    (w : World σ) : Option (Bool × World σ) :=
  IterateKV h fuel it preArrFn arrFn preCollFn (Callback.const false) w

/-- The overload `IterateKV(it, preArrFn, arrFn)`: passes `false` for `preCollFn`. -/
def IterateKV3 (h : Heap) (fuel : Nat) (it : TypedValue) (preArrFn : Nat → σ → Bool × σ)
    (arrFn : TypedValue × TypedValue → σ → Bool × σ) (w : World σ) :
    Option (Bool × World σ) :=
  IterateKV4 h fuel it preArrFn arrFn (Callback.const false) w

/-! ## `ArrayIter`: `advance` and `nextLocal` -/

/-- The value of a computation in `ssize_t`: the integer `x` reduced to the 64-bit signed
range. -/
def ssize_wrap (x : Int) : Int := (x + 2 ^ 63) % 2 ^ 64 - 2 ^ 63

namespace ArrayIter

/-- The method `advance`: `while (!end() && count--) { next(); }`.  The result is the
iterator the loop leaves behind and the number of calls of `next` it made. -/
def advance (h : Heap) : Nat → ArrayIter → Int → Option (ArrayIter × Nat)
  | 0, _, _ => none
  | fuel + 1, it, count =>
    match it.end_ h with
    | none => none
    | some true => some (it, 0)
    | some false =>
      if count != 0 then                               -- count--
        match it.next h with
        | none => none
        | some it' =>
          match advance h fuel it' (ssize_wrap (count - 1)) with
          | none => none
          | some (last, n) => some (last, n + 1)
      else some (it, 0)

/-- The step `nextLocal`: the answer and the iterator after the step. -/
def nextLocal (h : Heap) (it : ArrayIter) (ad : Nat) : Option (Bool × ArrayIter) :=
  match h.arrayAt ad with                              -- assertx(ad)
  | none => none
  | some a =>
    match it.getArrayData with                         -- assertx(!getArrayData())
    | none => none
    | some d =>
      if d != 0 then none
      else if it.m_pos == a.iter_end then none         -- assertx(m_pos != ad->iter_end())
      else
        some (a.iter_advance it.m_pos == a.iter_end,
          { it with m_pos := a.iter_advance it.m_pos })

/-- The answers of `k` successive calls of `nextLocal(ad)`, and the iterator after them. -/
def nextLocalN (h : Heap) (ad : Nat) : Nat → ArrayIter → Option (List Bool × ArrayIter)
  | 0, it => some ([], it)
  | k + 1, it =>
    match it.nextLocal h ad with
    | none => none
    | some (b, it') =>
      match nextLocalN h ad k it' with
      | none => none
      | some (bs, last) => some (b :: bs, last)

end ArrayIter

/-! ## `MArrayIter` -/

/-- Modelled from the spec: `isArrayType` of `datatype.h` (not under `src/`): the tags of
the plain arrays, counted or not; the header keeps it apart from `isArrayLikeType`. -/
def isArrayType : DataType → Bool
  | .KindOfPersistentArray | .KindOfArray => true
  | _ => false

/-- The part of `RefData` the iteration code consumes (`ref-data.h` is not under `src/`):
the storage cell `tv()`. -/
structure RefData where
  tv : TypedValue
  deriving DecidableEq, Repr

/-- The storage cells behind the addresses. -/
structure RefHeap where
  ref : Nat → Option RefData

/-- Dereference of a `RefData*`. -/
def RefHeap.refAt (r : RefHeap) (p : Nat) : Option RefData :=
  if p = 0 then none else r.ref p

/-- The storage cells after the cell at address `p` has been given the value `tv`. -/
def RefHeap.assign (r : RefHeap) (p : Nat) (tv : TypedValue) : RefHeap :=
  { ref := fun q => if q = p then some ⟨tv⟩ else r.ref q }

/-- The fields of `MArrayIter`; `m_ref` is the word of the union of `m_ref` and `m_data`,
with the low bit as the tag of an owned temporary array. -/
structure MArrayIter where
  m_ref : Nat
  m_pos : Int
  m_container : Nat
  m_resetFlag : Nat
  deriving DecidableEq, Repr

namespace MArrayIter

/-- The test `hasRef`: `m_ref && !(intptr_t(m_ref) & 1LL)`. -/
def hasRef (it : MArrayIter) : Bool := it.m_ref != 0 && (it.m_ref &&& 1) == 0

/-- The test `hasAd`: `bool(intptr_t(m_data) & 1LL)`. -/
def hasAd (it : MArrayIter) : Bool := (it.m_ref &&& 1) != 0

/-- The accessor `getRef`: asserts `hasRef()`, returns `m_ref`. -/
def getRef (it : MArrayIter) : Option Nat :=
  if it.hasRef then some it.m_ref else none

/-- The accessor `getAd`: asserts `hasAd()`, returns `m_data & ~1`. -/
def getAd (it : MArrayIter) : Option Nat :=
  if it.hasAd then some (it.m_ref &&& 0xFFFFFFFFFFFFFFFE) else none

/-- The setter `setRef`. -/
def setRef (it : MArrayIter) (ref : Nat) : MArrayIter := { it with m_ref := ref }

/-- The setter `setAd`: `m_data = val | 1`. -/
def setAd (it : MArrayIter) (val : Nat) : MArrayIter := { it with m_ref := val ||| 1 }

/-- The accessor `getContainer`. -/
def getContainer (it : MArrayIter) : Nat := it.m_container

/-- The setter `setContainer`. -/
def setContainer (it : MArrayIter) (arr : Nat) : MArrayIter := { it with m_container := arr }

/-- The accessor `getResetFlag`. -/
def getResetFlag (it : MArrayIter) : Bool := it.m_resetFlag != 0

/-- The setter `setResetFlag`. -/
def setResetFlag (it : MArrayIter) (reset : Bool) : MArrayIter :=
  { it with m_resetFlag := if reset then 1 else 0 }

/-- The accessor `getData`: asserts `hasRef()`; the array in the cell when the type of the
cell is an array type, `nullptr` otherwise. -/
def getData (r : RefHeap) (it : MArrayIter) : Option Nat :=
  if it.hasRef then
    match r.refAt it.m_ref with
    | none => none
    | some cell => some (if isArrayType cell.tv.m_type then cell.tv.parr else 0)
  else none

/-- The accessor `getArray`: `hasRef() ? getData() : getAd()`. -/
def getArray (r : RefHeap) (it : MArrayIter) : Option Nat :=
  if it.hasRef then it.getData r else it.getAd

end MArrayIter

/-! ## `MIterTable` -/

/-- The struct `MIterTable::Ent`; a slot is empty when its pointers are null. -/
structure MIterTable.Ent where
  array : Nat
  iter : Nat
  deriving DecidableEq, Repr

/-- The struct `MIterTable`: the inline slots `ents` and the bag `extras`. -/
structure MIterTable where
  ents : List MIterTable.Ent
  extras : List MIterTable.Ent
  deriving DecidableEq, Repr

namespace MIterTable

/-- The constant `ents_size`. -/
def ents_size : Nat := 7

/-- The empty slot. -/
def Ent.empty : Ent := ⟨0, 0⟩

/-- The slot holds an entry ("checking either one for null are both valid ways to check
if a slot is empty"). -/
def Ent.occupied (e : Ent) : Bool := e.array != 0

/-- Modelled from the spec: `MIterTable::clear` (defined in `array-iterator.cpp`, not under
`src/`): the table of a fresh execution context, `ents_size` empty inline slots and no
overflow bag. -/
def clear : MIterTable := { ents := List.replicate ents_size Ent.empty, extras := [] }

/-- Modelled from the spec: `strong_iterators_exist` (not under `src/`): "any array can
check that there are no active MArrayIters just by comparing the first slot of this table
with null". -/
def strong_iterators_exist (t : MIterTable) : Bool :=
  match t.ents with
  | [] => false
  | e :: _ => e.array != 0

/-- Some slot, inline or in the bag, holds an entry. -/
def anyOccupied (t : MIterTable) : Bool :=
  t.ents.any Ent.occupied || t.extras.any Ent.occupied

/-- The inline slots after the first empty one has been given the entry `e`; `none` when
no inline slot is empty. -/
def fillFirstEmpty (e : Ent) : List Ent → Option (List Ent)
  | [] => none
  | x :: xs =>
    if x.occupied then
      match fillFirstEmpty e xs with
      | none => none
      | some xs' => some (x :: xs')
    else some (e :: xs)

/-- Modelled from the spec: the registration of a mutable iterator with its container
(done by the constructors of `MArrayIter` in `array-iterator.cpp`, not under `src/`):
"first 7 simultaneous (container, iterator) pairs for the whole execution context live in
a fixed inline array"; "beyond that, an overflow growable bag is allocated lazily". -/
def register (t : MIterTable) (array iter : Nat) : MIterTable :=
  match fillFirstEmpty ⟨array, iter⟩ t.ents with
  | some ents' => { t with ents := ents' }
  | none => { t with extras := ⟨array, iter⟩ :: t.extras }

/-- The first occupied slot of a list of slots, and the list with that slot emptied. -/
def takeOccupied : List Ent → Option (Ent × List Ent)
  | [] => none
  | x :: xs =>
    if x.occupied then some (x, Ent.empty :: xs)
    else
      match takeOccupied xs with
      | none => none
      | some (e, xs') => some (e, x :: xs')

/-- The table after an entry, if there is one, has been moved into an empty first slot:
"if there are any active MArrayIters, one of them will be present in the first Ent slot
in this table". -/
def refill (t : MIterTable) : MIterTable :=
  match t.ents with
  | [] => t
  | first :: rest =>
    if first.occupied then t
    else
      match takeOccupied rest with
      | some (e, rest') => { t with ents := e :: rest' }
      | none =>
        match t.extras with
        | [] => t
        | e :: more => { ents := e :: rest, extras := more }

/-- Modelled from the spec: the unregistration `unregister(container, iterator)` of a
mutable iterator (done by the destructor of `MArrayIter` and by `free_strong_iterators`
in `array-iterator.cpp`, not under `src/`): the slots of the pair are emptied, in the
inline array and in the bag,
and the first slot is kept occupied as long as an entry is left. -/
def unregister (t : MIterTable) (array iter : Nat) : MIterTable :=
  refill
    { ents := t.ents.map
        (fun e => if e.array == array && e.iter == iter then Ent.empty else e),
      extras := t.extras.filter (fun e => !(e.array == array && e.iter == iter)) }

end MIterTable

/-- The states of the registry that can be reached: from the cleared table by registering
a (non-null) iterator with a (non-null) container and by unregistering a pair. -/
inductive MIterTable.Reachable : MIterTable → Prop where
  | clear : MIterTable.Reachable MIterTable.clear
  | register (t : MIterTable) (array iter : Nat) :
      MIterTable.Reachable t → array ≠ 0 → iter ≠ 0 →
      MIterTable.Reachable (t.register array iter)
  | unregister (t : MIterTable) (array iter : Nat) :
      MIterTable.Reachable t → MIterTable.Reachable (t.unregister array iter)

/-! ## `CufIter` -/

/-- The fields of `CufIter`; `m_obj_or_cls` is an object, or a class when its low bit is
set. -/
structure CufIter where
  m_obj_or_cls : Nat
  m_func : Nat
  m_name : Nat
  m_dynamic : Bool
  deriving DecidableEq, Repr

namespace CufIter

/-- The constructor `CufIter()`. -/
def ctor : CufIter :=
  { m_obj_or_cls := 0, m_func := 0, m_name := 0, m_dynamic := false }

/-- The accessor `func`. -/
def func (c : CufIter) : Nat := c.m_func

/-- The accessor `ctx`. -/
def ctx (c : CufIter) : Nat := c.m_obj_or_cls

/-- The accessor `name`. -/
def name (c : CufIter) : Nat := c.m_name

/-- The accessor `dynamic`. -/
def dynamic (c : CufIter) : Bool := c.m_dynamic

/-- The setter `setFunc`. -/
def setFunc (c : CufIter) (f : Nat) : CufIter := { c with m_func := f }

/-- The setter `setCtx(ObjectData* obj)`. -/
def setCtx_obj (c : CufIter) (obj : Nat) : CufIter := { c with m_obj_or_cls := obj }

/-- The setter `setCtx(const Class* cls)`: `nullptr` for a null class, else the address
`(char*)cls + 1` in the 64-bit address space. -/
def setCtx_cls (c : CufIter) (cls : Nat) : CufIter :=
  { c with m_obj_or_cls := if cls = 0 then 0 else (cls + 1) % 2 ^ 64 }

/-- The setter `setName`. -/
def setName (c : CufIter) (name : Nat) : CufIter := { c with m_name := name }

/-- The setter `setDynamic`. -/
def setDynamic (c : CufIter) (dynamic : Bool) : CufIter := { c with m_dynamic := dynamic }

end CufIter

/-! ## Vocabulary of the statements -/

/-- The state of a visitor after it has been called on each element of `xs` in turn,
starting in the state `s`. -/
def visitorState (g : α → σ → Bool × σ) : List α → σ → σ
  | [], s => s
  | x :: xs, s => visitorState g xs (g x s).2

/-- The number of elements of `xs` a visitor is called on when the calls stop after the
first answer `true`. -/
def visitedCount (g : α → σ → Bool × σ) : List α → σ → Nat
  | [], _ => 0
  | x :: xs, s => if (g x s).1 then 1 else visitedCount g xs (g x s).2 + 1

/-- The visitor `g`, called on the elements of `xs` in turn from the state `s`, answers
`true` for the first time on the element of index `k` (counted from `0`). -/
def FirstStopAt (g : α → σ → Bool × σ) (xs : List α) (s : σ) (k : Nat) : Prop :=
  ∃ hk : k < xs.length,
    (g (xs.get ⟨k, hk⟩) (visitorState g (xs.take k) s)).1 = true ∧
    ∀ (j : Nat) (hj : j < k),
      (g (xs.get ⟨j, Nat.lt_trans hj hk⟩) (visitorState g (xs.take j) s)).1 = false

/-- The visitor `g`, called on the elements of `xs` in turn from the state `s`, answers
`false` on every element. -/
def NeverStops (g : α → σ → Bool × σ) (xs : List α) (s : σ) : Prop :=
  ∀ (j : Nat) (hj : j < xs.length),
    (g (xs.get ⟨j, hj⟩) (visitorState g (xs.take j) s)).1 = false

/-- The arguments of the calls of `arrFn` (value form) recorded in a log, in order. -/
def arrFnCalls (log : List Event) : List TypedValue :=
  log.filterMap (fun e => match e with
    | Event.arrFn v => some v
    | _ => none)

/-- The arguments of the calls of `arrFn` (key and value form) recorded in a log, in
order. -/
def arrFnKVCalls (log : List Event) : List (TypedValue × TypedValue) :=
  log.filterMap (fun e => match e with
    | Event.arrFnKV k v => some (k, v)
    | _ => none)

/-- The container has none of the three native layouts, so that the array overloads fall
back to an `ArrayIter`. -/
def ArrayData.isGeneric (a : ArrayData) : Bool :=
  !a.hasPackedLayout && !a.hasMixedLayout && !a.isKeyset

/-- The event is a reference-count operation. -/
def Event.isRefOp : Event → Bool
  | Event.incRefCount _ => true
  | Event.decRefArr _ => true
  | _ => false

/-- The reference-count operations recorded in a log, in order. -/
def refOps (log : List Event) : List Event := log.filter Event.isRefOp

/-- The shape of a dispatch over the container `ad` at address `p`, started in the world
`w` and preceded by the events `pre`: it returns `true`; the container is pinned, then
the events `mid` happen, and the release of the container is the last event; the
reference-count operations within `mid` are none, or one more pin and release of `p`,
the latter only for a non-empty container of none of the native layouts; the reference
counts are in the end what they were. -/
def PinnedRun (p : Nat) (ad : ArrayData) (pre : List Event) (w : World σ)
    (r : Option (Bool × World σ)) : Prop :=
  ∃ w' mid, r = some (true, w') ∧
    w'.log = w.log ++ pre ++ Event.incRefCount p :: (mid ++ [Event.decRefArr p]) ∧
    w'.count = w.count ∧
    (refOps mid = [] ∨
      (ad.isGeneric = true ∧ ad.empty = false ∧
        refOps mid = [Event.incRefCount p, Event.decRefArr p]))

/-- The source is not iterable: the value is neither array-like nor an object, or it is
an object that is not a collection and whose `iterableObject` lookup reports that it is
not iterable. -/
def NotIterable (h : Heap) (it : TypedValue) : Prop :=
  isArrayLikeType it.m_type = false ∧
    (it.m_type ≠ DataType.KindOfObject ∨
      ∃ o, h.objectAt it.pobj = some o ∧ o.isCollection = false ∧ o.isIterable = false)

/-- The address `p` holds a container that obeys the position-cursor contract and has at
most `n` elements. -/
def WellFormedContainer (h : Heap) (p n : Nat) : Prop :=
  ∃ ad, h.arrayAt p = some ad ∧ p % 2 = 0 ∧ ad.CursorContract ∧ ad.size ≤ n

/-- The address `q` holds an iterator object (not a collection) whose adapted traversal
reports exhaustion after at most `n` move-next steps. -/
def WellFormedTraversal (h : Heap) (q n : Nat) : Prop :=
  ∃ t, h.objectAt q = some t ∧ q % 2 = 0 ∧ q < 2 ^ 64 ∧ t.isCollection = false ∧
    ∃ m : Nat, m ≤ n ∧ t.valid m = false

/-- What the dispatchers rely on in an object: the array view of a collection is a
well-formed container; a collection without an array view is a pair whose two positions
can be read; the traversal object of an iterable object is well formed. -/
def WellFormedObject (h : Heap) (o : ObjectData) (n : Nat) : Prop :=
  if o.isCollection then
    if o.asArray ≠ 0 then WellFormedContainer h o.asArray n
    else o.collectionType = CollectionType.Pair ∧
      (o.collections_at (make_tv_Int64 0)).isSome ∧
      (o.collections_at (make_tv_Int64 1)).isSome
  else if o.isIterable then WellFormedTraversal h o.iterableObject n
  else True

/-- What the dispatchers rely on in their argument: an array-like value holds a
well-formed container, an object value holds a well-formed object. -/
def WellFormedSource (h : Heap) (it : TypedValue) (n : Nat) : Prop :=
  if isArrayLikeType it.m_type then WellFormedContainer h it.parr n
  else if it.m_type = DataType.KindOfObject then
    ∃ o, h.objectAt it.pobj = some o ∧ WellFormedObject h o n
  else True

/-- The event with the key of a key-and-value call forgotten. -/
def Event.dropKey : Event → Event
  | Event.arrFnKV _ v => Event.arrFn v
  | Event.objFnKV _ v => Event.objFn v
  | e => e

/-- The world with the keys of the logged key-and-value calls forgotten. -/
def World.dropKeys (w : World σ) : World σ := { w with log := w.log.map Event.dropKey }

/-- The outcome of a dispatch with the keys of the logged calls forgotten. -/
def forgetKeys (r : Option (Bool × World σ)) : Option (Bool × World σ) :=
  r.map (fun x => (x.1, x.2.dropKeys))

/-- The callback `f` on the argument `a` and the callback `f'` on the argument `a'` do
the same: they are the same `bool`, or callables with the same answer and the same effect
on the state of the caller. -/
def Callback.Agree {β : Type} (f : Callback α σ) (f' : Callback β σ) (a : α) (a' : β) :
    Prop :=
  match f, f' with
  | .const b, .const b' => b = b'
  | .fn g, .fn g' => ∀ s, g a s = g' a' s
  | _, _ => False

/-- The key-and-value visitor `fKV` is the value visitor `fV` with a key it ignores:
`fKV(k, v) = fV(v)`. -/
def SameVisitor (fV : Callback TypedValue σ) (fKV : Callback (TypedValue × TypedValue) σ) :
    Prop :=
  ∀ k v, Callback.Agree fKV fV (k, v) v

/-- The registry is coherent: it has its `ents_size` inline slots, the bag holds occupied
entries only, and the first inline slot is occupied exactly when some slot is. -/
def MIterTable.Coherent (t : MIterTable) : Prop :=
  t.ents.length = MIterTable.ents_size ∧ (∀ e ∈ t.extras, e.occupied = true) ∧
    t.strong_iterators_exist = t.anyOccupied

/-! ## Example data -/

/-- The packed container `[1, 2, 3]`: keys `0, 1, 2`, cursors `0, 1, 2`, end sentinel `3`. -/
def exPacked : ArrayData where
  elems := [(make_tv_Int64 0, make_tv_Int64 1), (make_tv_Int64 1, make_tv_Int64 2),
    (make_tv_Int64 2, make_tv_Int64 3)]
  hasPackedLayout := true
  hasMixedLayout := false
  isKeyset := false
  iter_begin := 0
  iter_end := 3
  iter_advance := fun pos => pos + 1
  nvGetKey := fun pos => make_tv_Int64 pos
  rvalPos := fun pos => make_tv_Int64 (pos + 1)

/-- A container of none of the three native layouts holding `10 ↦ 7, 20 ↦ 8`: the cursors
are `4` and `9`, the end sentinel is `-1`. -/
def exGeneric : ArrayData where
  elems := [(make_tv_Int64 10, make_tv_Int64 7), (make_tv_Int64 20, make_tv_Int64 8)]
  hasPackedLayout := false
  hasMixedLayout := false
  isKeyset := false
  iter_begin := 4
  iter_end := -1
  iter_advance := fun pos => if pos = 4 then 9 else -1
  nvGetKey := fun pos => if pos = 4 then make_tv_Int64 10 else make_tv_Int64 20
  rvalPos := fun pos => if pos = 4 then make_tv_Int64 7 else make_tv_Int64 8

/-- An empty packed container. -/
def exEmpty : ArrayData where
  elems := []
  hasPackedLayout := true
  hasMixedLayout := false
  isKeyset := false
  iter_begin := 0
  iter_end := 0
  iter_advance := fun pos => pos + 1
  nvGetKey := fun pos => make_tv_Int64 pos
  rvalPos := fun pos => make_tv_Int64 pos

/-- The pair `Pair {5, 6}`: a collection without an array view. -/
def exPair : ObjectData where
  isCollection := true
  collectionType := CollectionType.Pair
  asArray := 0
  collections_at := fun k =>
    if k = make_tv_Int64 0 then some (make_tv_Int64 5)
    else if k = make_tv_Int64 1 then some (make_tv_Int64 6) else none
  isIterable := false
  iterableObject := 0
  valid := fun n => decide (0 ≤ n ∧ n < 2)
  key := fun n => make_tv_Int64 n
  current := fun n => make_tv_Int64 (n + 5)

/-- A vector collection whose array view is the container at address `8`. -/
def exVector : ObjectData where
  isCollection := true
  collectionType := CollectionType.Vector
  asArray := 8
  collections_at := fun _ => none
  isIterable := false
  iterableObject := 0
  valid := fun _ => false
  key := fun n => make_tv_Int64 n
  current := fun n => make_tv_Int64 n

/-- An object that is not a collection and not iterable. -/
def exPlainObject : ObjectData where
  isCollection := false
  collectionType := CollectionType.Vector
  asArray := 0
  collections_at := fun _ => none
  isIterable := false
  iterableObject := 0
  valid := fun _ => false
  key := fun n => make_tv_Int64 n
  current := fun n => make_tv_Int64 n

/-- An iterator object (not a collection) that is its own traversal object and yields
`40, 41` under the keys `0, 1`. -/
def exIterator : ObjectData where
  isCollection := false
  collectionType := CollectionType.Vector
  asArray := 0
  collections_at := fun _ => none
  isIterable := true
  iterableObject := 48
  valid := fun n => decide (0 ≤ n ∧ n < 2)
  key := fun n => make_tv_Int64 n
  current := fun n => make_tv_Int64 (n + 40)

/-- A heap: `exPacked` at `8`, `exGeneric` at `16`, `exEmpty` at `24`; `exPair` at `32`,
`exVector` at `40`, `exIterator` at `48`, `exPlainObject` at `56`. -/
def exHeap : Heap where
  arr := fun p =>
    if p = 8 then some exPacked else if p = 16 then some exGeneric
    else if p = 24 then some exEmpty else none
  obj := fun p =>
    if p = 32 then some exPair else if p = 40 then some exVector
    else if p = 48 then some exIterator else if p = 56 then some exPlainObject else none

/-- A world in which nothing has happened yet: the callbacks own a counter of their
invocations, every reference count is `1`. -/
def exWorld : World Nat := { user := 0, count := fun _ => 1, log := [] }

/-- A visitor that counts its invocations and asks to stop at the second one. -/
def exStopAfterTwo : TypedValue → Nat → Bool × Nat := fun _ n => (n + 1 == 2, n + 1)

/-- A visitor that counts its invocations and never asks to stop. -/
def exCountAll : TypedValue → Nat → Bool × Nat := fun _ n => (false, n + 1)

/-- A key and value visitor that counts its invocations and asks to stop at once. -/
def exStopAtOnceKV : TypedValue × TypedValue → Nat → Bool × Nat := fun _ n => (true, n + 1)

/-- A pre-step that lets the iteration go on and leaves the state alone. -/
def exPreStepFalse : Nat → Nat → Bool × Nat := fun _ n => (false, n)

/-- A pre-step that takes over the work (here: adds `100` to the state) and answers
`true`. -/
def exPreStepTrue : Nat → Nat → Bool × Nat := fun _ n => (true, n + 100)

/-- The value holding the object at address `32` (`exPair`). -/
def exPairValue : TypedValue := ⟨32, DataType.KindOfObject⟩

/-- The value holding the vector at address `40` (`exVector`, whose array view is
`exPacked`). -/
def exVectorValue : TypedValue := ⟨40, DataType.KindOfObject⟩

/-- The array value holding the container at address `16` (`exGeneric`). -/
def exGenericValue : TypedValue := ⟨16, DataType.KindOfArray⟩

/-- The array value holding the container at address `8` (`exPacked`). -/
def exPackedValue : TypedValue := ⟨8, DataType.KindOfVec⟩

/-- The value holding the iterator object at address `48` (`exIterator`). -/
def exIteratorValue : TypedValue := ⟨48, DataType.KindOfObject⟩

/-- The value holding the object at address `56` (`exPlainObject`). -/
def exPlainObjectValue : TypedValue := ⟨56, DataType.KindOfObject⟩

/-- A mutable iterator bound to the storage cell at address `64`. -/
def exMIter : MArrayIter := { m_ref := 64, m_pos := 0, m_container := 8, m_resetFlag := 1 }

/-- Storage cells: the cell at `64` holds the plain array at address `16`. -/
def exRefs : RefHeap :=
  { ref := fun p => if p = 64 then some ⟨⟨16, DataType.KindOfArray⟩⟩ else none }

/-- A callable descriptor with all four fields set. -/
def exCuf : CufIter := { m_obj_or_cls := 32, m_func := 72, m_name := 80, m_dynamic := true }

/-- The keyset `keyset[3, 4]` at cursors `0, 1`, end sentinel `2`. -/
def exKeyset : ArrayData where
  elems := [(make_tv_Int64 3, make_tv_Int64 3), (make_tv_Int64 4, make_tv_Int64 4)]
  hasPackedLayout := false
  hasMixedLayout := false
  isKeyset := true
  iter_begin := 0
  iter_end := 2
  iter_advance := fun pos => pos + 1
  nvGetKey := fun pos => make_tv_Int64 (pos + 3)
  rvalPos := fun pos => make_tv_Int64 (pos + 3)

/-- A heap that holds `exKeyset` at address `8`. -/
def exKeysetHeap : Heap where
  arr := fun p => if p = 8 then some exKeyset else none
  obj := fun _ => none

/-- A key and value visitor that counts its invocations and never asks to stop. -/
def exCountAllKV : TypedValue × TypedValue → Nat → Bool × Nat := fun _ n => (false, n + 1)

/-! ## Properties of `ArrayIter` over a container -/

namespace ArrayIter

theorem arrayAt_ne_zero {h : Heap} {p : Nat} {ad : ArrayData} (hp : h.arrayAt p = some ad) :
    p ≠ 0 := by
  intro h0
  simp [Heap.arrayAt, h0] at hp

theorem hasArrayData_of_even {it : ArrayIter} (h2 : it.m_data % 2 = 0) :
    it.hasArrayData = true := by
  simp [hasArrayData, Nat.and_one_is_mod, h2]

theorem end_of_container {h : Heap} {it : ArrayIter} {ad : ArrayData}
    (hp : h.arrayAt it.m_data = some ad) (h2 : it.m_data % 2 = 0) :
    it.end_ h = some (it.m_pos == ad.iter_end) := by
  have hne := arrayAt_ne_zero hp
  simp [end_, getArrayData, hasArrayData_of_even h2, hp, hne]

theorem next_of_container {h : Heap} {it : ArrayIter} {ad : ArrayData}
    (hp : h.arrayAt it.m_data = some ad) (h2 : it.m_data % 2 = 0)
    (hpos : it.m_pos ≠ ad.iter_end) :
    it.next h = some { it with m_pos := ad.iter_advance it.m_pos } := by
  simp [next, getArrayData, hasArrayData_of_even h2, hp, hpos]

theorem nvFirst_of_container {h : Heap} {it : ArrayIter} {ad : ArrayData}
    (hp : h.arrayAt it.m_data = some ad) (h2 : it.m_data % 2 = 0)
    (hpos : it.m_pos ≠ ad.iter_end) :
    it.nvFirst h = some (ad.nvGetKey it.m_pos) := by
  simp [nvFirst, getArrayData, hasArrayData_of_even h2, hp, hpos]

theorem nvSecond_of_container {h : Heap} {it : ArrayIter} {ad : ArrayData}
    (hp : h.arrayAt it.m_data = some ad) (h2 : it.m_data % 2 = 0)
    (hpos : it.m_pos ≠ ad.iter_end) :
    it.nvSecond h = some (ad.rvalPos it.m_pos) := by
  simp [nvSecond, getArrayData, hasArrayData_of_even h2, hp, hpos]

theorem setArrayData_false_of_container {h : Heap} {p : Nat} {ad : ArrayData}
    (hp : h.arrayAt p = some ad) (h2 : p % 2 = 0) (self : ArrayIter) :
    ∃ s, setArrayData false h self p = some s ∧ s.m_data = p ∧ s.m_pos = self.m_pos ∧
      s.m_itype = self.m_itype := by
  have hne := arrayAt_ne_zero hp
  by_cases h1 : ad.hasPackedLayout <;> by_cases h3 : ad.hasMixedLayout <;>
    simp [setArrayData, Nat.and_one_is_mod, h2, hp, hne, h1, h3]

theorem ctor_NoInc_of_container {h : Heap} {p : Nat} {ad : ArrayData}
    (hp : h.arrayAt p = some ad) (h2 : p % 2 = 0) (self : ArrayIter) :
    ∃ it, ctor_NoInc h self p = some it ∧ it.m_data = p ∧ it.m_pos = ad.iter_begin := by
  obtain ⟨s, hs, hd, -, -⟩ := setArrayData_false_of_container hp h2 self
  have hne := arrayAt_ne_zero hp
  exact ⟨{ s with m_pos := ad.iter_begin }, by simp [ctor_NoInc, hs, hp, hne], hd, rfl⟩

theorem forLoop_from {h : Heap} {p : Nat} {ad : ArrayData}
    (hp : h.arrayAt p = some ad) (h2 : p % 2 = 0) (hc : ad.CursorContract) :
    ∀ (fuel i : Nat) (it : ArrayIter), i ≤ ad.size → ad.size - i < fuel → it.m_data = p →
      it.m_pos = ad.cursorAt i →
      forLoop h fuel it = some (ad.elems.drop i, { it with m_pos := ad.iter_end }) := by
  intro fuel
  induction fuel with
  | zero => intro i it _ hf; omega
  | succ fuel ih =>
    intro i it hi hf hd hpos
    subst hd
    rcases Nat.lt_or_ge i ad.size with hlt | hge
    · have hlt' : i < ad.elems.length := hlt
      obtain ⟨hne, hk, hv⟩ := hc.2 i hlt'
      have hne' : it.m_pos ≠ ad.iter_end := by rw [hpos]; exact hne
      have hnext := next_of_container hp h2 hne'
      have hrec := ih (i + 1) { it with m_pos := ad.iter_advance it.m_pos } hlt
        (by omega) rfl (by simp [ArrayData.cursorAt, hpos])
      simp only [forLoop, end_of_container hp h2, nvFirst_of_container hp h2 hne',
        nvSecond_of_container hp h2 hne', hnext, hrec]
      simp only [hpos, hk, hv, beq_iff_eq, hne, List.get_eq_getElem]
      have hb : (ad.cursorAt i == ad.iter_end) = false := by simpa using hne
      rw [List.drop_eq_getElem_cons hlt', hb]
    · have hi' : i = ad.size := Nat.le_antisymm hi hge
      have hend : it.m_pos = ad.iter_end := by rw [hpos, hi']; exact hc.1
      have hdrop : ad.elems.drop i = [] := by
        apply List.drop_eq_nil_of_le
        rw [hi']; exact Nat.le_refl _
      simp only [forLoop, end_of_container hp h2, hend, beq_self_eq_true, hdrop]
      rw [← hend]

theorem nextN_from {h : Heap} {p : Nat} {ad : ArrayData}
    (hp : h.arrayAt p = some ad) (h2 : p % 2 = 0) (hc : ad.CursorContract) :
    ∀ (n i : Nat) (it : ArrayIter), i + n ≤ ad.size → it.m_data = p →
      it.m_pos = ad.cursorAt i →
      nextN h n it = some { it with m_pos := ad.cursorAt (i + n) } := by
  intro n
  induction n with
  | zero =>
    intro i it _ _ hpos
    simp [nextN, ← hpos]
  | succ n ih =>
    intro i it hi hd hpos
    subst hd
    have hlt : i < ad.elems.length := by
      have : i < ad.size := by omega
      exact this
    obtain ⟨hne, -, -⟩ := hc.2 i hlt
    have hne' : it.m_pos ≠ ad.iter_end := by rw [hpos]; exact hne
    have hrec := ih (i + 1) { it with m_pos := ad.iter_advance it.m_pos } (by omega) rfl
      (by simp [ArrayData.cursorAt, hpos])
    simp only [nextN, next_of_container hp h2 hne', hrec]
    have : i + 1 + n = i + (n + 1) := by omega
    simp [this]

end ArrayIter

/-- C1: an `ArrayIter` constructed (`NoInc`) from a container that obeys the
position-cursor contract (empty or not) and driven by `for (; !iter.end(); iter.next())`
yields exactly the elements of the container, each once and in iteration order, and
leaves an iterator at its end; after `i` calls of `next`, for `i` up to the size of the
container, the test `end()` answers `true` exactly when `i` is that size. -/
theorem C1_arrayIter_visits_each_element_once (h : Heap) (self : ArrayIter) (p : Nat)
    (ad : ArrayData) (hp : h.arrayAt p = some ad) (h2 : p % 2 = 0)
    (hc : ad.CursorContract) :
    ∃ it0, ArrayIter.ctor_NoInc h self p = some it0 ∧
      (∀ fuel, ad.size < fuel →
        ∃ last, ArrayIter.forLoop h fuel it0 = some (ad.elems, last) ∧
          last.end_ h = some true) ∧
      (∀ i, i ≤ ad.size →
        ∃ it_i, ArrayIter.nextN h i it0 = some it_i ∧
          it_i.end_ h = some (decide (i = ad.size))) := by
  obtain ⟨it0, hit0, hd, hpos⟩ := ArrayIter.ctor_NoInc_of_container hp h2 self
  refine ⟨it0, hit0, ?_, ?_⟩
  · intro fuel hf
    have hl := ArrayIter.forLoop_from hp h2 hc fuel 0 it0 (Nat.zero_le _) (by omega) hd
      (by simp [ArrayData.cursorAt, hpos])
    refine ⟨_, by simpa using hl, ?_⟩
    have hp' : h.arrayAt ({ it0 with m_pos := ad.iter_end } : ArrayIter).m_data = some ad := by
      simp [hd, hp]
    rw [ArrayIter.end_of_container hp' (by simp [hd, h2])]
    simp
  · intro i hi
    have hn := ArrayIter.nextN_from hp h2 hc i 0 it0 (by omega) hd
      (by simp [ArrayData.cursorAt, hpos])
    refine ⟨_, hn, ?_⟩
    have hp' : h.arrayAt ({ it0 with m_pos := ad.cursorAt (0 + i) } : ArrayIter).m_data
        = some ad := by simp [hd, hp]
    rw [ArrayIter.end_of_container hp' (by simp [hd, h2])]
    simp only [Nat.zero_add, Option.some.injEq]
    rcases Nat.lt_or_ge i ad.size with hlt | hge
    · have := (hc.2 i hlt).1
      simp [this, Nat.ne_of_lt hlt]
    · have hi' : i = ad.size := Nat.le_antisymm hi hge
      simp [hi', hc.1]

theorem C1_arrayIter_visits_each_element_once_witness :
    ∃ it0, ArrayIter.ctor_NoInc exHeap ArrayIter.uninit 16 = some it0 ∧
      (∀ fuel, exGeneric.size < fuel →
        ∃ last, ArrayIter.forLoop exHeap fuel it0 = some (exGeneric.elems, last) ∧
          last.end_ exHeap = some true) ∧
      (∀ i, i ≤ exGeneric.size →
        ∃ it_i, ArrayIter.nextN exHeap i it0 = some it_i ∧
          it_i.end_ exHeap = some (decide (i = exGeneric.size))) :=
  C1_arrayIter_visits_each_element_once exHeap ArrayIter.uninit 16 exGeneric
    rfl (by decide) (by decide)

/-- C2: an `ArrayIter` freshly constructed from an empty container reports
`end() == true`, and its `operator bool` is `false`, before any call of `next`. -/
theorem C2_arrayIter_empty_container_at_end (h : Heap) (self : ArrayIter) (p : Nat)
    (ad : ArrayData) (hp : h.arrayAt p = some ad) (h2 : p % 2 = 0)
    (hc : ad.CursorContract) (hempty : ad.elems = []) :
    ∃ it0, ArrayIter.ctor_NoInc h self p = some it0 ∧ it0.end_ h = some true ∧
      it0.toBool h = some false := by
  obtain ⟨it0, hit0, hd, hpos⟩ := ArrayIter.ctor_NoInc_of_container hp h2 self
  have hp' : h.arrayAt it0.m_data = some ad := by rw [hd]; exact hp
  have hend : it0.end_ h = some true := by
    rw [ArrayIter.end_of_container hp' (by rw [hd]; exact h2), hpos]
    have h0 := hc.1
    simp only [ArrayData.size, hempty, List.length_nil, ArrayData.cursorAt] at h0
    simp [h0]
  exact ⟨it0, hit0, hend, by simp [ArrayIter.toBool, hend]⟩

theorem C2_arrayIter_empty_container_at_end_witness :
    ∃ it0, ArrayIter.ctor_NoInc exHeap ArrayIter.uninit 24 = some it0 ∧
      it0.end_ exHeap = some true ∧ it0.toBool exHeap = some false :=
  C2_arrayIter_empty_container_at_end exHeap ArrayIter.uninit 24 exEmpty
    rfl (by decide) (by decide) (by decide)

/-- C5: over an unmodified container, a first `ArrayIter` constructed from it and advanced
to exhaustion while recording the key and the value at each step, and a second one
constructed afterwards from the same container (here in the storage the exhausted
iterator left behind, or in any other storage), record the identical sequence of keys
and values, which is the sequence of the elements of the container. -/
theorem C5_arrayIter_second_pass_same_sequence (h : Heap) (self : ArrayIter) (p : Nat)
    (ad : ArrayData) (hp : h.arrayAt p = some ad) (h2 : p % 2 = 0)
    (hc : ad.CursorContract) (fuel : Nat) (hf : ad.size < fuel) :
    ∃ seq last,
      (ArrayIter.ctor_NoInc h self p).bind (ArrayIter.forLoop h fuel) = some (seq, last) ∧
      (∃ last2, (ArrayIter.ctor_NoInc h last p).bind (ArrayIter.forLoop h fuel)
        = some (seq, last2)) ∧
      (∀ self2, ∃ last2, (ArrayIter.ctor_NoInc h self2 p).bind (ArrayIter.forLoop h fuel)
        = some (seq, last2)) ∧
      seq = ad.elems := by
  have key : ∀ s : ArrayIter, ∃ last,
      (ArrayIter.ctor_NoInc h s p).bind (ArrayIter.forLoop h fuel) = some (ad.elems, last) := by
    intro s
    obtain ⟨it0, hit0, hd, hpos⟩ := ArrayIter.ctor_NoInc_of_container hp h2 s
    have hl := ArrayIter.forLoop_from hp h2 hc fuel 0 it0 (Nat.zero_le _) (by omega) hd
      (by simp [ArrayData.cursorAt, hpos])
    exact ⟨_, by simpa [hit0] using hl⟩
  obtain ⟨last, hlast⟩ := key self
  exact ⟨ad.elems, last, hlast, key last, key, rfl⟩

theorem C5_arrayIter_second_pass_same_sequence_witness :
    ∃ seq last,
      (ArrayIter.ctor_NoInc exHeap ArrayIter.uninit 8).bind (ArrayIter.forLoop exHeap 4)
        = some (seq, last) ∧
      (∃ last2, (ArrayIter.ctor_NoInc exHeap last 8).bind (ArrayIter.forLoop exHeap 4)
        = some (seq, last2)) ∧
      (∀ self2, ∃ last2, (ArrayIter.ctor_NoInc exHeap self2 8).bind (ArrayIter.forLoop exHeap 4)
        = some (seq, last2)) ∧
      seq = exPacked.elems :=
  C5_arrayIter_second_pass_same_sequence exHeap ArrayIter.uninit 8 exPacked
    rfl (by decide) (by decide) 4 (by decide)

/-! ## Direct walks -/

theorem walk_fn (g : α → σ → Bool × σ) (ev : α → Event) :
    ∀ (xs : List α) (w : World σ),
      walk (Callback.fn g) ev xs w =
        { user := visitorState g (xs.take (visitedCount g xs w.user)) w.user,
          count := w.count,
          log := w.log ++ (xs.take (visitedCount g xs w.user)).map ev } := by
  intro xs
  induction xs with
  | nil => intro w; simp [walk, visitedCount, visitorState]
  | cons x xs ih =>
    intro w
    by_cases hx : (g x w.user).1 = true
    · simp [walk, ArrayData.call_helper, visitedCount, visitorState, hx]
    · simp [walk, ArrayData.call_helper, visitedCount, visitorState, hx, ih]

theorem visitedCount_le (g : α → σ → Bool × σ) :
    ∀ (xs : List α) (s : σ), visitedCount g xs s ≤ xs.length := by
  intro xs
  induction xs with
  | nil => intro s; simp [visitedCount]
  | cons x xs ih =>
    intro s
    by_cases hx : (g x s).1 = true
    · simp [visitedCount, hx]
    · simpa [visitedCount, hx] using ih (g x s).2

theorem visitedCount_of_firstStopAt (g : α → σ → Bool × σ) :
    ∀ (xs : List α) (s : σ) (k : Nat), FirstStopAt g xs s k → visitedCount g xs s = k + 1 := by
  intro xs
  induction xs with
  | nil => intro s k ⟨hk, _⟩; simp at hk
  | cons x xs ih =>
    intro s k ⟨hk, htrue, hfalse⟩
    cases k with
    | zero =>
      have : (g x s).1 = true := by simpa [visitorState] using htrue
      simp [visitedCount, this]
    | succ k =>
      have h0 : (g x s).1 = false := by
        simpa [visitorState] using hfalse 0 (Nat.succ_pos k)
      have hk' : k < xs.length := by simpa using hk
      have hrec : FirstStopAt g xs (g x s).2 k := by
        refine ⟨hk', ?_, ?_⟩
        · simpa [visitorState] using htrue
        · intro j hj
          simpa [visitorState] using hfalse (j + 1) (Nat.succ_lt_succ hj)
      simp [visitedCount, h0, ih (g x s).2 k hrec]

theorem visitedCount_of_neverStops (g : α → σ → Bool × σ) :
    ∀ (xs : List α) (s : σ), NeverStops g xs s → visitedCount g xs s = xs.length := by
  intro xs
  induction xs with
  | nil => intro s _; simp [visitedCount]
  | cons x xs ih =>
    intro s hn
    have h0 : (g x s).1 = false := by
      simpa [visitorState] using hn 0 (by simp)
    have hrec : NeverStops g xs (g x s).2 := by
      intro j hj
      simpa [visitorState] using hn (j + 1) (by simpa using hj)
    simp [visitedCount, h0, ih (g x s).2 hrec]

theorem arrFnCalls_append (l1 l2 : List Event) :
    arrFnCalls (l1 ++ l2) = arrFnCalls l1 ++ arrFnCalls l2 := by
  simp [arrFnCalls, List.filterMap_append]

theorem arrFnCalls_map_arrFn (xs : List TypedValue) :
    arrFnCalls (xs.map Event.arrFn) = xs := by
  induction xs with
  | nil => rfl
  | cons x xs ih =>
    simp only [arrFnCalls, List.map_cons, List.filterMap_cons] at ih ⊢
    rw [ih]

/-! ## The array overload of `IterateV` -/

theorem toBool_of_container {h : Heap} {it : ArrayIter} {ad : ArrayData}
    (hp : h.arrayAt it.m_data = some ad) (h2 : it.m_data % 2 = 0) :
    it.toBool h = some (!(it.m_pos == ad.iter_end)) := by
  simp [ArrayIter.toBool, ArrayIter.end_of_container hp h2]

theorem values_drop (ad : ArrayData) (i : Nat) (hi : i < ad.elems.length) :
    ad.values.drop i = (ad.elems.get ⟨i, hi⟩).2 :: ad.values.drop (i + 1) := by
  have hi' : i < ad.values.length := by simpa [ArrayData.values] using hi
  rw [List.drop_eq_getElem_cons hi']
  simp [ArrayData.values]

theorem values_drop_size (ad : ArrayData) : ad.values.drop ad.size = [] := by
  apply List.drop_eq_nil_of_le
  simp [ArrayData.values, ArrayData.size]

theorem IterateV_array_loop_eq_walk {h : Heap} {p : Nat} {ad : ArrayData}
    (hp : h.arrayAt p = some ad) (h2 : p % 2 = 0) (hc : ad.CursorContract)
    (arrFn : Callback TypedValue σ) :
    ∀ (fuel i : Nat) (it : ArrayIter) (w : World σ), i ≤ ad.size → ad.size - i < fuel →
      it.m_data = p → it.m_pos = ad.cursorAt i →
      ∃ last, IterateV_array.loop h arrFn fuel it w
          = some (last, walk arrFn Event.arrFn (ad.values.drop i) w) ∧ last.m_data = p := by
  intro fuel
  induction fuel with
  | zero => intro i it w _ hf; omega
  | succ fuel ih =>
    intro i it w hi hf hd hpos
    subst hd
    rcases Nat.lt_or_ge i ad.size with hlt | hge
    · have hlt' : i < ad.elems.length := hlt
      obtain ⟨hne, -, hv⟩ := hc.2 i hlt'
      have hne' : it.m_pos ≠ ad.iter_end := by rw [hpos]; exact hne
      have hb : (it.m_pos == ad.iter_end) = false := by simpa using hne'
      have hsv : it.secondVal h = some (ad.elems.get ⟨i, hlt'⟩).2 := by
        simp [ArrayIter.secondVal, ArrayIter.hasArrayData_of_even h2,
          ArrayIter.nvSecond_of_container hp h2 hne', hpos, hv]
      obtain ⟨last, hrec, hlast⟩ := ih (i + 1) { it with m_pos := ad.iter_advance it.m_pos }
        (ArrayData.call_helper arrFn Event.arrFn (ad.elems.get ⟨i, hlt'⟩).2 w).2 hlt
        (by omega) rfl (by simp [ArrayData.cursorAt, hpos])
      rw [values_drop ad i hlt']
      simp only [IterateV_array.loop, toBool_of_container hp h2, hb, Bool.not_false, hsv,
        ArrayIter.next_of_container hp h2 hne', walk]
      by_cases hx : (ArrayData.call_helper arrFn Event.arrFn (ad.elems.get ⟨i, hlt'⟩).2 w).1
          = true
      · simp only [hx, if_true]
        exact ⟨it, rfl, rfl⟩
      · simp only [hx, if_false]
        exact ⟨last, by simpa using hrec, hlast⟩
    · have hi' : i = ad.size := Nat.le_antisymm hi hge
      have hend : it.m_pos = ad.iter_end := by rw [hpos, hi']; exact hc.1
      have hb : (it.m_pos == ad.iter_end) = true := by simp [hend]
      rw [hi', values_drop_size]
      simp only [IterateV_array.loop, toBool_of_container hp h2, hb, Bool.not_true, walk]
      exact ⟨it, rfl, rfl⟩

theorem ctor_of_container {h : Heap} {p : Nat} {ad : ArrayData}
    (hp : h.arrayAt p = some ad) (h2 : p % 2 = 0) (self : ArrayIter) (w : World σ) :
    ∃ it, ArrayIter.ctor h self p w = some (it, w.incRefCount p) ∧ it.m_data = p ∧
      it.m_pos = ad.iter_begin := by
  obtain ⟨it, hit, hd, hpos⟩ := ArrayIter.ctor_NoInc_of_container hp h2 self
  have hne := ArrayIter.arrayAt_ne_zero hp
  exact ⟨it, by simp [ArrayIter.ctor, hit, hne], hd, hpos⟩

theorem destruct_of_container {p : Nat} (hne : p ≠ 0) (h2 : p % 2 = 0) (it : ArrayIter)
    (hd : it.m_data = p) (w : World σ) : it.destruct w = w.decRefArr p := by
  subst hd
  simp [ArrayIter.destruct, ArrayIter.hasArrayData_of_even h2, hne]

/-- The array overload of `IterateV` over a container that obeys the position-cursor
contract returns `true` and does what a direct walk over the values does; the walk is
bracketed by a pin and a release when `IncRef` is set or when the fallback `ArrayIter`
holds the container. -/
theorem IterateV_array_eq {h : Heap} {p : Nat} {ad : ArrayData}
    (hp : h.arrayAt p = some ad) (h2 : p % 2 = 0) (hc : ad.CursorContract)
    (IncRef : Bool) (fuel : Nat) (hf : ad.size < fuel) (arrFn : Callback TypedValue σ)
    (w : World σ) :
    IterateV_array IncRef h fuel p arrFn w =
      some (true, if ad.empty then w
        else pinnedWalk (if ad.isGeneric then true else IncRef) p arrFn Event.arrFn
          ad.values w) := by
  by_cases he : ad.empty = true
  · simp [IterateV_array, hp, he]
  by_cases h1 : ad.hasPackedLayout = true
  · simp [IterateV_array, hp, he, h1, PackedArray.IterateV, ArrayData.isGeneric]
  by_cases h3 : ad.hasMixedLayout = true
  · simp [IterateV_array, hp, he, h1, h3, MixedArray.IterateV, ArrayData.isGeneric]
  by_cases h4 : ad.isKeyset = true
  · simp [IterateV_array, hp, he, h1, h3, h4, SetArray.Iterate, ArrayData.isGeneric]
  obtain ⟨it0, hit0, hd, hpos⟩ := ctor_of_container hp h2 ArrayIter.uninit w
  obtain ⟨last, hloop, hlast⟩ := IterateV_array_loop_eq_walk hp h2 hc arrFn fuel 0 it0
    (w.incRefCount p) (Nat.zero_le _) (by omega) hd (by simp [ArrayData.cursorAt, hpos])
  have hne := ArrayIter.arrayAt_ne_zero hp
  simp only [List.drop_zero] at hloop
  simp [IterateV_array, hp, he, h1, h3, h4, hit0, hloop, ArrayData.isGeneric,
    destruct_of_container hne h2 last hlast, pinnedWalk]

theorem arrFnCalls_incRefCount (w : World σ) (p : Nat) :
    arrFnCalls (w.incRefCount p).log = arrFnCalls w.log := by
  simp [World.incRefCount, arrFnCalls, List.filterMap_append]

theorem arrFnCalls_decRefArr (w : World σ) (p : Nat) :
    arrFnCalls (w.decRefArr p).log = arrFnCalls w.log := by
  simp [World.decRefArr, arrFnCalls, List.filterMap_append]

theorem pinnedWalk_fn_calls (b : Bool) (p : Nat) (g : TypedValue → σ → Bool × σ)
    (xs : List TypedValue) (w : World σ) :
    arrFnCalls (pinnedWalk b p (Callback.fn g) Event.arrFn xs w).log
        = arrFnCalls w.log ++ xs.take (visitedCount g xs w.user) ∧
      (pinnedWalk b p (Callback.fn g) Event.arrFn xs w).user
        = visitorState g (xs.take (visitedCount g xs w.user)) w.user := by
  have hu : (w.incRefCount p).user = w.user := rfl
  cases b with
  | false =>
    simp only [pinnedWalk, walk_fn, arrFnCalls_append, arrFnCalls_map_arrFn, Bool.false_eq_true,
      if_false, and_self]
  | true =>
    simp only [pinnedWalk, walk_fn, arrFnCalls_append, arrFnCalls_map_arrFn,
      arrFnCalls_decRefArr, arrFnCalls_incRefCount, hu, if_true, true_and]
    rfl

/-- C3: over a container that obeys the position-cursor contract, the array overload of
`IterateV` calls the visitor on the values of the container in iteration order and stops
after the first value on which the visitor answers `true`: if that is the value of index
`k` (counted from `0`), the visitor has been called on exactly the first `k + 1` values,
in order, and the overload returns `true`; if the visitor never answers `true`, it has
been called on every value, in order. -/
theorem C3_iterateV_array_stops_at_first_true (IncRef : Bool) (h : Heap) (fuel : Nat)
    (p : Nat) (ad : ArrayData) (g : TypedValue → σ → Bool × σ) (w : World σ)
    (hp : h.arrayAt p = some ad) (h2 : p % 2 = 0) (hc : ad.CursorContract)
    (hf : ad.size < fuel) :
    (∀ k, FirstStopAt g ad.values w.user k →
      ∃ w', IterateV_array IncRef h fuel p (Callback.fn g) w = some (true, w') ∧
        arrFnCalls w'.log = arrFnCalls w.log ++ ad.values.take (k + 1) ∧
        w'.user = visitorState g (ad.values.take (k + 1)) w.user) ∧
    (NeverStops g ad.values w.user →
      ∃ w', IterateV_array IncRef h fuel p (Callback.fn g) w = some (true, w') ∧
        arrFnCalls w'.log = arrFnCalls w.log ++ ad.values ∧
        w'.user = visitorState g ad.values w.user) := by
  have hrun := IterateV_array_eq hp h2 hc IncRef fuel hf (Callback.fn g) w
  constructor
  · intro k hk
    have hn := visitedCount_of_firstStopAt g ad.values w.user k hk
    have hne : ad.empty = false := by
      obtain ⟨hlt, -, -⟩ := hk
      have hlt' : k < ad.elems.length := by simpa [ArrayData.values] using hlt
      have hpos : ad.elems.length ≠ 0 := by omega
      simpa [ArrayData.empty, ArrayData.size] using hpos
    rw [hne] at hrun
    refine ⟨_, hrun, ?_⟩
    have hw := pinnedWalk_fn_calls (if ad.isGeneric then true else IncRef) p g ad.values w
    rw [hn] at hw
    exact hw
  · intro hnever
    have hn := visitedCount_of_neverStops g ad.values w.user hnever
    by_cases he : ad.empty = true
    · rw [he] at hrun
      have hnil : ad.values = [] := by
        have : ad.elems.length = 0 := by simpa [ArrayData.empty, ArrayData.size] using he
        simp [ArrayData.values, List.length_eq_zero.mp this]
      refine ⟨_, hrun, ?_⟩
      simp [hnil, visitorState]
    · have he' : ad.empty = false := by simpa using he
      rw [he'] at hrun
      refine ⟨_, hrun, ?_⟩
      have hw := pinnedWalk_fn_calls (if ad.isGeneric then true else IncRef) p g ad.values w
      rw [hn, List.take_length] at hw
      exact hw

theorem C3_iterateV_array_stops_at_first_true_witness :
    ∃ w', IterateV_array true exHeap 4 8 (Callback.fn exStopAfterTwo) exWorld
        = some (true, w') ∧
      arrFnCalls w'.log = [make_tv_Int64 1, make_tv_Int64 2] ∧ w'.user = 2 :=
  (C3_iterateV_array_stops_at_first_true true exHeap 4 8 exPacked exStopAfterTwo exWorld
    rfl (by decide) (by decide) (by decide)).1 1 ⟨by decide, by decide, by decide⟩

/-! ## The `TypedValue` overloads: pair collections -/

/-- C4: for a pair collection (a collection without an array view) on which `preCollFn`
answered `false`, `IterateV` and `IterateKV` read position `0` and call `arrFn` on it
(`IterateKV` with the integer key `0`); if `arrFn` answers `true` nothing else happens,
in particular position `1` is not read (it need not even be readable); otherwise
position `1` is read and `arrFn` is called on it (`IterateKV` with the integer key `1`).
The result is `true` either way, and the reference counts are left alone. -/
theorem C4_iterate_pair_positions (h : Heap) (fuel : Nat) (it : TypedValue) (o : ObjectData)
    (preArrFn : Callback Nat σ) (preArrFnKV : Nat → σ → Bool × σ)
    (g : TypedValue → σ → Bool × σ) (gkv : TypedValue × TypedValue → σ → Bool × σ)
    (pc : Nat → σ → Bool × σ) (objFn : Callback TypedValue σ)
    (objFnKV : Callback (TypedValue × TypedValue) σ) (w : World σ) (e0 e1 : TypedValue)
    (hty : it.m_type = DataType.KindOfObject) (ho : h.objectAt it.pobj = some o)
    (hcoll : o.isCollection = true) (hview : o.asArray = 0)
    (hpair : o.collectionType = CollectionType.Pair)
    (hpc : (pc it.pobj w.user).1 = false)
    (h0 : o.collections_at (make_tv_Int64 0) = some e0)
    (hV1 : (g e0 (pc it.pobj w.user).2).1 = false →
      o.collections_at (make_tv_Int64 1) = some e1)
    (hKV1 : (gkv (make_tv_Int64 0, e0) (pc it.pobj w.user).2).1 = false →
      o.collections_at (make_tv_Int64 1) = some e1) :
    IterateV h fuel it preArrFn (Callback.fn g) (Callback.fn pc) objFn w =
      some (true,
        if (g e0 (pc it.pobj w.user).2).1 then
          { user := (g e0 (pc it.pobj w.user).2).2, count := w.count,
            log := w.log ++ [Event.preCollFn it.pobj,
              Event.collectionsAt it.pobj (make_tv_Int64 0), Event.arrFn e0] }
        else
          { user := (g e1 (g e0 (pc it.pobj w.user).2).2).2, count := w.count,
            log := w.log ++ [Event.preCollFn it.pobj,
              Event.collectionsAt it.pobj (make_tv_Int64 0), Event.arrFn e0,
              Event.collectionsAt it.pobj (make_tv_Int64 1), Event.arrFn e1] }) ∧
    IterateKV h fuel it preArrFnKV gkv (Callback.fn pc) objFnKV w =
      some (true,
        if (gkv (make_tv_Int64 0, e0) (pc it.pobj w.user).2).1 then
          { user := (gkv (make_tv_Int64 0, e0) (pc it.pobj w.user).2).2, count := w.count,
            log := w.log ++ [Event.preCollFn it.pobj,
              Event.collectionsAt it.pobj (make_tv_Int64 0),
              Event.arrFnKV (make_tv_Int64 0) e0] }
        else
          { user := (gkv (make_tv_Int64 1, e1)
              (gkv (make_tv_Int64 0, e0) (pc it.pobj w.user).2).2).2,
            count := w.count,
            log := w.log ++ [Event.preCollFn it.pobj,
              Event.collectionsAt it.pobj (make_tv_Int64 0),
              Event.arrFnKV (make_tv_Int64 0) e0,
              Event.collectionsAt it.pobj (make_tv_Int64 1),
              Event.arrFnKV (make_tv_Int64 1) e1] }) := by
  have hone : ({ make_tv_Int64 0 with m_data := 1 } : TypedValue) = make_tv_Int64 1 := rfl
  constructor
  · by_cases hx : (g e0 (pc it.pobj w.user).2).1 = true
    · simp [IterateV, hty, isRefType, isArrayLikeType, ho, hcoll, hview, hpair,
        ArrayData.call_helper, hpc, collections.at_, h0, hx]
    · have hx' : (g e0 (pc it.pobj w.user).2).1 = false := by simpa using hx
      simp [IterateV, hty, isRefType, isArrayLikeType, ho, hcoll, hview, hpair,
        ArrayData.call_helper, hpc, collections.at_, h0, hx', hone, hV1 hx']
  · by_cases hx : (gkv (make_tv_Int64 0, e0) (pc it.pobj w.user).2).1 = true
    · simp [IterateKV, hty, isRefType, isArrayLikeType, ho, hcoll, hview, hpair,
        ArrayData.call_helper, hpc, collections.at_, h0, hx, Event.ofKV]
    · have hx' : (gkv (make_tv_Int64 0, e0) (pc it.pobj w.user).2).1 = false := by
        simpa using hx
      simp [IterateKV, hty, isRefType, isArrayLikeType, ho, hcoll, hview, hpair,
        ArrayData.call_helper, hpc, collections.at_, h0, hx', hone, hKV1 hx', Event.ofKV]

theorem C4_iterate_pair_positions_witness :
    IterateV exHeap 0 exPairValue (Callback.const false) (Callback.fn exCountAll)
        (Callback.fn exPreStepFalse) (Callback.const false) exWorld =
      some (true,
        { user := 2, count := exWorld.count,
          log := [Event.preCollFn 32,
            Event.collectionsAt 32 (make_tv_Int64 0), Event.arrFn (make_tv_Int64 5),
            Event.collectionsAt 32 (make_tv_Int64 1), Event.arrFn (make_tv_Int64 6)] }) ∧
    IterateKV exHeap 0 exPairValue exPreStepFalse exStopAtOnceKV
        (Callback.fn exPreStepFalse) (Callback.const false) exWorld =
      some (true,
        { user := 1, count := exWorld.count,
          log := [Event.preCollFn 32,
            Event.collectionsAt 32 (make_tv_Int64 0),
            Event.arrFnKV (make_tv_Int64 0) (make_tv_Int64 5)] }) :=
  C4_iterate_pair_positions exHeap 0 exPairValue exPair (Callback.const false)
    exPreStepFalse exCountAll exStopAtOnceKV exPreStepFalse (Callback.const false)
    (Callback.const false) exWorld (make_tv_Int64 5) (make_tv_Int64 6)
    rfl rfl rfl rfl rfl rfl rfl (fun _ => rfl) (fun hx => absurd hx (by decide))

/-! ## The array overload of `IterateKV` -/

theorem IterateKV_array_loop_eq_walk {h : Heap} {p : Nat} {ad : ArrayData}
    (hp : h.arrayAt p = some ad) (h2 : p % 2 = 0) (hc : ad.CursorContract)
    (arrFn : Callback (TypedValue × TypedValue) σ) :
    ∀ (fuel i : Nat) (it : ArrayIter) (w : World σ), i ≤ ad.size → ad.size - i < fuel →
      it.m_data = p → it.m_pos = ad.cursorAt i →
      ∃ last, IterateKV_array.loop h arrFn fuel it w
          = some (last, walk arrFn Event.ofKV (ad.elems.drop i) w) ∧ last.m_data = p := by
  intro fuel
  induction fuel with
  | zero => intro i it w _ hf; omega
  | succ fuel ih =>
    intro i it w hi hf hd hpos
    subst hd
    rcases Nat.lt_or_ge i ad.size with hlt | hge
    · have hlt' : i < ad.elems.length := hlt
      obtain ⟨hne, hk, hv⟩ := hc.2 i hlt'
      have hne' : it.m_pos ≠ ad.iter_end := by rw [hpos]; exact hne
      have hb : (it.m_pos == ad.iter_end) = false := by simpa using hne'
      have hsv : it.secondVal h = some (ad.elems.get ⟨i, hlt'⟩).2 := by
        simp [ArrayIter.secondVal, ArrayIter.hasArrayData_of_even h2,
          ArrayIter.nvSecond_of_container hp h2 hne', hpos, hv]
      have hfv : it.nvFirst h = some (ad.elems.get ⟨i, hlt'⟩).1 := by
        simp [ArrayIter.nvFirst_of_container hp h2 hne', hpos, hk]
      obtain ⟨last, hrec, hlast⟩ := ih (i + 1) { it with m_pos := ad.iter_advance it.m_pos }
        (ArrayData.call_helper arrFn Event.ofKV (ad.elems.get ⟨i, hlt'⟩) w).2 hlt
        (by omega) rfl (by simp [ArrayData.cursorAt, hpos])
      rw [List.drop_eq_getElem_cons hlt']
      simp only [IterateKV_array.loop, toBool_of_container hp h2, hb, Bool.not_false, hsv, hfv,
        ArrayIter.next_of_container hp h2 hne', walk, List.get_eq_getElem, Prod.mk.eta]
      by_cases hx : (ArrayData.call_helper arrFn Event.ofKV ad.elems[i] w).1 = true
      · simp only [hx, if_true]
        exact ⟨it, rfl, rfl⟩
      · simp only [hx, if_false]
        exact ⟨last, by simpa using hrec, hlast⟩
    · have hi' : i = ad.size := Nat.le_antisymm hi hge
      have hend : it.m_pos = ad.iter_end := by rw [hpos, hi']; exact hc.1
      have hb : (it.m_pos == ad.iter_end) = true := by simp [hend]
      have hdrop : ad.elems.drop ad.size = [] := by
        apply List.drop_eq_nil_of_le
        exact Nat.le_refl _
      rw [hi', hdrop]
      simp only [IterateKV_array.loop, toBool_of_container hp h2, hb, Bool.not_true, walk]
      exact ⟨it, rfl, rfl⟩

/-- The array overload of `IterateKV` over a container that obeys the position-cursor
contract returns `true` and does what a direct walk does: over the elements, or, for the
set-like layout (tested after the other two native layouts), over the values with each
value passed as its own key. -/
theorem IterateKV_array_eq {h : Heap} {p : Nat} {ad : ArrayData}
    (hp : h.arrayAt p = some ad) (h2 : p % 2 = 0) (hc : ad.CursorContract)
    (IncRef : Bool) (fuel : Nat) (hf : ad.size < fuel)
    (arrFn : TypedValue × TypedValue → σ → Bool × σ) (w : World σ) :
    IterateKV_array IncRef h fuel p arrFn w =
      some (true, if ad.empty then w
        else if ad.hasMixedLayout || ad.hasPackedLayout then
          pinnedWalk IncRef p (Callback.fn arrFn) Event.ofKV ad.elems w
        else if ad.isKeyset then
          pinnedWalk IncRef p (Callback.fn (fun v => arrFn (v, v)))
            (fun v => Event.arrFnKV v v) ad.values w
        else pinnedWalk true p (Callback.fn arrFn) Event.ofKV ad.elems w) := by
  by_cases he : ad.empty = true
  · simp [IterateKV_array, hp, he]
  by_cases h3 : ad.hasMixedLayout = true
  · simp [IterateKV_array, hp, he, h3, MixedArray.IterateKV, Event.ofKV]
    rfl
  by_cases h1 : ad.hasPackedLayout = true
  · simp [IterateKV_array, hp, he, h1, h3, PackedArray.IterateKV, Event.ofKV]
    rfl
  by_cases h4 : ad.isKeyset = true
  · simp [IterateKV_array, hp, he, h1, h3, h4, SetArray.Iterate]
  obtain ⟨it0, hit0, hd, hpos⟩ := ctor_of_container hp h2 ArrayIter.uninit w
  obtain ⟨last, hloop, hlast⟩ := IterateKV_array_loop_eq_walk hp h2 hc (Callback.fn arrFn)
    fuel 0 it0 (w.incRefCount p) (Nat.zero_le _) (by omega) hd
    (by simp [ArrayData.cursorAt, hpos])
  have hne := ArrayIter.arrayAt_ne_zero hp
  simp only [List.drop_zero] at hloop
  simp [IterateKV_array, hp, he, h1, h3, h4, hit0, hloop,
    destruct_of_container hne h2 last hlast, pinnedWalk]

/-! ## Reference counts during a dispatch -/

theorem refOps_append (l1 l2 : List Event) : refOps (l1 ++ l2) = refOps l1 ++ refOps l2 := by
  simp [refOps]

theorem call_helper_quiet (f : Callback α σ) (ev : α → Event)
    (hev : ∀ a, (ev a).isRefOp = false) (a : α) (w : World σ) :
    ∃ added, (ArrayData.call_helper f ev a w).2.log = w.log ++ added ∧ refOps added = [] ∧
      (ArrayData.call_helper f ev a w).2.count = w.count := by
  cases f with
  | const b => exact ⟨[], by simp [ArrayData.call_helper], rfl, rfl⟩
  | fn g => exact ⟨[ev a], rfl, by simp [refOps, hev], rfl⟩

theorem walk_quiet (f : Callback α σ) (ev : α → Event) (hev : ∀ a, (ev a).isRefOp = false) :
    ∀ (xs : List α) (w : World σ),
      ∃ added, (walk f ev xs w).log = w.log ++ added ∧ refOps added = [] ∧
        (walk f ev xs w).count = w.count := by
  intro xs
  induction xs with
  | nil => intro w; exact ⟨[], by simp [walk], rfl, rfl⟩
  | cons x xs ih =>
    intro w
    obtain ⟨a1, hl1, hr1, hc1⟩ := call_helper_quiet f ev hev x w
    by_cases hx : (ArrayData.call_helper f ev x w).1 = true
    · simp only [walk, hx, if_true]
      exact ⟨a1, hl1, hr1, hc1⟩
    · obtain ⟨a2, hl2, hr2, hc2⟩ := ih (ArrayData.call_helper f ev x w).2
      have hx' : (ArrayData.call_helper f ev x w).1 = false := by simpa using hx
      simp only [walk, hx', Bool.false_eq_true, if_false]
      refine ⟨a1 ++ a2, ?_, ?_, ?_⟩
      · rw [hl2, hl1, List.append_assoc]
      · rw [refOps_append, hr1, hr2]; rfl
      · rw [hc2, hc1]

theorem count_pin_release (w w1 : World σ) (p : Nat)
    (hc : w1.count = (w.incRefCount p).count) : (w1.decRefArr p).count = w.count := by
  funext q
  by_cases hq : q = p
  · subst hq
    simp [World.decRefArr, hc, World.incRefCount]
  · simp [World.decRefArr, hc, World.incRefCount, Function.update, hq]

theorem pinnedWalk_shape (b : Bool) (p : Nat) (f : Callback α σ) (ev : α → Event)
    (hev : ∀ a, (ev a).isRefOp = false) (xs : List α) (w : World σ) :
    ∃ added, (pinnedWalk b p f ev xs w).log = w.log ++ added ∧
      (pinnedWalk b p f ev xs w).count = w.count ∧
      refOps added = if b then [Event.incRefCount p, Event.decRefArr p] else [] := by
  cases b with
  | false =>
    obtain ⟨a, hl, hr, hc⟩ := walk_quiet f ev hev xs w
    exact ⟨a, by simpa [pinnedWalk] using hl, by simpa [pinnedWalk] using hc, by simpa using hr⟩
  | true =>
    obtain ⟨a, hl, hr, hc⟩ := walk_quiet f ev hev xs (w.incRefCount p)
    refine ⟨Event.incRefCount p :: (a ++ [Event.decRefArr p]), ?_, ?_, ?_⟩
    · simp only [pinnedWalk, if_true]
      show (walk f ev xs (w.incRefCount p)).log ++ [Event.decRefArr p] = _
      rw [hl]
      simp [World.incRefCount]
    · simpa [pinnedWalk] using count_pin_release w _ p hc
    · have h1 : refOps (Event.incRefCount p :: (a ++ [Event.decRefArr p]))
          = Event.incRefCount p :: refOps (a ++ [Event.decRefArr p]) := by
        simp [refOps, Event.isRefOp]
      rw [h1, refOps_append, hr]
      simp [refOps, Event.isRefOp]

theorem pinnedRun_of_parts (p : Nat) (ad : ArrayData) (w wc X : World σ)
    (a1 added : List Event) (hl1 : wc.log = (w.incRefCount p).log ++ a1)
    (hr1 : refOps a1 = []) (hc1 : wc.count = (w.incRefCount p).count)
    (hlX : X.log = wc.log ++ added) (hcX : X.count = wc.count)
    (hrX : refOps added = [] ∨ (ad.isGeneric = true ∧ ad.empty = false ∧
      refOps added = [Event.incRefCount p, Event.decRefArr p])) :
    PinnedRun p ad [] w (some (true, X.decRefArr p)) := by
  refine ⟨X.decRefArr p, a1 ++ added, rfl, ?_, ?_, ?_⟩
  · simp [World.decRefArr, hlX, hl1, World.incRefCount]
  · exact count_pin_release w X p (by rw [hcX, hc1])
  · rw [refOps_append, hr1]
    simpa using hrX

theorem pinnedRun_after (p : Nat) (ad : ArrayData) (w w0 : World σ) (pre : List Event)
    (r : Option (Bool × World σ)) (hl : w0.log = w.log ++ pre) (hc : w0.count = w.count)
    (hr : PinnedRun p ad [] w0 r) : PinnedRun p ad pre w r := by
  obtain ⟨w', mid, hres, hlog, hcount, hrefs⟩ := hr
  exact ⟨w', mid, hres, by simpa [hl] using hlog, by rw [hcount, hc], hrefs⟩

theorem IterateV_do_array_pinnedRun {h : Heap} {p : Nat} {ad : ArrayData}
    (hp : h.arrayAt p = some ad) (h2 : p % 2 = 0) (hc : ad.CursorContract)
    (fuel : Nat) (hf : ad.size < fuel) (preArrFn : Callback Nat σ)
    (arrFn : Callback TypedValue σ) (w : World σ) :
    PinnedRun p ad [] w (IterateV.do_array h fuel p preArrFn arrFn w) := by
  obtain ⟨a1, hl1, hr1, hc1⟩ := call_helper_quiet preArrFn Event.preArrFn (fun _ => rfl) p
    (w.incRefCount p)
  by_cases hx : (ArrayData.call_helper preArrFn Event.preArrFn p (w.incRefCount p)).1 = true
  · simp only [IterateV.do_array, hp, hx, if_true]
    exact pinnedRun_of_parts p ad w _ _ a1 [] hl1 hr1 hc1 (by simp) rfl (Or.inl rfl)
  · simp only [IterateV.do_array, hp, hx, if_false, IterateV_array_eq hp h2 hc false fuel hf]
    by_cases he : ad.empty = true
    · simp only [he, if_true]
      exact pinnedRun_of_parts p ad w _ _ a1 [] hl1 hr1 hc1 (by simp) rfl (Or.inl rfl)
    · simp only [he, if_false]
      obtain ⟨a2, hl2, hc2, hr2⟩ := pinnedWalk_shape (if ad.isGeneric then true else false) p
        arrFn Event.arrFn (fun _ => rfl) ad.values
        (ArrayData.call_helper preArrFn Event.preArrFn p (w.incRefCount p)).2
      refine pinnedRun_of_parts p ad w _ _ a1 a2 hl1 hr1 hc1 hl2 hc2 ?_
      by_cases hg : ad.isGeneric = true
      · right
        exact ⟨hg, by simpa using he, by simpa [hg] using hr2⟩
      · left
        simpa [hg] using hr2

theorem IterateKV_do_array_pinnedRun {h : Heap} {p : Nat} {ad : ArrayData}
    (hp : h.arrayAt p = some ad) (h2 : p % 2 = 0) (hc : ad.CursorContract)
    (fuel : Nat) (hf : ad.size < fuel) (preArrFn : Nat → σ → Bool × σ)
    (arrFn : TypedValue × TypedValue → σ → Bool × σ) (w : World σ) :
    PinnedRun p ad [] w (IterateKV.do_array h fuel p preArrFn arrFn w) := by
  obtain ⟨a1, hl1, hr1, hc1⟩ := call_helper_quiet (Callback.fn preArrFn) Event.preArrFn
    (fun _ => rfl) p (w.incRefCount p)
  by_cases hx : (ArrayData.call_helper (Callback.fn preArrFn) Event.preArrFn p
      (w.incRefCount p)).1 = true
  · simp only [IterateKV.do_array, hp, hx, if_true]
    exact pinnedRun_of_parts p ad w _ _ a1 [] hl1 hr1 hc1 (by simp) rfl (Or.inl rfl)
  · simp only [IterateKV.do_array, hp, hx, if_false, IterateKV_array_eq hp h2 hc false fuel hf]
    by_cases he : ad.empty = true
    · simp only [he, if_true]
      exact pinnedRun_of_parts p ad w _ _ a1 [] hl1 hr1 hc1 (by simp) rfl (Or.inl rfl)
    by_cases hn : (ad.hasMixedLayout || ad.hasPackedLayout) = true
    · simp only [he, hn, if_true, if_false]
      obtain ⟨a2, hl2, hc2, hr2⟩ := pinnedWalk_shape false p (Callback.fn arrFn) Event.ofKV
        (fun _ => rfl) ad.elems
        (ArrayData.call_helper (Callback.fn preArrFn) Event.preArrFn p (w.incRefCount p)).2
      exact pinnedRun_of_parts p ad w _ _ a1 a2 hl1 hr1 hc1 hl2 hc2 (Or.inl (by simpa using hr2))
    by_cases hk : ad.isKeyset = true
    · simp only [he, hn, hk, if_true, if_false]
      obtain ⟨a2, hl2, hc2, hr2⟩ := pinnedWalk_shape false p
        (Callback.fn (fun v => arrFn (v, v))) (fun v => Event.arrFnKV v v)
        (fun _ => rfl) ad.values
        (ArrayData.call_helper (Callback.fn preArrFn) Event.preArrFn p (w.incRefCount p)).2
      exact pinnedRun_of_parts p ad w _ _ a1 a2 hl1 hr1 hc1 hl2 hc2 (Or.inl (by simpa using hr2))
    · simp only [he, hn, hk, if_false]
      obtain ⟨a2, hl2, hc2, hr2⟩ := pinnedWalk_shape true p (Callback.fn arrFn) Event.ofKV
        (fun _ => rfl) ad.elems
        (ArrayData.call_helper (Callback.fn preArrFn) Event.preArrFn p (w.incRefCount p)).2
      refine pinnedRun_of_parts p ad w _ _ a1 a2 hl1 hr1 hc1 hl2 hc2 (Or.inr ⟨?_, ?_, ?_⟩)
      · simp only [Bool.or_eq_true, not_or] at hn
        simp [ArrayData.isGeneric, hn.1, hn.2, hk]
      · simpa using he
      · simpa using hr2

theorem isRefType_of_arrayLike {t : DataType} (ht : isArrayLikeType t = true) :
    isRefType t = false := by
  cases t <;> simp_all [isArrayLikeType, isRefType]

/-- C6 (amended): for an array-like value, and for a collection with an array view on
which `preCollFn` answered `false`, the `TypedValue` overloads of `IterateV` and
`IterateKV` return `true`; the container is pinned before `preArrFn` or `arrFn` runs (for
a collection, after the call of `preCollFn`), its release is the last event, every
reference-count operation in between belongs to one more pin and release of the same
container, which occurs only for a non-empty container of none of the native layouts,
and the reference counts are in the end what they were at the start. -/
theorem C6_iterate_pins_and_releases (h : Heap) (fuel : Nat) (it : TypedValue) (p : Nat)
    (ad : ArrayData) (preArrFn : Callback Nat σ) (arrFn : Callback TypedValue σ)
    (objFn : Callback TypedValue σ) (preArrFnKV : Nat → σ → Bool × σ)
    (arrFnKV : TypedValue × TypedValue → σ → Bool × σ)
    (objFnKV : Callback (TypedValue × TypedValue) σ) (preCollFn : Callback Nat σ)
    (w : World σ)
    (hp : h.arrayAt p = some ad) (h2 : p % 2 = 0) (hc : ad.CursorContract)
    (hf : ad.size < fuel)
    (hsrc : (isArrayLikeType it.m_type = true ∧ it.parr = p) ∨
      (it.m_type = DataType.KindOfObject ∧ ∃ o pc, h.objectAt it.pobj = some o ∧
        o.isCollection = true ∧ o.asArray = p ∧ preCollFn = Callback.fn pc ∧
        (pc it.pobj w.user).1 = false)) :
    PinnedRun p ad (if isArrayLikeType it.m_type then [] else [Event.preCollFn it.pobj]) w
        (IterateV h fuel it preArrFn arrFn preCollFn objFn w) ∧
      PinnedRun p ad (if isArrayLikeType it.m_type then [] else [Event.preCollFn it.pobj]) w
        (IterateKV h fuel it preArrFnKV arrFnKV preCollFn objFnKV w) := by
  rcases hsrc with ⟨hty, hpar⟩ | ⟨hty, o, pc, ho, hcoll, hview, hpcf, hpc⟩
  · have hr := isRefType_of_arrayLike hty
    subst hpar
    constructor
    · simpa [IterateV, hr, hty] using
        IterateV_do_array_pinnedRun hp h2 hc fuel hf preArrFn arrFn w
    · simpa [IterateKV, hr, hty] using
        IterateKV_do_array_pinnedRun hp h2 hc fuel hf preArrFnKV arrFnKV w
  · have hne := ArrayIter.arrayAt_ne_zero hp
    subst hpcf
    subst hview
    have hcall : ArrayData.call_helper (Callback.fn pc) Event.preCollFn it.pobj w
        = (false, { w with user := (pc it.pobj w.user).2,
                           log := w.log ++ [Event.preCollFn it.pobj] }) := by
      simp [ArrayData.call_helper, hpc]
    constructor
    · have hrun := IterateV_do_array_pinnedRun hp h2 hc fuel hf preArrFn arrFn
        ({ w with user := (pc it.pobj w.user).2,
                  log := w.log ++ [Event.preCollFn it.pobj] } : World σ)
      have hshape := pinnedRun_after o.asArray ad w
        ({ w with user := (pc it.pobj w.user).2,
                  log := w.log ++ [Event.preCollFn it.pobj] } : World σ)
        [Event.preCollFn it.pobj] _ rfl rfl hrun
      simpa [IterateV, hty, isRefType, isArrayLikeType, ho, hcoll, hne, hcall] using hshape
    · have hrun := IterateKV_do_array_pinnedRun hp h2 hc fuel hf preArrFnKV arrFnKV
        ({ w with user := (pc it.pobj w.user).2,
                  log := w.log ++ [Event.preCollFn it.pobj] } : World σ)
      have hshape := pinnedRun_after o.asArray ad w
        ({ w with user := (pc it.pobj w.user).2,
                  log := w.log ++ [Event.preCollFn it.pobj] } : World σ)
        [Event.preCollFn it.pobj] _ rfl rfl hrun
      simpa [IterateKV, hty, isRefType, isArrayLikeType, ho, hcoll, hne, hcall] using hshape

theorem C6_iterate_pins_and_releases_witness :
    PinnedRun 8 exPacked
        (if isArrayLikeType exPackedValue.m_type then [] else [Event.preCollFn exPackedValue.pobj])
        exWorld
        (IterateV exHeap 4 exPackedValue (Callback.fn exPreStepFalse)
          (Callback.fn exStopAfterTwo) (Callback.const false) (Callback.const false) exWorld) ∧
      PinnedRun 8 exPacked
        (if isArrayLikeType exPackedValue.m_type then [] else [Event.preCollFn exPackedValue.pobj])
        exWorld
        (IterateKV exHeap 4 exPackedValue exPreStepTrue exStopAtOnceKV (Callback.const false)
          (Callback.const false) exWorld) :=
  C6_iterate_pins_and_releases exHeap 4 exPackedValue 8 exPacked (Callback.fn exPreStepFalse)
    (Callback.fn exStopAfterTwo) (Callback.const false) exPreStepTrue exStopAtOnceKV
    (Callback.const false) (Callback.const false) exWorld rfl (by decide) (by decide)
    (by decide) (Or.inl ⟨rfl, rfl⟩)

/-- C6, as stated, fails in two places.  For the collection `exVector` the callback
`preCollFn` has run before the array view is pinned; for the container `exGeneric`, which
has none of the native layouts, the reference count is incremented twice and decremented
twice, the second time by the `ArrayIter` of the fallback loop. -/
theorem C6_counterexample :
    (∃ w', IterateV exHeap 4 exVectorValue (Callback.fn exPreStepFalse)
        (Callback.fn exCountAll) (Callback.fn exPreStepFalse) (Callback.const false) exWorld
          = some (true, w') ∧
      w'.log = [Event.preCollFn 40, Event.incRefCount 8, Event.preArrFn 8,
        Event.arrFn (make_tv_Int64 1), Event.arrFn (make_tv_Int64 2),
        Event.arrFn (make_tv_Int64 3), Event.decRefArr 8]) ∧
    (∃ w', IterateV exHeap 4 exGenericValue (Callback.fn exPreStepFalse)
        (Callback.fn exCountAll) (Callback.fn exPreStepFalse) (Callback.const false) exWorld
          = some (true, w') ∧
      w'.log = [Event.incRefCount 16, Event.preArrFn 16, Event.incRefCount 16,
        Event.arrFn (make_tv_Int64 7), Event.arrFn (make_tv_Int64 8),
        Event.decRefArr 16, Event.decRefArr 16] ∧
      List.count (Event.incRefCount 16) w'.log = 2 ∧
      List.count (Event.decRefArr 16) w'.log = 2) :=
  ⟨⟨_, rfl, rfl⟩, ⟨_, rfl, rfl, by decide, by decide⟩⟩

/-! ## `ArrayIter` over an iterator object -/

theorem tag_roundtrip (q : Nat) (h2 : q % 2 = 0) (hlt : q < 2 ^ 64) :
    (q ||| 1) &&& 0xFFFFFFFFFFFFFFFE = q := by
  apply Nat.eq_of_testBit_eq
  intro i
  have hM : (0xFFFFFFFFFFFFFFFE : Nat) = 2 ^ 64 - (1 + 1) := by norm_num
  rw [hM, Nat.testBit_and, Nat.testBit_or,
    Nat.testBit_two_pow_sub_succ (by norm_num : 1 < 2 ^ 64)]
  rcases Nat.eq_zero_or_pos i with hi | hi
  · subst hi
    simp [h2]
  · have h1 : Nat.testBit 1 i = false := by
      cases hb : Nat.testBit 1 i with
      | false => rfl
      | true =>
        have := Nat.testBit_one_eq_true_iff_self_eq_zero.mp hb
        omega
    rcases Nat.lt_or_ge i 64 with h64 | h64
    · simp [h1, h64]
    · have hq : Nat.testBit q i = false := by
        apply Nat.testBit_lt_two_pow
        calc q < 2 ^ 64 := hlt
          _ ≤ 2 ^ i := Nat.pow_le_pow_right (by norm_num) h64
      simp [h1, hq]

theorem tag_is_object (q : Nat) (it : ArrayIter) (hd : it.m_data = q ||| 1) :
    it.hasArrayData = false := by
  have : (q ||| 1) % 2 = 1 := by simp
  simp [ArrayIter.hasArrayData, Nat.and_one_is_mod, hd, this]

theorem getObject_of_tagged (q : Nat) (h2 : q % 2 = 0) (hlt : q < 2 ^ 64) (it : ArrayIter)
    (hd : it.m_data = q ||| 1) : it.getObject = some q := by
  simp only [ArrayIter.getObject, tag_is_object q it hd, Bool.not_false, if_true, hd]
  rw [tag_roundtrip q h2 hlt]

theorem ctor_obj_NoInc_of_traversal {h : Heap} {q : Nat} {t : ObjectData}
    (ht : h.objectAt q = some t) (h2 : q % 2 = 0) (hnc : t.isCollection = false)
    (self : ArrayIter) (w : World σ) :
    ∃ it, ArrayIter.ctor_obj_NoInc h self q w = some (it, w) ∧ it.m_data = q ||| 1 ∧
      it.m_pos = 0 := by
  refine ⟨{ self with m_data := q ||| 1, m_nextHelperIdx := IterNextIndex.Object, m_pos := 0 },
    ?_, rfl, rfl⟩
  simp [ArrayIter.ctor_obj_NoInc, ht, hnc, ArrayIter.setObject, Nat.and_one_is_mod, h2]

theorem IterateV_objLoop_terminates {h : Heap} {q : Nat} {t : ObjectData}
    (ht : h.objectAt q = some t) (h2 : q % 2 = 0) (hlt : q < 2 ^ 64)
    (objFn : Callback TypedValue σ) (m : Nat) (hm : t.valid m = false) :
    ∀ (fuel i : Nat) (it : ArrayIter) (w : World σ), i ≤ m → m - i < fuel →
      it.m_data = q ||| 1 → it.m_pos = i →
      ∃ last w', IterateV.objLoop h objFn fuel it w = some (last, w') ∧
        last.m_data = q ||| 1 := by
  intro fuel
  induction fuel with
  | zero => intro i it w _ hf; omega
  | succ fuel ih =>
    intro i it w hi hf hd hpos
    have hobj := getObject_of_tagged q h2 hlt it hd
    have htag := tag_is_object q it hd
    have hbool : it.toBool h = some (t.valid i) := by
      simp [ArrayIter.toBool, ArrayIter.end_, htag, ArrayIter.endHelper, hobj, ht, hpos]
    by_cases hv : t.valid i = true
    · have hne : i ≠ m := by
        intro heq
        rw [heq, hm] at hv
        exact Bool.false_ne_true hv
      have hsec : it.second h = some (t.current i) := by
        simp [ArrayIter.second, htag, hobj, ht, hpos]
      have hnext : it.next h = some { it with m_pos := it.m_pos + 1 } := by
        simp [ArrayIter.next, htag, ArrayIter.nextHelper, hobj, ht]
      by_cases hx : (ArrayData.call_helper objFn Event.objFn (t.current i) w).1 = true
      · simp only [IterateV.objLoop, hbool, hv, hsec, hx, if_true]
        exact ⟨it, _, rfl, hd⟩
      · have hx' : (ArrayData.call_helper objFn Event.objFn (t.current i) w).1 = false := by
          simpa using hx
        obtain ⟨last, w', hrec, hlast⟩ := ih (i + 1) { it with m_pos := it.m_pos + 1 }
          (ArrayData.call_helper objFn Event.objFn (t.current i) w).2 (by omega) (by omega) hd
          (by simp [hpos])
        simp only [IterateV.objLoop, hbool, hv, hsec, hx', hnext, Bool.false_eq_true, if_false]
        exact ⟨last, w', hrec, hlast⟩
    · have hv' : t.valid i = false := by simpa using hv
      simp only [IterateV.objLoop, hbool, hv']
      exact ⟨it, w, rfl, hd⟩

theorem IterateKV_objLoop_terminates {h : Heap} {q : Nat} {t : ObjectData}
    (ht : h.objectAt q = some t) (h2 : q % 2 = 0) (hlt : q < 2 ^ 64)
    (objFn : Callback (TypedValue × TypedValue) σ) (m : Nat) (hm : t.valid m = false) :
    ∀ (fuel i : Nat) (it : ArrayIter) (w : World σ), i ≤ m → m - i < fuel →
      it.m_data = q ||| 1 → it.m_pos = i →
      ∃ last w', IterateKV.objLoop h objFn fuel it w = some (last, w') ∧
        last.m_data = q ||| 1 := by
  intro fuel
  induction fuel with
  | zero => intro i it w _ hf; omega
  | succ fuel ih =>
    intro i it w hi hf hd hpos
    have hobj := getObject_of_tagged q h2 hlt it hd
    have htag := tag_is_object q it hd
    have hbool : it.toBool h = some (t.valid i) := by
      simp [ArrayIter.toBool, ArrayIter.end_, htag, ArrayIter.endHelper, hobj, ht, hpos]
    by_cases hv : t.valid i = true
    · have hne : i ≠ m := by
        intro heq
        rw [heq, hm] at hv
        exact Bool.false_ne_true hv
      have hsec : it.second h = some (t.current i) := by
        simp [ArrayIter.second, htag, hobj, ht, hpos]
      have hfst : it.first h = some (t.key i) := by
        simp [ArrayIter.first, htag, hobj, ht, hpos]
      have hnext : it.next h = some { it with m_pos := it.m_pos + 1 } := by
        simp [ArrayIter.next, htag, ArrayIter.nextHelper, hobj, ht]
      by_cases hx : (ArrayData.call_helper objFn Event.ofObjKV (t.key i, t.current i) w).1
          = true
      · simp only [IterateKV.objLoop, hbool, hv, hsec, hfst, hx, if_true]
        exact ⟨it, _, rfl, hd⟩
      · have hx' : (ArrayData.call_helper objFn Event.ofObjKV (t.key i, t.current i) w).1
            = false := by simpa using hx
        obtain ⟨last, w', hrec, hlast⟩ := ih (i + 1) { it with m_pos := it.m_pos + 1 }
          (ArrayData.call_helper objFn Event.ofObjKV (t.key i, t.current i) w).2 (by omega)
          (by omega) hd (by simp [hpos])
        simp only [IterateKV.objLoop, hbool, hv, hsec, hfst, hx', hnext, Bool.false_eq_true,
          if_false]
        exact ⟨last, w', hrec, hlast⟩
    · have hv' : t.valid i = false := by simpa using hv
      simp only [IterateKV.objLoop, hbool, hv']
      exact ⟨it, w, rfl, hd⟩

/-! ## The result of the `TypedValue` overloads -/

theorem pinnedRun_returns {p : Nat} {ad : ArrayData} {pre : List Event} {w : World σ}
    {r : Option (Bool × World σ)} (hr : PinnedRun p ad pre w r) : ∃ w', r = some (true, w') := by
  obtain ⟨w', _, hres, _⟩ := hr
  exact ⟨w', hres⟩

theorem returns_true_of_map {r : Option (Bool × World σ)}
    (hr : r.map Prod.fst = some true) : ∃ w', r = some (true, w') := by
  cases r with
  | none => simp at hr
  | some x =>
    obtain ⟨b, w'⟩ := x
    simp only [Option.map_some', Option.some.injEq] at hr
    exact ⟨w', by rw [← hr]⟩

theorem IterateV_true_of_iterable (h : Heap) (fuel n : Nat) (it : TypedValue)
    (preArrFn : Callback Nat σ) (arrFn : Callback TypedValue σ) (pc : Nat → σ → Bool × σ)
    (ofn : TypedValue → σ → Bool × σ) (w : World σ)
    (hwf : WellFormedSource h it n) (hf : n < fuel) (hit : ¬ NotIterable h it) :
    ∃ w', IterateV h fuel it preArrFn arrFn (Callback.fn pc) (Callback.fn ofn) w
      = some (true, w') := by
  by_cases hal : isArrayLikeType it.m_type = true
  · have hr := isRefType_of_arrayLike hal
    simp only [WellFormedSource, hal, if_true] at hwf
    obtain ⟨ad, hp, h2, hc, hsz⟩ := hwf
    have hrun := IterateV_do_array_pinnedRun hp h2 hc fuel (by omega) preArrFn arrFn w
    simpa [IterateV, hr, hal] using pinnedRun_returns hrun
  · have hal' : isArrayLikeType it.m_type = false := by simpa using hal
    have hobj : it.m_type = DataType.KindOfObject := by
      by_contra hno
      exact hit ⟨hal', Or.inl hno⟩
    simp only [WellFormedSource, hal', Bool.false_eq_true, if_false, hobj, if_true] at hwf
    obtain ⟨o, ho, hwo⟩ := hwf
    have hr : isRefType it.m_type = false := by rw [hobj]; rfl
    by_cases hcoll : o.isCollection = true
    · simp only [WellFormedObject, hcoll, if_true] at hwo
      by_cases hx : (ArrayData.call_helper (Callback.fn pc) Event.preCollFn it.pobj w).1 = true
      · exact returns_true_of_map (by simp [IterateV, hobj, isRefType, isArrayLikeType, ho, hcoll, hx])
      · by_cases hview : o.asArray = 0
        · simp only [hview, ne_eq, not_true_eq_false, if_false] at hwo
          obtain ⟨hpair, h0, h1⟩ := hwo
          obtain ⟨e0, he0⟩ := Option.isSome_iff_exists.mp h0
          obtain ⟨e1, he1⟩ := Option.isSome_iff_exists.mp h1
          have hone : ({ make_tv_Int64 0 with m_data := 1 } : TypedValue) = make_tv_Int64 1 :=
            rfl
          by_cases hy : (ArrayData.call_helper arrFn Event.arrFn e0
              { (ArrayData.call_helper (Callback.fn pc) Event.preCollFn it.pobj w).2 with
                log := (ArrayData.call_helper (Callback.fn pc) Event.preCollFn it.pobj w).2.log
                  ++ [Event.collectionsAt it.pobj (make_tv_Int64 0)] }).1 = true
          · exact returns_true_of_map (by simp [IterateV, hobj, isRefType, isArrayLikeType, ho, hcoll, hx, hview, hpair,
              collections.at_, he0, hy])
          · exact returns_true_of_map (by simp [IterateV, hobj, isRefType, isArrayLikeType, ho, hcoll, hx, hview, hpair,
              collections.at_, he0, hy, hone, he1])
        · simp only [ne_eq, hview, not_false_eq_true, if_true] at hwo
          obtain ⟨ad, hp, h2, hc, hsz⟩ := hwo
          have hrun := IterateV_do_array_pinnedRun hp h2 hc fuel (by omega) preArrFn arrFn
            (ArrayData.call_helper (Callback.fn pc) Event.preCollFn it.pobj w).2
          simpa [IterateV, hobj, isRefType, isArrayLikeType, ho, hcoll, hx, hview] using pinnedRun_returns hrun
    · have hcoll' : o.isCollection = false := by simpa using hcoll
      have hiter : o.isIterable = true := by
        by_contra hni
        exact hit ⟨hal', Or.inr ⟨o, ho, hcoll', by simpa using hni⟩⟩
      simp only [WellFormedObject, hcoll', Bool.false_eq_true, if_false, hiter, if_true] at hwo
      obtain ⟨t, ht, h2, hlt, hnc, m, hmn, hm⟩ := hwo
      obtain ⟨it0, hctor, hd, hpos⟩ :=
        ctor_obj_NoInc_of_traversal ht h2 hnc ArrayIter.uninit w
      obtain ⟨last, w', hloop, hlast⟩ := IterateV_objLoop_terminates ht h2 hlt
        (Callback.fn ofn) m hm fuel 0 it0 w (Nat.zero_le _) (by omega) hd (by simp [hpos])
      exact returns_true_of_map (by simp [IterateV, hobj, isRefType, isArrayLikeType, ho, hcoll', hiter, hctor, hloop])

theorem IterateKV_true_of_iterable (h : Heap) (fuel n : Nat) (it : TypedValue)
    (preArrFn : Nat → σ → Bool × σ) (arrFn : TypedValue × TypedValue → σ → Bool × σ)
    (pc : Nat → σ → Bool × σ) (ofn : TypedValue × TypedValue → σ → Bool × σ) (w : World σ)
    (hwf : WellFormedSource h it n) (hf : n < fuel) (hit : ¬ NotIterable h it) :
    ∃ w', IterateKV h fuel it preArrFn arrFn (Callback.fn pc) (Callback.fn ofn) w
      = some (true, w') := by
  by_cases hal : isArrayLikeType it.m_type = true
  · have hr := isRefType_of_arrayLike hal
    simp only [WellFormedSource, hal, if_true] at hwf
    obtain ⟨ad, hp, h2, hc, hsz⟩ := hwf
    have hrun := IterateKV_do_array_pinnedRun hp h2 hc fuel (by omega) preArrFn arrFn w
    simpa [IterateKV, hr, hal] using pinnedRun_returns hrun
  · have hal' : isArrayLikeType it.m_type = false := by simpa using hal
    have hobj : it.m_type = DataType.KindOfObject := by
      by_contra hno
      exact hit ⟨hal', Or.inl hno⟩
    simp only [WellFormedSource, hal', Bool.false_eq_true, if_false, hobj, if_true] at hwf
    obtain ⟨o, ho, hwo⟩ := hwf
    have hr : isRefType it.m_type = false := by rw [hobj]; rfl
    by_cases hcoll : o.isCollection = true
    · simp only [WellFormedObject, hcoll, if_true] at hwo
      by_cases hx : (ArrayData.call_helper (Callback.fn pc) Event.preCollFn it.pobj w).1 = true
      · exact returns_true_of_map (by simp [IterateKV, hobj, isRefType, isArrayLikeType, ho, hcoll, hx])
      · by_cases hview : o.asArray = 0
        · simp only [hview, ne_eq, not_true_eq_false, if_false] at hwo
          obtain ⟨hpair, h0, h1⟩ := hwo
          obtain ⟨e0, he0⟩ := Option.isSome_iff_exists.mp h0
          obtain ⟨e1, he1⟩ := Option.isSome_iff_exists.mp h1
          have hone : ({ make_tv_Int64 0 with m_data := 1 } : TypedValue) = make_tv_Int64 1 :=
            rfl
          by_cases hy : (ArrayData.call_helper (Callback.fn arrFn) Event.ofKV
              (make_tv_Int64 0, e0)
              { (ArrayData.call_helper (Callback.fn pc) Event.preCollFn it.pobj w).2 with
                log := (ArrayData.call_helper (Callback.fn pc) Event.preCollFn it.pobj w).2.log
                  ++ [Event.collectionsAt it.pobj (make_tv_Int64 0)] }).1 = true
          · exact returns_true_of_map (by simp [IterateKV, hobj, isRefType, isArrayLikeType, ho, hcoll, hx, hview, hpair,
              collections.at_, he0, hy])
          · exact returns_true_of_map (by simp [IterateKV, hobj, isRefType, isArrayLikeType, ho, hcoll, hx, hview, hpair,
              collections.at_, he0, hy, hone, he1])
        · simp only [ne_eq, hview, not_false_eq_true, if_true] at hwo
          obtain ⟨ad, hp, h2, hc, hsz⟩ := hwo
          have hrun := IterateKV_do_array_pinnedRun hp h2 hc fuel (by omega) preArrFn arrFn
            (ArrayData.call_helper (Callback.fn pc) Event.preCollFn it.pobj w).2
          simpa [IterateKV, hobj, isRefType, isArrayLikeType, ho, hcoll, hx, hview] using pinnedRun_returns hrun
    · have hcoll' : o.isCollection = false := by simpa using hcoll
      have hiter : o.isIterable = true := by
        by_contra hni
        exact hit ⟨hal', Or.inr ⟨o, ho, hcoll', by simpa using hni⟩⟩
      simp only [WellFormedObject, hcoll', Bool.false_eq_true, if_false, hiter, if_true] at hwo
      obtain ⟨t, ht, h2, hlt, hnc, m, hmn, hm⟩ := hwo
      obtain ⟨it0, hctor, hd, hpos⟩ :=
        ctor_obj_NoInc_of_traversal ht h2 hnc ArrayIter.uninit w
      obtain ⟨last, w', hloop, hlast⟩ := IterateKV_objLoop_terminates ht h2 hlt
        (Callback.fn ofn) m hm fuel 0 it0 w (Nat.zero_le _) (by omega) hd (by simp [hpos])
      exact returns_true_of_map (by simp [IterateKV, hobj, isRefType, isArrayLikeType, ho, hcoll', hiter, hctor, hloop])

theorem IterateV_false_of_notIterable (h : Heap) (fuel : Nat) (it : TypedValue)
    (preArrFn : Callback Nat σ) (arrFn : Callback TypedValue σ) (pc : Nat → σ → Bool × σ)
    (ofn : TypedValue → σ → Bool × σ) (w : World σ)
    (hnr : isRefType it.m_type = false) (hit : NotIterable h it) :
    IterateV h fuel it preArrFn arrFn (Callback.fn pc) (Callback.fn ofn) w = some (false, w) := by
  obtain ⟨hal, hcase⟩ := hit
  by_cases hobj : it.m_type = DataType.KindOfObject
  · rcases hcase with hno | ⟨o, ho, hcoll, hiter⟩
    · exact absurd hobj hno
    · simp [IterateV, hobj, isRefType, isArrayLikeType, ho, hcoll, hiter]
  · simp [IterateV, hnr, hal, hobj]

theorem IterateKV_false_of_notIterable (h : Heap) (fuel : Nat) (it : TypedValue)
    (preArrFn : Nat → σ → Bool × σ) (arrFn : TypedValue × TypedValue → σ → Bool × σ)
    (pc : Nat → σ → Bool × σ) (ofn : TypedValue × TypedValue → σ → Bool × σ) (w : World σ)
    (hnr : isRefType it.m_type = false) (hit : NotIterable h it) :
    IterateKV h fuel it preArrFn arrFn (Callback.fn pc) (Callback.fn ofn) w
      = some (false, w) := by
  obtain ⟨hal, hcase⟩ := hit
  by_cases hobj : it.m_type = DataType.KindOfObject
  · rcases hcase with hno | ⟨o, ho, hcoll, hiter⟩
    · exact absurd hobj hno
    · simp [IterateKV, hobj, isRefType, isArrayLikeType, ho, hcoll, hiter]
  · simp [IterateKV, hnr, hal, hobj]

/-- C7: with callable `preCollFn` and `objFn`, and a value that is not a reference,
`IterateV` and `IterateKV` return `false`, invoking no callback and leaving the world as
it was, when the value is neither array-like nor an object and when it is an object that
is not a collection and is reported not iterable; in every other case, a well-formed
source given (the containers obey the position-cursor contract, the two positions of a
pair can be read, the traversal of an iterable object ends), they return `true`. -/
theorem C7_iterate_false_iff_not_iterable (h : Heap) (fuel n : Nat) (it : TypedValue)
    (preArrFn : Callback Nat σ) (arrFn : Callback TypedValue σ)
    (ofn : TypedValue → σ → Bool × σ) (preArrFnKV : Nat → σ → Bool × σ)
    (arrFnKV : TypedValue × TypedValue → σ → Bool × σ)
    (ofnKV : TypedValue × TypedValue → σ → Bool × σ) (pc : Nat → σ → Bool × σ)
    (w : World σ)
    (hnr : isRefType it.m_type = false) (hwf : WellFormedSource h it n) (hf : n < fuel) :
    (NotIterable h it →
      IterateV h fuel it preArrFn arrFn (Callback.fn pc) (Callback.fn ofn) w
          = some (false, w) ∧
        IterateKV h fuel it preArrFnKV arrFnKV (Callback.fn pc) (Callback.fn ofnKV) w
          = some (false, w)) ∧
    (¬ NotIterable h it →
      (∃ w', IterateV h fuel it preArrFn arrFn (Callback.fn pc) (Callback.fn ofn) w
          = some (true, w')) ∧
        (∃ w', IterateKV h fuel it preArrFnKV arrFnKV (Callback.fn pc) (Callback.fn ofnKV) w
          = some (true, w'))) :=
  ⟨fun hit =>
    ⟨IterateV_false_of_notIterable h fuel it preArrFn arrFn pc ofn w hnr hit,
      IterateKV_false_of_notIterable h fuel it preArrFnKV arrFnKV pc ofnKV w hnr hit⟩,
   fun hit =>
    ⟨IterateV_true_of_iterable h fuel n it preArrFn arrFn pc ofn w hwf hf hit,
      IterateKV_true_of_iterable h fuel n it preArrFnKV arrFnKV pc ofnKV w hwf hf hit⟩⟩

theorem C7_iterate_false_iff_not_iterable_witness :
    (IterateV exHeap 3 exPlainObjectValue (Callback.fn exPreStepFalse)
        (Callback.fn exCountAll) (Callback.fn exPreStepFalse) (Callback.fn exCountAll) exWorld
        = some (false, exWorld) ∧
      IterateKV exHeap 3 exPlainObjectValue exPreStepFalse exStopAtOnceKV
        (Callback.fn exPreStepFalse) (Callback.fn exStopAtOnceKV) exWorld
        = some (false, exWorld)) ∧
    ((∃ w', IterateV exHeap 3 exIteratorValue (Callback.fn exPreStepFalse)
        (Callback.fn exCountAll) (Callback.fn exPreStepFalse) (Callback.fn exCountAll) exWorld
        = some (true, w')) ∧
      (∃ w', IterateKV exHeap 3 exIteratorValue exPreStepFalse exStopAtOnceKV
        (Callback.fn exPreStepFalse) (Callback.fn exStopAtOnceKV) exWorld
        = some (true, w'))) :=
  ⟨(C7_iterate_false_iff_not_iterable exHeap 3 2 exPlainObjectValue
      (Callback.fn exPreStepFalse) (Callback.fn exCountAll) exCountAll exPreStepFalse
      exStopAtOnceKV exStopAtOnceKV exPreStepFalse exWorld rfl
      ⟨exPlainObject, rfl, trivial⟩ (by decide)).1
      ⟨rfl, Or.inr ⟨exPlainObject, rfl, rfl, rfl⟩⟩,
   (C7_iterate_false_iff_not_iterable exHeap 3 2 exIteratorValue
      (Callback.fn exPreStepFalse) (Callback.fn exCountAll) exCountAll exPreStepFalse
      exStopAtOnceKV exStopAtOnceKV exPreStepFalse exWorld rfl
      ⟨exIterator, rfl, exIterator, rfl, by decide, by decide, rfl, 2, by decide, by decide⟩
      (by decide)).2
      (fun hni => by
        obtain ⟨_, hcase⟩ := hni
        rcases hcase with hno | ⟨o, ho, _, hiter⟩
        · exact hno rfl
        · have ho' : some exIterator = some o := ho
          cases ho'
          exact absurd hiter (by decide))⟩

/-! ## The two `bool` shortcuts and the pre-steps -/

/-- C8 (amended): if `ObjFn` is a `bool` and `PreCollFn` is a callable, then for every
object that is not a collection `IterateV` invokes no callback, leaves the world as it
was, and returns the value of `objFn`. -/
theorem C8_iterateV_objFn_bool_shortcut (h : Heap) (fuel : Nat) (it : TypedValue)
    (o : ObjectData) (preArrFn : Callback Nat σ) (arrFn : Callback TypedValue σ)
    (pc : Nat → σ → Bool × σ) (b : Bool) (w : World σ)
    (hty : it.m_type = DataType.KindOfObject) (ho : h.objectAt it.pobj = some o)
    (hnc : o.isCollection = false) :
    IterateV h fuel it preArrFn arrFn (Callback.fn pc) (Callback.const b) w = some (b, w) := by
  simp [IterateV, hty, isRefType, isArrayLikeType, ho, hnc]

theorem C8_iterateV_objFn_bool_shortcut_witness :
    IterateV exHeap 0 exIteratorValue (Callback.fn exPreStepFalse) (Callback.fn exCountAll)
      (Callback.fn exPreStepTrue) (Callback.const true) exWorld = some (true, exWorld) :=
  C8_iterateV_objFn_bool_shortcut exHeap 0 exIteratorValue exIterator
    (Callback.fn exPreStepFalse) (Callback.fn exCountAll) exPreStepTrue true exWorld
    rfl rfl rfl

/-- C8, as stated, fails: on the integer `5`, which is neither an array nor a collection,
with the `bool` `false` for `objFn`, `IterateV` returns `true` when `preCollFn` is the
`bool` `true`; and with the `bool` `true` for `objFn` and a callable `preCollFn` it
returns `false`. -/
theorem C8_counterexample :
    IterateV exHeap 0 (make_tv_Int64 5) (Callback.const false) (Callback.const false)
        (Callback.const true) (Callback.const false) exWorld = some (true, exWorld) ∧
      IterateV exHeap 0 (make_tv_Int64 5) (Callback.fn exPreStepFalse)
        (Callback.fn exCountAll) (Callback.fn exPreStepFalse) (Callback.const true) exWorld
        = some (false, exWorld) :=
  ⟨rfl, rfl⟩

/-- C9: if `PreCollFn` is a `bool`, then for every value that is not array-like (and not
a reference) `IterateV` invokes no callback, leaves the world as it was and returns the
value of `preCollFn`, whatever the heap holds at the address of the value; so the
overload with three arguments returns `false` for every such value. -/
theorem C9_iterateV_preCollFn_bool_shortcut (h : Heap) (fuel : Nat) (it : TypedValue)
    (preArrFn : Callback Nat σ) (arrFn : Callback TypedValue σ) (b : Bool)
    (objFn : Callback TypedValue σ) (w : World σ)
    (hnr : isRefType it.m_type = false) (hna : isArrayLikeType it.m_type = false) :
    IterateV h fuel it preArrFn arrFn (Callback.const b) objFn w = some (b, w) ∧
      IterateV4 h fuel it preArrFn arrFn (Callback.const b) w = some (b, w) ∧
      IterateV3 h fuel it preArrFn arrFn w = some (false, w) := by
  simp [IterateV3, IterateV4, IterateV, hnr, hna]

theorem C9_iterateV_preCollFn_bool_shortcut_witness :
    IterateV exHeap 0 exVectorValue (Callback.fn exPreStepFalse) (Callback.fn exCountAll)
        (Callback.const true) (Callback.fn exCountAll) exWorld = some (true, exWorld) ∧
      IterateV4 exHeap 0 exVectorValue (Callback.fn exPreStepFalse) (Callback.fn exCountAll)
        (Callback.const true) exWorld = some (true, exWorld) ∧
      IterateV3 exHeap 0 exVectorValue (Callback.fn exPreStepFalse) (Callback.fn exCountAll)
        exWorld = some (false, exWorld) :=
  C9_iterateV_preCollFn_bool_shortcut exHeap 0 exVectorValue (Callback.fn exPreStepFalse)
    (Callback.fn exCountAll) true (Callback.fn exCountAll) exWorld rfl rfl

theorem do_array_of_preArrFn_true {h : Heap} {p : Nat} {ad : ArrayData}
    (hp : h.arrayAt p = some ad) (fuel : Nat) (pa : Nat → σ → Bool × σ)
    (arrFn : Callback TypedValue σ) (w : World σ) (hpa : (pa p w.user).1 = true) :
    ∃ w', IterateV.do_array h fuel p (Callback.fn pa) arrFn w = some (true, w') ∧
      w'.user = (pa p w.user).2 ∧
      w'.log = w.log ++ [Event.incRefCount p, Event.preArrFn p, Event.decRefArr p] ∧
      w'.count = w.count := by
  have hx : (ArrayData.call_helper (Callback.fn pa) Event.preArrFn p (w.incRefCount p)).1
      = true := hpa
  refine ⟨(ArrayData.call_helper (Callback.fn pa) Event.preArrFn p
    (w.incRefCount p)).2.decRefArr p, ?_, rfl, ?_, ?_⟩
  · simp only [IterateV.do_array, hp, hx, if_true]
  · simp [World.decRefArr, World.incRefCount, ArrayData.call_helper]
  · exact count_pin_release w _ p rfl

/-- C10: in `IterateV` a pre-step that answers `true` bypasses all further work.  If
`preCollFn` answers `true` on a collection, `IterateV` returns `true` and the call of
`preCollFn` is the only event.  If `preArrFn` answers `true` on an array, `IterateV`
returns `true` and the only events are the pin of the array, the call of `preArrFn` and
the release; the same holds on the array view of a collection, after the call of
`preCollFn`, which thus comes before that of `preArrFn`.  For an array-like value the
outcome does not depend on `preCollFn` (nor on `objFn`): they are never called. -/
theorem C10_iterateV_pre_steps_bypass (h : Heap) (fuel : Nat) (it : TypedValue)
    (arrFn : Callback TypedValue σ) (objFn : Callback TypedValue σ) (w : World σ) :
    (∀ (o : ObjectData) (preArrFn : Callback Nat σ) (pc : Nat → σ → Bool × σ),
      it.m_type = DataType.KindOfObject → h.objectAt it.pobj = some o →
      o.isCollection = true → (pc it.pobj w.user).1 = true →
      IterateV h fuel it preArrFn arrFn (Callback.fn pc) objFn w =
        some (true, { w with user := (pc it.pobj w.user).2,
                             log := w.log ++ [Event.preCollFn it.pobj] })) ∧
    (∀ (ad : ArrayData) (pa : Nat → σ → Bool × σ) (preCollFn : Callback Nat σ),
      isArrayLikeType it.m_type = true → h.arrayAt it.parr = some ad →
      (pa it.parr w.user).1 = true →
      ∃ w', IterateV h fuel it (Callback.fn pa) arrFn preCollFn objFn w = some (true, w') ∧
        w'.user = (pa it.parr w.user).2 ∧
        w'.log = w.log ++ [Event.incRefCount it.parr, Event.preArrFn it.parr,
          Event.decRefArr it.parr] ∧
        w'.count = w.count) ∧
    (∀ (o : ObjectData) (ad : ArrayData) (pa pc : Nat → σ → Bool × σ),
      it.m_type = DataType.KindOfObject → h.objectAt it.pobj = some o →
      o.isCollection = true → h.arrayAt o.asArray = some ad →
      (pc it.pobj w.user).1 = false → (pa o.asArray (pc it.pobj w.user).2).1 = true →
      ∃ w', IterateV h fuel it (Callback.fn pa) arrFn (Callback.fn pc) objFn w
          = some (true, w') ∧
        w'.user = (pa o.asArray (pc it.pobj w.user).2).2 ∧
        w'.log = w.log ++ [Event.preCollFn it.pobj, Event.incRefCount o.asArray,
          Event.preArrFn o.asArray, Event.decRefArr o.asArray] ∧
        w'.count = w.count) ∧
    (∀ (preArrFn : Callback Nat σ) (preCollFn preCollFn' : Callback Nat σ)
      (objFn' : Callback TypedValue σ),
      isArrayLikeType it.m_type = true →
      IterateV h fuel it preArrFn arrFn preCollFn objFn w =
        IterateV h fuel it preArrFn arrFn preCollFn' objFn' w) := by
  refine ⟨?_, ?_, ?_, ?_⟩
  · intro o preArrFn pc hty ho hcoll hpc
    simp [IterateV, hty, isRefType, isArrayLikeType, ho, hcoll, ArrayData.call_helper, hpc]
  · intro ad pa preCollFn hal hp hpa
    have hr := isRefType_of_arrayLike hal
    simpa [IterateV, hr, hal] using do_array_of_preArrFn_true hp fuel pa arrFn w hpa
  · intro o ad pa pc hty ho hcoll hp hpc hpa
    have hne := ArrayIter.arrayAt_ne_zero hp
    obtain ⟨w', hrun, hu, hl, hcnt⟩ := do_array_of_preArrFn_true hp fuel pa arrFn
      ({ w with user := (pc it.pobj w.user).2,
                log := w.log ++ [Event.preCollFn it.pobj] } : World σ) hpa
    refine ⟨w', ?_, hu, by simpa using hl, hcnt⟩
    simpa [IterateV, hty, isRefType, isArrayLikeType, ho, hcoll, ArrayData.call_helper, hpc,
      hne] using hrun
  · intro preArrFn preCollFn preCollFn' objFn' hal
    have hr := isRefType_of_arrayLike hal
    simp [IterateV, hr, hal]

theorem C10_iterateV_pre_steps_bypass_witness :
    IterateV exHeap 4 exVectorValue (Callback.fn exPreStepFalse) (Callback.fn exCountAll)
        (Callback.fn exPreStepTrue) (Callback.fn exCountAll) exWorld =
      some (true, { exWorld with user := 100, log := [Event.preCollFn 40] }) ∧
    (∃ w', IterateV exHeap 4 exPackedValue (Callback.fn exPreStepTrue)
        (Callback.fn exCountAll) (Callback.fn exPreStepFalse) (Callback.fn exCountAll) exWorld
          = some (true, w') ∧
      w'.user = 100 ∧
      w'.log = [Event.incRefCount 8, Event.preArrFn 8, Event.decRefArr 8] ∧
      w'.count = exWorld.count) ∧
    (∃ w', IterateV exHeap 4 exVectorValue (Callback.fn exPreStepTrue)
        (Callback.fn exCountAll) (Callback.fn exPreStepFalse) (Callback.fn exCountAll) exWorld
          = some (true, w') ∧
      w'.user = 100 ∧
      w'.log = [Event.preCollFn 40, Event.incRefCount 8, Event.preArrFn 8,
        Event.decRefArr 8] ∧
      w'.count = exWorld.count) :=
  ⟨(C10_iterateV_pre_steps_bypass exHeap 4 exVectorValue (Callback.fn exCountAll)
      (Callback.fn exCountAll) exWorld).1 exVector (Callback.fn exPreStepFalse) exPreStepTrue
      rfl rfl rfl rfl,
   (C10_iterateV_pre_steps_bypass exHeap 4 exPackedValue (Callback.fn exCountAll)
      (Callback.fn exCountAll) exWorld).2.1 exPacked exPreStepTrue (Callback.fn exPreStepFalse)
      rfl rfl rfl,
   (C10_iterateV_pre_steps_bypass exHeap 4 exVectorValue (Callback.fn exCountAll)
      (Callback.fn exCountAll) exWorld).2.2.1 exVector exPacked exPreStepTrue exPreStepFalse
      rfl rfl rfl rfl rfl rfl⟩

/-! ## The source and the strategy tag of `ArrayIter` -/

theorem setArrayData_of_container {h : Heap} {p : Nat} {ad : ArrayData}
    (hp : h.arrayAt p = some ad) (h2 : p % 2 = 0) (Local : Bool) (self : ArrayIter) :
    ArrayIter.setArrayData Local h self p =
      some { self with
        m_data := if Local then 0 else p,
        m_nextHelperIdx :=
          if ad.hasPackedLayout then IterNextIndex.ArrayPacked
          else if ad.hasMixedLayout then IterNextIndex.ArrayMixed
          else IterNextIndex.Array } := by
  have hne := ArrayIter.arrayAt_ne_zero hp
  by_cases h1 : ad.hasPackedLayout <;> by_cases h3 : ad.hasMixedLayout <;>
    simp [ArrayIter.setArrayData, Nat.and_one_is_mod, h2, hp, hne, h1, h3]

/-- C12: after `setArrayData(ad)` with a non-null container, in the normal and in the
`Local` mode alike, the strategy tag is `ArrayPacked` exactly when `ad` has the packed
layout, `ArrayMixed` exactly when it has not the packed but the mixed layout, `Array`
exactly when it has neither, and never `Object`. -/
theorem C12_setArrayData_tag_matches_layout (Local : Bool) (h : Heap) (self : ArrayIter)
    (p : Nat) (ad : ArrayData) (hp : h.arrayAt p = some ad) (h2 : p % 2 = 0) :
    ∃ s, ArrayIter.setArrayData Local h self p = some s ∧
      (s.m_nextHelperIdx = IterNextIndex.ArrayPacked ↔ ad.hasPackedLayout = true) ∧
      (s.m_nextHelperIdx = IterNextIndex.ArrayMixed ↔
        ad.hasPackedLayout = false ∧ ad.hasMixedLayout = true) ∧
      (s.m_nextHelperIdx = IterNextIndex.Array ↔
        ad.hasPackedLayout = false ∧ ad.hasMixedLayout = false) ∧
      s.m_nextHelperIdx ≠ IterNextIndex.Object := by
  refine ⟨_, setArrayData_of_container hp h2 Local self, ?_⟩
  by_cases h1 : ad.hasPackedLayout <;> by_cases h3 : ad.hasMixedLayout <;> simp [h1, h3]

theorem C12_setArrayData_tag_matches_layout_witness :
    ∃ s, ArrayIter.setArrayData true exHeap ArrayIter.uninit 16 = some s ∧
      (s.m_nextHelperIdx = IterNextIndex.ArrayPacked ↔ exGeneric.hasPackedLayout = true) ∧
      (s.m_nextHelperIdx = IterNextIndex.ArrayMixed ↔
        exGeneric.hasPackedLayout = false ∧ exGeneric.hasMixedLayout = true) ∧
      (s.m_nextHelperIdx = IterNextIndex.Array ↔
        exGeneric.hasPackedLayout = false ∧ exGeneric.hasMixedLayout = false) ∧
      s.m_nextHelperIdx ≠ IterNextIndex.Object :=
  C12_setArrayData_tag_matches_layout true exHeap ArrayIter.uninit 16 exGeneric rfl
    (by decide)

/-- C14: for an `ArrayIter` whose source is a container handle, `end()` is `true` when the
stored handle is null, and otherwise `true` exactly when `m_pos` is the `iter_end()` of
the container, `operator bool` being the negation; so a default-constructed iterator and
an iterator after `reset()` report `end() == true` whatever the other fields hold. -/
theorem C14_arrayIter_end_iff_null_or_at_sentinel (h : Heap) (it : ArrayIter) :
    (it.m_data = 0 → it.end_ h = some true ∧ it.toBool h = some false) ∧
    (∀ ad, it.hasArrayData = true → h.arrayAt it.m_data = some ad →
      it.end_ h = some (decide (it.m_pos = ad.iter_end)) ∧
      it.toBool h = some (decide (it.m_pos ≠ ad.iter_end)) ∧
      (it.end_ h = some true ↔ it.m_data = 0 ∨ it.m_pos = ad.iter_end)) ∧
    (ArrayIter.ctor_default it).end_ h = some true ∧
    (∀ (σ : Type) (w : World σ), (it.reset w).1.end_ h = some true) := by
  have hnull : ∀ i : ArrayIter, i.m_data = 0 → i.end_ h = some true := by
    intro i hi
    simp [ArrayIter.end_, ArrayIter.hasArrayData, ArrayIter.getArrayData, hi]
  refine ⟨fun h0 => ⟨hnull it h0, by simp [ArrayIter.toBool, hnull it h0]⟩, ?_,
    hnull _ rfl, fun _ w => hnull _ rfl⟩
  intro ad hhas hp
  have hne := ArrayIter.arrayAt_ne_zero hp
  have hbeq : (it.m_pos == ad.iter_end) = decide (it.m_pos = ad.iter_end) := by
    by_cases hq : it.m_pos = ad.iter_end <;> simp [hq]
  have hend : it.end_ h = some (decide (it.m_pos = ad.iter_end)) := by
    simp [ArrayIter.end_, ArrayIter.getArrayData, hhas, hp, hne, hbeq]
  refine ⟨hend, by simp [ArrayIter.toBool, hend], ?_⟩
  rw [hend]
  simp [hne]

theorem C14_arrayIter_end_iff_null_or_at_sentinel_witness :
    (({ m_data := 16, m_pos := 9, m_itype := IterType.TypeArray,
        m_nextHelperIdx := IterNextIndex.Array } : ArrayIter).end_ exHeap
      = some (decide ((9 : Int) = exGeneric.iter_end))) ∧
    (({ m_data := 0, m_pos := 9, m_itype := IterType.TypeArray,
        m_nextHelperIdx := IterNextIndex.Array } : ArrayIter).end_ exHeap = some true) :=
  ⟨((C14_arrayIter_end_iff_null_or_at_sentinel exHeap
      { m_data := 16, m_pos := 9, m_itype := IterType.TypeArray,
        m_nextHelperIdx := IterNextIndex.Array }).2.1 exGeneric rfl rfl).1,
   ((C14_arrayIter_end_iff_null_or_at_sentinel exHeap
      { m_data := 0, m_pos := 9, m_itype := IterType.TypeArray,
        m_nextHelperIdx := IterNextIndex.Array }).1 rfl).1⟩

/-- C15: `ArrayIter(data, Local)` on a non-null container leaves the source pointer out:
afterwards `getArrayData()` is null and `hasArrayData()` is `true`, `m_pos` is the begin
cursor of `data` and the strategy tag is the one of the layout of `data`; the
construction with `NoInc` differs in that it stores `data` itself as the source. -/
theorem C15_arrayIter_local_omits_source (h : Heap) (self : ArrayIter) (p : Nat)
    (ad : ArrayData) (hp : h.arrayAt p = some ad) (h2 : p % 2 = 0) :
    ∃ itL itN, ArrayIter.ctor_Local h self p = some itL ∧
      ArrayIter.ctor_NoInc h self p = some itN ∧
      itL.getArrayData = some 0 ∧ itL.hasArrayData = true ∧
      itL.m_pos = ad.iter_begin ∧
      itL.m_nextHelperIdx =
        (if ad.hasPackedLayout then IterNextIndex.ArrayPacked
         else if ad.hasMixedLayout then IterNextIndex.ArrayMixed
         else IterNextIndex.Array) ∧
      itN.getArrayData = some p ∧ itN.hasArrayData = true ∧
      itN.m_pos = itL.m_pos ∧ itN.m_nextHelperIdx = itL.m_nextHelperIdx ∧
      itN.m_itype = itL.m_itype := by
  have hne := ArrayIter.arrayAt_ne_zero hp
  have hL := setArrayData_of_container hp h2 true self
  have hN := setArrayData_of_container hp h2 false self
  have hpe : (p &&& 1) = 0 := by rw [Nat.and_one_is_mod]; exact h2
  refine ⟨_, _, by simp [ArrayIter.ctor_Local, hL, hp, hne]; rfl,
    by simp [ArrayIter.ctor_NoInc, hN, hp, hne]; rfl, ?_⟩
  simp [ArrayIter.getArrayData, ArrayIter.hasArrayData, hpe]

theorem C15_arrayIter_local_omits_source_witness :
    ∃ itL itN, ArrayIter.ctor_Local exHeap ArrayIter.uninit 8 = some itL ∧
      ArrayIter.ctor_NoInc exHeap ArrayIter.uninit 8 = some itN ∧
      itL.getArrayData = some 0 ∧ itL.hasArrayData = true ∧
      itL.m_pos = exPacked.iter_begin ∧
      itL.m_nextHelperIdx =
        (if exPacked.hasPackedLayout then IterNextIndex.ArrayPacked
         else if exPacked.hasMixedLayout then IterNextIndex.ArrayMixed
         else IterNextIndex.Array) ∧
      itN.getArrayData = some 8 ∧ itN.hasArrayData = true ∧
      itN.m_pos = itL.m_pos ∧ itN.m_nextHelperIdx = itL.m_nextHelperIdx ∧
      itN.m_itype = itL.m_itype :=
  C15_arrayIter_local_omits_source exHeap ArrayIter.uninit 8 exPacked rfl (by decide)

/-- C16: the one-bit source tag of `ArrayIter` round-trips.  After `setObject(obj)`, for a
64-bit object handle with a clear low bit, `hasArrayData()` is `false`, `getObject()` is
`obj` and the strategy tag is `Object`; after `setArrayData(ad)`, for a container handle
with a clear low bit that is null or points to a container, `hasArrayData()` is `true`
and `getArrayData()` is `ad`. -/
theorem C16_arrayIter_source_tag_roundtrip (h : Heap) (self : ArrayIter) :
    (∀ obj, obj % 2 = 0 → obj < 2 ^ 64 →
      ∃ s, ArrayIter.setObject self obj = some s ∧ s.hasArrayData = false ∧
        s.getObject = some obj ∧ s.m_nextHelperIdx = IterNextIndex.Object) ∧
    (∀ ad, ad % 2 = 0 → (ad = 0 ∨ (h.arrayAt ad).isSome = true) →
      ∃ s, ArrayIter.setArrayData false h self ad = some s ∧ s.hasArrayData = true ∧
        s.getArrayData = some ad) := by
  constructor
  · intro obj h2 hlt
    refine ⟨{ self with m_data := obj ||| 1, m_nextHelperIdx := IterNextIndex.Object },
      by simp [ArrayIter.setObject, Nat.and_one_is_mod, h2], tag_is_object obj _ rfl,
      getObject_of_tagged obj h2 hlt _ rfl, rfl⟩
  · intro ad h2 hsrc
    have hpe : (ad &&& 1) = 0 := by rw [Nat.and_one_is_mod]; exact h2
    rcases hsrc with h0 | hsome
    · subst h0
      exact ⟨_, by simp [ArrayIter.setArrayData]; rfl,
        by simp [ArrayIter.hasArrayData], by simp [ArrayIter.getArrayData, ArrayIter.hasArrayData]⟩
    · obtain ⟨a, ha⟩ := Option.isSome_iff_exists.mp hsome
      refine ⟨_, setArrayData_of_container ha h2 false self, ?_, ?_⟩
      · simp [ArrayIter.hasArrayData, hpe]
      · simp [ArrayIter.getArrayData, ArrayIter.hasArrayData, hpe]

theorem C16_arrayIter_source_tag_roundtrip_witness :
    (∃ s, ArrayIter.setObject ArrayIter.uninit 48 = some s ∧ s.hasArrayData = false ∧
        s.getObject = some 48 ∧ s.m_nextHelperIdx = IterNextIndex.Object) ∧
    (∃ s, ArrayIter.setArrayData false exHeap ArrayIter.uninit 8 = some s ∧
        s.hasArrayData = true ∧ s.getArrayData = some 8) :=
  ⟨(C16_arrayIter_source_tag_roundtrip exHeap ArrayIter.uninit).1 48 (by decide)
      (by decide),
   (C16_arrayIter_source_tag_roundtrip exHeap ArrayIter.uninit).2 8 (by decide)
      (Or.inr rfl)⟩

/-! ## The binding tag of `MArrayIter` -/

theorem even_add_one_eq_or (a : Nat) (h2 : a % 2 = 0) : a + 1 = a ||| 1 := by
  have ha : a = 2 ^ 1 * (a / 2) := by omega
  have hlt : 1 < 2 ^ 1 := by norm_num
  have key := Nat.mul_add_lt_is_or hlt (a / 2)
  rw [← ha] at key
  exact key

theorem or_one_and_one (a : Nat) : (a ||| 1) &&& 1 = 1 := by
  rw [Nat.and_one_is_mod]
  simp

theorem or_one_ne_zero (a : Nat) : a ||| 1 ≠ 0 := by
  intro h0
  have h1 := or_one_and_one a
  rw [h0] at h1
  simp at h1

/-- C17: `MArrayIter::getArray` resolves the binding.  Bound to a storage cell, it gives
the array held in the cell when the type of the cell is an array type and null otherwise;
so after the cell has been assigned a value, it gives the array of that value, or null
for a value that is no array.  After `setAd(a)`, for a 64-bit handle `a` with a clear low
bit, it gives `a`. -/
theorem C17_mArrayIter_getArray_resolves_binding (r : RefHeap) (it : MArrayIter) :
    (∀ cell, it.hasRef = true → r.refAt it.m_ref = some cell →
      it.getArray r = some (if isArrayType cell.tv.m_type then cell.tv.parr else 0)) ∧
    (∀ tv, it.hasRef = true →
      it.getArray (r.assign it.m_ref tv)
        = some (if isArrayType tv.m_type then tv.parr else 0)) ∧
    (∀ a, a % 2 = 0 → a < 2 ^ 64 →
      (it.setAd a).hasRef = false ∧ (it.setAd a).getArray r = some a) := by
  refine ⟨?_, ?_, ?_⟩
  · intro cell hr hcell
    simp [MArrayIter.getArray, MArrayIter.getData, hr, hcell]
  · intro tv hr
    have hne : it.m_ref ≠ 0 := by
      intro h0
      simp [MArrayIter.hasRef, h0] at hr
    simp [MArrayIter.getArray, MArrayIter.getData, hr, RefHeap.refAt, RefHeap.assign, hne]
  · intro a h2 hlt
    have hnr : (it.setAd a).hasRef = false := by
      simp [MArrayIter.hasRef, MArrayIter.setAd, or_one_and_one]
    have hha : (it.setAd a).hasAd = true := by
      simp [MArrayIter.hasAd, MArrayIter.setAd, or_one_and_one]
    refine ⟨hnr, ?_⟩
    simp only [MArrayIter.getArray, hnr, Bool.false_eq_true, if_false, MArrayIter.getAd, hha,
      if_true]
    simp [MArrayIter.setAd, tag_roundtrip a h2 hlt]

theorem C17_mArrayIter_getArray_resolves_binding_witness :
    exMIter.getArray exRefs = some 16 ∧
    exMIter.getArray (exRefs.assign exMIter.m_ref (make_tv_Int64 5)) = some 0 ∧
    exMIter.getArray (exRefs.assign exMIter.m_ref ⟨8, DataType.KindOfArray⟩) = some 8 ∧
    (exMIter.setAd 24).getArray exRefs = some 24 :=
  ⟨(C17_mArrayIter_getArray_resolves_binding exRefs exMIter).1
      ⟨⟨16, DataType.KindOfArray⟩⟩ rfl rfl,
   (C17_mArrayIter_getArray_resolves_binding exRefs exMIter).2.1 (make_tv_Int64 5) rfl,
   (C17_mArrayIter_getArray_resolves_binding exRefs exMIter).2.1
      ⟨8, DataType.KindOfArray⟩ rfl,
   ((C17_mArrayIter_getArray_resolves_binding exRefs exMIter).2.2 24 (by decide)
      (by decide)).2⟩

/-- C20: the binding tag of `MArrayIter` is unambiguous: `hasRef()` and `hasAd()` are
never both `true`; after `setAd(a)`, for a 64-bit handle `a` with a clear low bit (null
included), `hasAd()` is `true`, `hasRef()` is `false` and `getAd()` is `a`; after
`setRef(r)`, for a non-null `r` with a clear low bit, `hasRef()` is `true`, `hasAd()` is
`false` and `getRef()` is `r`; after `setRef(nullptr)` both are `false`. -/
theorem C20_mArrayIter_binding_tag_unambiguous (it : MArrayIter) :
    ¬ (it.hasRef = true ∧ it.hasAd = true) ∧
    (∀ a, a % 2 = 0 → a < 2 ^ 64 →
      (it.setAd a).hasAd = true ∧ (it.setAd a).hasRef = false ∧
      (it.setAd a).getAd = some a) ∧
    (∀ r, r ≠ 0 → r % 2 = 0 →
      (it.setRef r).hasRef = true ∧ (it.setRef r).hasAd = false ∧
      (it.setRef r).getRef = some r) ∧
    ((it.setRef 0).hasRef = false ∧ (it.setRef 0).hasAd = false) := by
  refine ⟨?_, ?_, ?_, ?_⟩
  · intro ⟨hr, ha⟩
    simp only [MArrayIter.hasRef, MArrayIter.hasAd, Bool.and_eq_true, bne_iff_ne, ne_eq,
      beq_iff_eq] at hr ha
    exact ha hr.2
  · intro a h2 hlt
    have hha : (it.setAd a).hasAd = true := by
      simp [MArrayIter.hasAd, MArrayIter.setAd, or_one_and_one]
    refine ⟨hha, by simp [MArrayIter.hasRef, MArrayIter.setAd, or_one_and_one], ?_⟩
    simp [MArrayIter.getAd, hha]
    simp [MArrayIter.setAd, tag_roundtrip a h2 hlt]
  · intro r hne h2
    have hpe : (r &&& 1) = 0 := by rw [Nat.and_one_is_mod]; exact h2
    have hhr : (it.setRef r).hasRef = true := by
      simp [MArrayIter.hasRef, MArrayIter.setRef, hne, hpe]
    refine ⟨hhr, by simp [MArrayIter.hasAd, MArrayIter.setRef, hpe], ?_⟩
    simp [MArrayIter.getRef, hhr]
    rfl
  · simp [MArrayIter.hasRef, MArrayIter.hasAd, MArrayIter.setRef]

theorem C20_mArrayIter_binding_tag_unambiguous_witness :
    ((exMIter.setAd 16).hasAd = true ∧ (exMIter.setAd 16).hasRef = false ∧
      (exMIter.setAd 16).getAd = some 16) ∧
    ((exMIter.setRef 64).hasRef = true ∧ (exMIter.setRef 64).hasAd = false ∧
      (exMIter.setRef 64).getRef = some 64) :=
  ⟨(C20_mArrayIter_binding_tag_unambiguous exMIter).2.1 16 (by decide) (by decide),
   (C20_mArrayIter_binding_tag_unambiguous exMIter).2.2.1 64 (by decide) (by decide)⟩

/-! ## The context tag of `CufIter` -/

/-- C18: the call context of `CufIter` is a one-bit tagged handle.  `setCtx(cls)` stores
null for a null class and otherwise, for a 64-bit class address with a clear low bit, the
address plus `1`: the low bit is set, the context is not null, and clearing the low bit
gives the class back, so `ctx()` is null exactly when `cls` is.  `setCtx(obj)` stores
`obj` unchanged, with a clear low bit when `obj` has one.  A default-constructed
`CufIter` has null `func`, `ctx` and `name` and `dynamic() == false`, and each setter
changes its own field only. -/
theorem C18_cufIter_context_tag (c : CufIter) :
    (c.setCtx_cls 0).ctx = 0 ∧
    (∀ cls, cls ≠ 0 → cls % 2 = 0 → cls < 2 ^ 64 →
      (c.setCtx_cls cls).ctx = cls + 1 ∧ (c.setCtx_cls cls).ctx % 2 = 1 ∧
      (c.setCtx_cls cls).ctx ≠ 0 ∧
      (c.setCtx_cls cls).ctx &&& 0xFFFFFFFFFFFFFFFE = cls) ∧
    (∀ cls, cls % 2 = 0 → cls < 2 ^ 64 → ((c.setCtx_cls cls).ctx = 0 ↔ cls = 0)) ∧
    (∀ obj, (c.setCtx_obj obj).ctx = obj ∧
      (obj % 2 = 0 → (c.setCtx_obj obj).ctx % 2 = 0)) ∧
    (CufIter.ctor.func = 0 ∧ CufIter.ctor.ctx = 0 ∧ CufIter.ctor.name = 0 ∧
      CufIter.ctor.dynamic = false) ∧
    (∀ f, (c.setFunc f).func = f ∧ (c.setFunc f).ctx = c.ctx ∧
      (c.setFunc f).name = c.name ∧ (c.setFunc f).dynamic = c.dynamic) ∧
    (∀ x, (c.setCtx_obj x).func = c.func ∧ (c.setCtx_obj x).name = c.name ∧
      (c.setCtx_obj x).dynamic = c.dynamic ∧ (c.setCtx_cls x).func = c.func ∧
      (c.setCtx_cls x).name = c.name ∧ (c.setCtx_cls x).dynamic = c.dynamic) ∧
    (∀ n, (c.setName n).name = n ∧ (c.setName n).func = c.func ∧
      (c.setName n).ctx = c.ctx ∧ (c.setName n).dynamic = c.dynamic) ∧
    (∀ d, (c.setDynamic d).dynamic = d ∧ (c.setDynamic d).func = c.func ∧
      (c.setDynamic d).ctx = c.ctx ∧ (c.setDynamic d).name = c.name) := by
  have hcls : ∀ cls, cls ≠ 0 → cls % 2 = 0 → cls < 2 ^ 64 →
      (c.setCtx_cls cls).ctx = cls + 1 := by
    intro cls hne h2 hlt
    have hlt' : cls < 18446744073709551616 := by simpa using hlt
    simp only [CufIter.setCtx_cls, CufIter.ctx, hne, if_false]
    norm_num
    omega
  refine ⟨by simp [CufIter.setCtx_cls, CufIter.ctx], ?_, ?_, ?_, ?_, ?_, ?_, ?_, ?_⟩
  · intro cls hne h2 hlt
    rw [hcls cls hne h2 hlt]
    refine ⟨rfl, by omega, by omega, ?_⟩
    rw [even_add_one_eq_or cls h2]
    exact tag_roundtrip cls h2 hlt
  · intro cls h2 hlt
    by_cases h0 : cls = 0
    · subst h0
      simp [CufIter.setCtx_cls, CufIter.ctx]
    · rw [hcls cls h0 h2 hlt]
      simp [h0]
  · intro obj
    exact ⟨rfl, fun h2 => h2⟩
  · exact ⟨rfl, rfl, rfl, rfl⟩
  · intro f
    exact ⟨rfl, rfl, rfl, rfl⟩
  · intro x
    exact ⟨rfl, rfl, rfl, rfl, rfl, rfl⟩
  · intro n
    exact ⟨rfl, rfl, rfl, rfl⟩
  · intro d
    exact ⟨rfl, rfl, rfl, rfl⟩

theorem C18_cufIter_context_tag_witness :
    (exCuf.setCtx_cls 96).ctx = 97 ∧ (exCuf.setCtx_cls 96).ctx % 2 = 1 ∧
      (exCuf.setCtx_cls 96).ctx ≠ 0 ∧
      (exCuf.setCtx_cls 96).ctx &&& 0xFFFFFFFFFFFFFFFE = 96 :=
  (C18_cufIter_context_tag exCuf).2.1 96 (by decide) (by decide) (by decide)

/-! ## `IterateKV` against `IterateV`: the array overloads -/

theorem dropKeys_incRefCount (w : World σ) (p : Nat) :
    (w.incRefCount p).dropKeys = w.dropKeys.incRefCount p := by
  simp [World.dropKeys, World.incRefCount, Event.dropKey]

theorem dropKeys_decRefArr (w : World σ) (p : Nat) :
    (w.decRefArr p).dropKeys = w.dropKeys.decRefArr p := by
  simp [World.dropKeys, World.decRefArr, Event.dropKey]

theorem call_helper_dropKeys {β : Type} (f : Callback α σ) (f' : Callback β σ)
    (ev : α → Event) (ev' : β → Event) (a : α) (a' : β) (hrel : Callback.Agree f f' a a')
    (hev : (ev a).dropKey = ev' a') (w : World σ) :
    (ArrayData.call_helper f ev a w).1 = (ArrayData.call_helper f' ev' a' w.dropKeys).1 ∧
      (ArrayData.call_helper f ev a w).2.dropKeys
        = (ArrayData.call_helper f' ev' a' w.dropKeys).2 := by
  cases f with
  | const b =>
    cases f' with
    | const b' =>
      have hb : b = b' := hrel
      simp [ArrayData.call_helper, hb]
    | fn g' => exact absurd hrel (by simp [Callback.Agree])
  | fn g =>
    cases f' with
    | const b' => exact absurd hrel (by simp [Callback.Agree])
    | fn g' =>
      have hg : ∀ s, g a s = g' a' s := hrel
      have hu : w.dropKeys.user = w.user := rfl
      simp [ArrayData.call_helper, hu, hg, World.dropKeys, hev]

theorem agree_refl (f : Callback α σ) (a : α) : Callback.Agree f f a a := by
  cases f with
  | const b => simp [Callback.Agree]
  | fn g => simp [Callback.Agree]

theorem walk_dropKeys {β : Type} (f : Callback α σ) (f' : Callback β σ)
    (ev : α → Event) (ev' : β → Event) (proj : α → β)
    (hrel : ∀ a, Callback.Agree f f' a (proj a))
    (hev : ∀ a, (ev a).dropKey = ev' (proj a)) :
    ∀ (xs : List α) (w : World σ),
      (walk f ev xs w).dropKeys = walk f' ev' (xs.map proj) w.dropKeys := by
  intro xs
  induction xs with
  | nil => intro w; simp [walk]
  | cons x xs ih =>
    intro w
    obtain ⟨h1, h2⟩ := call_helper_dropKeys f f' ev ev' x (proj x) (hrel x) (hev x) w
    by_cases hx : (ArrayData.call_helper f ev x w).1 = true
    · have hx' : (ArrayData.call_helper f' ev' (proj x) w.dropKeys).1 = true := by
        rw [← h1]; exact hx
      simp only [walk, List.map_cons, hx, hx', if_true, h2]
    · have hxf : (ArrayData.call_helper f ev x w).1 = false := by simpa using hx
      have hx' : (ArrayData.call_helper f' ev' (proj x) w.dropKeys).1 = false := by
        rw [← h1]; exact hxf
      simp only [walk, List.map_cons, hxf, hx', Bool.false_eq_true, if_false, ih, h2]

theorem pinnedWalk_dropKeys {β : Type} (b : Bool) (p : Nat) (f : Callback α σ)
    (f' : Callback β σ) (ev : α → Event) (ev' : β → Event) (proj : α → β)
    (hrel : ∀ a, Callback.Agree f f' a (proj a))
    (hev : ∀ a, (ev a).dropKey = ev' (proj a)) (xs : List α) (w : World σ) :
    (pinnedWalk b p f ev xs w).dropKeys = pinnedWalk b p f' ev' (xs.map proj) w.dropKeys := by
  cases b with
  | false =>
    simp only [pinnedWalk, Bool.false_eq_true, if_false]
    exact walk_dropKeys f f' ev ev' proj hrel hev xs w
  | true =>
    simp only [pinnedWalk, if_true, dropKeys_decRefArr,
      walk_dropKeys f f' ev ev' proj hrel hev xs (w.incRefCount p), dropKeys_incRefCount]

theorem nvFirst_isSome (h : Heap) (it : ArrayIter) :
    (it.nvFirst h).isSome = (it.secondVal h).isSome := by
  by_cases hh : it.hasArrayData = true
  · cases ha : h.arrayAt it.m_data with
    | none => simp [ArrayIter.nvFirst, ArrayIter.secondVal, ArrayIter.nvSecond,
        ArrayIter.getArrayData, hh, ha]
    | some a =>
      by_cases he : it.m_pos = a.iter_end <;>
        simp [ArrayIter.nvFirst, ArrayIter.secondVal, ArrayIter.nvSecond,
          ArrayIter.getArrayData, hh, ha, he]
  · simp [ArrayIter.nvFirst, ArrayIter.secondVal, ArrayIter.getArrayData, hh]

theorem array_loop_dropKeys (h : Heap) (gV : TypedValue → σ → Bool × σ)
    (gKV : TypedValue × TypedValue → σ → Bool × σ) (hg : ∀ k v s, gKV (k, v) s = gV v s) :
    ∀ (fuel : Nat) (iter : ArrayIter) (w : World σ),
      (IterateKV_array.loop h (Callback.fn gKV) fuel iter w).map
          (fun x => (x.1, x.2.dropKeys))
        = IterateV_array.loop h (Callback.fn gV) fuel iter w.dropKeys := by
  intro fuel
  induction fuel with
  | zero => intro iter w; simp [IterateKV_array.loop, IterateV_array.loop]
  | succ fuel ih =>
    intro iter w
    cases hb : iter.toBool h with
    | none => simp [IterateKV_array.loop, IterateV_array.loop, hb]
    | some b =>
      cases b with
      | false => simp [IterateKV_array.loop, IterateV_array.loop, hb]
      | true =>
        have hsome := nvFirst_isSome h iter
        cases hs : iter.secondVal h with
        | none =>
          cases hf : iter.nvFirst h with
          | none => simp [IterateKV_array.loop, IterateV_array.loop, hb, hs, hf]
          | some k => simp [hs, hf] at hsome
        | some v =>
          cases hf : iter.nvFirst h with
          | none => simp [hs, hf] at hsome
          | some k =>
            obtain ⟨h1, h2⟩ := call_helper_dropKeys (Callback.fn gKV) (Callback.fn gV)
              Event.ofKV Event.arrFn (k, v) v (fun s => hg k v s) rfl w
            by_cases hx : (ArrayData.call_helper (Callback.fn gKV) Event.ofKV (k, v) w).1
                = true
            · have hx' : (ArrayData.call_helper (Callback.fn gV) Event.arrFn v
                  w.dropKeys).1 = true := by rw [← h1]; exact hx
              simp only [IterateKV_array.loop, IterateV_array.loop, hb, hs, hf, hx, hx',
                if_true, Option.map_some', h2]
            · have hxf : (ArrayData.call_helper (Callback.fn gKV) Event.ofKV (k, v) w).1
                  = false := by simpa using hx
              have hx' : (ArrayData.call_helper (Callback.fn gV) Event.arrFn v
                  w.dropKeys).1 = false := by rw [← h1]; exact hxf
              cases hn : iter.next h with
              | none =>
                simp only [IterateKV_array.loop, IterateV_array.loop, hb, hs, hf, hxf, hx',
                  Bool.false_eq_true, if_false, hn, Option.map_none']
              | some iter' =>
                simp only [IterateKV_array.loop, IterateV_array.loop, hb, hs, hf, hxf, hx',
                  Bool.false_eq_true, if_false, hn, ih, h2]

theorem ctor_dropKeys (h : Heap) (self : ArrayIter) (data : Nat) (w : World σ) :
    (ArrayIter.ctor h self data w).map (fun x => (x.1, x.2.dropKeys))
      = ArrayIter.ctor h self data w.dropKeys := by
  cases hc : ArrayIter.ctor_NoInc h self data with
  | none => simp [ArrayIter.ctor, hc]
  | some it =>
    simp only [ArrayIter.ctor, hc, Option.map_some']
    by_cases hd : (data != 0) = true
    · simp only [hd, if_true, dropKeys_incRefCount]
    · have hd' := Bool.eq_false_iff.mpr hd
      simp only [hd', Bool.false_eq_true, if_false]

theorem destruct_dropKeys (it : ArrayIter) (w : World σ) :
    (it.destruct w).dropKeys = it.destruct w.dropKeys := by
  by_cases hc : (it.hasArrayData && it.m_data != 0) = true
  · simp only [ArrayIter.destruct, hc, if_true, dropKeys_decRefArr]
  · have hc' := Bool.eq_false_iff.mpr hc
    simp only [ArrayIter.destruct, hc', Bool.false_eq_true, if_false]

/-- The array overload of `IterateKV`, with the keys of the logged calls forgotten, does
what the array overload of `IterateV` does with the visitor that ignores the key, although
the two test the layouts in different orders. -/
theorem IterateKV_array_dropKeys (IncRef : Bool) (h : Heap) (fuel : Nat) (adata : Nat)
    (gV : TypedValue → σ → Bool × σ) (gKV : TypedValue × TypedValue → σ → Bool × σ)
    (hg : ∀ k v s, gKV (k, v) s = gV v s) (w : World σ) :
    forgetKeys (IterateKV_array IncRef h fuel adata gKV w)
      = IterateV_array IncRef h fuel adata (Callback.fn gV) w.dropKeys := by
  have hkv := pinnedWalk_dropKeys IncRef adata (Callback.fn gKV) (Callback.fn gV)
    (fun kv => Event.arrFnKV kv.1 kv.2) Event.arrFn Prod.snd (fun a s => hg a.1 a.2 s)
    (fun _ => rfl)
  have hks := pinnedWalk_dropKeys IncRef adata (Callback.fn (fun v => gKV (v, v)))
    (Callback.fn gV) (fun v => Event.arrFnKV v v) Event.arrFn id (fun a s => hg a a s)
    (fun _ => rfl)
  cases ha : h.arrayAt adata with
  | none => simp [forgetKeys, IterateKV_array, IterateV_array, ha]
  | some a =>
    by_cases he : a.empty = true
    · simp [forgetKeys, IterateKV_array, IterateV_array, ha, he]
    by_cases h1 : a.hasPackedLayout = true <;> by_cases h3 : a.hasMixedLayout = true
    · simp [forgetKeys, IterateKV_array, IterateV_array, ha, he, h1, h3,
        MixedArray.IterateKV, PackedArray.IterateV, hkv, ArrayData.values]
    · simp [forgetKeys, IterateKV_array, IterateV_array, ha, he, h1, h3,
        PackedArray.IterateKV, PackedArray.IterateV, hkv, ArrayData.values]
    · simp [forgetKeys, IterateKV_array, IterateV_array, ha, he, h1, h3,
        MixedArray.IterateKV, MixedArray.IterateV, hkv, ArrayData.values]
    · by_cases h4 : a.isKeyset = true
      · have hks' := hks a.values w
        simp only [List.map_id] at hks'
        simp [forgetKeys, IterateKV_array, IterateV_array, ha, he, h1, h3, h4,
          SetArray.Iterate, hks']
      · have hctor := ctor_dropKeys h ArrayIter.uninit adata w
        cases hc : ArrayIter.ctor h ArrayIter.uninit adata w with
        | none =>
          rw [hc] at hctor
          simp [forgetKeys, IterateKV_array, IterateV_array, ha, he, h1, h3, h4, hc,
            ← hctor]
        | some x =>
          obtain ⟨iter, w1⟩ := x
          rw [hc] at hctor
          have hloop := array_loop_dropKeys h gV gKV hg fuel iter w1
          cases hl : IterateKV_array.loop h (Callback.fn gKV) fuel iter w1 with
          | none =>
            rw [hl] at hloop
            simp [forgetKeys, IterateKV_array, IterateV_array, ha, he, h1, h3, h4, hc,
              ← hctor, hl, ← hloop]
          | some y =>
            obtain ⟨last, w2⟩ := y
            rw [hl] at hloop
            simp [forgetKeys, IterateKV_array, IterateV_array, ha, he, h1, h3, h4, hc,
              ← hctor, hl, ← hloop, destruct_dropKeys]

/-! ## `IterateKV` against `IterateV`: the `TypedValue` overloads -/

theorem do_array_dropKeys (h : Heap) (fuel : Nat) (adata : Nat) (pa : Nat → σ → Bool × σ)
    (gV : TypedValue → σ → Bool × σ) (gKV : TypedValue × TypedValue → σ → Bool × σ)
    (hg : ∀ k v s, gKV (k, v) s = gV v s) (w : World σ) :
    forgetKeys (IterateKV.do_array h fuel adata pa gKV w)
      = IterateV.do_array h fuel adata (Callback.fn pa) (Callback.fn gV) w.dropKeys := by
  cases ha : h.arrayAt adata with
  | none => simp [forgetKeys, IterateKV.do_array, IterateV.do_array, ha]
  | some a =>
    obtain ⟨h1, h2⟩ := call_helper_dropKeys (Callback.fn pa) (Callback.fn pa)
      Event.preArrFn Event.preArrFn adata adata (agree_refl _ _) rfl (w.incRefCount adata)
    rw [dropKeys_incRefCount] at h1 h2
    by_cases hx : (ArrayData.call_helper (Callback.fn pa) Event.preArrFn adata
        (w.incRefCount adata)).1 = true
    · have hx' : (ArrayData.call_helper (Callback.fn pa) Event.preArrFn adata
          (w.dropKeys.incRefCount adata)).1 = true := by rw [← h1]; exact hx
      simp only [forgetKeys, IterateKV.do_array, IterateV.do_array, ha, hx, hx', if_true,
        Option.map_some', dropKeys_decRefArr, h2]
    · have hxf : (ArrayData.call_helper (Callback.fn pa) Event.preArrFn adata
          (w.incRefCount adata)).1 = false := by simpa using hx
      have hx' : (ArrayData.call_helper (Callback.fn pa) Event.preArrFn adata
          (w.dropKeys.incRefCount adata)).1 = false := by rw [← h1]; exact hxf
      have harr := IterateKV_array_dropKeys false h fuel adata gV gKV hg
        (ArrayData.call_helper (Callback.fn pa) Event.preArrFn adata (w.incRefCount adata)).2
      rw [h2] at harr
      cases hr : IterateKV_array false h fuel adata gKV
          (ArrayData.call_helper (Callback.fn pa) Event.preArrFn adata
            (w.incRefCount adata)).2 with
      | none =>
        rw [hr] at harr
        simp only [forgetKeys, Option.map_none'] at harr
        simp only [forgetKeys, IterateKV.do_array, IterateV.do_array, ha, hxf, hx',
          Bool.false_eq_true, if_false, hr, ← harr, Option.map_none']
      | some y =>
        obtain ⟨b, w2⟩ := y
        rw [hr] at harr
        simp only [forgetKeys, Option.map_some'] at harr
        simp only [forgetKeys, IterateKV.do_array, IterateV.do_array, ha, hxf, hx',
          Bool.false_eq_true, if_false, hr, ← harr, Option.map_some', dropKeys_decRefArr]

theorem first_isSome (h : Heap) (it : ArrayIter) :
    (it.first h).isSome = (it.second h).isSome := by
  by_cases hh : it.hasArrayData = true
  · cases ha : h.arrayAt it.m_data with
    | none => simp [ArrayIter.first, ArrayIter.second, ArrayIter.nvFirst, ArrayIter.nvSecond,
        ArrayIter.getArrayData, hh, ha]
    | some a =>
      by_cases he : it.m_pos = a.iter_end <;>
        simp [ArrayIter.first, ArrayIter.second, ArrayIter.nvFirst, ArrayIter.nvSecond,
          ArrayIter.getArrayData, hh, ha, he]
  · cases hg : it.getObject with
    | none => simp [ArrayIter.first, ArrayIter.second, hh, hg]
    | some q =>
      cases ho : h.objectAt q <;> simp [ArrayIter.first, ArrayIter.second, hh, hg, ho]

theorem objLoop_dropKeys (h : Heap) (objV : Callback TypedValue σ)
    (objKV : Callback (TypedValue × TypedValue) σ) (hobj : SameVisitor objV objKV) :
    ∀ (fuel : Nat) (iter : ArrayIter) (w : World σ),
      (IterateKV.objLoop h objKV fuel iter w).map (fun x => (x.1, x.2.dropKeys))
        = IterateV.objLoop h objV fuel iter w.dropKeys := by
  intro fuel
  induction fuel with
  | zero => intro iter w; simp [IterateKV.objLoop, IterateV.objLoop]
  | succ fuel ih =>
    intro iter w
    cases hb : iter.toBool h with
    | none => simp [IterateKV.objLoop, IterateV.objLoop, hb]
    | some b =>
      cases b with
      | false => simp [IterateKV.objLoop, IterateV.objLoop, hb]
      | true =>
        have hsome := first_isSome h iter
        cases hs : iter.second h with
        | none =>
          cases hf : iter.first h with
          | none => simp [IterateKV.objLoop, IterateV.objLoop, hb, hs, hf]
          | some k => simp [hs, hf] at hsome
        | some v =>
          cases hf : iter.first h with
          | none => simp [hs, hf] at hsome
          | some k =>
            obtain ⟨h1, h2⟩ := call_helper_dropKeys objKV objV
              Event.ofObjKV Event.objFn (k, v) v (hobj k v) rfl w
            by_cases hx : (ArrayData.call_helper objKV Event.ofObjKV (k, v) w).1 = true
            · have hx' : (ArrayData.call_helper objV Event.objFn v w.dropKeys).1 = true := by
                rw [← h1]; exact hx
              simp only [IterateKV.objLoop, IterateV.objLoop, hb, hs, hf, hx, hx',
                if_true, Option.map_some', h2]
            · have hxf : (ArrayData.call_helper objKV Event.ofObjKV (k, v) w).1 = false := by
                simpa using hx
              have hx' : (ArrayData.call_helper objV Event.objFn v w.dropKeys).1
                  = false := by rw [← h1]; exact hxf
              cases hn : iter.next h with
              | none =>
                simp only [IterateKV.objLoop, IterateV.objLoop, hb, hs, hf, hxf, hx',
                  Bool.false_eq_true, if_false, hn, Option.map_none']
              | some iter' =>
                simp only [IterateKV.objLoop, IterateV.objLoop, hb, hs, hf, hxf, hx',
                  Bool.false_eq_true, if_false, hn, ih, h2]

theorem ctor_obj_NoInc_dropKeys (h : Heap) (self : ArrayIter) (obj : Nat) (w : World σ) :
    (ArrayIter.ctor_obj_NoInc h self obj w).map (fun x => (x.1, x.2.dropKeys))
      = ArrayIter.ctor_obj_NoInc h self obj w.dropKeys := by
  cases ho : h.objectAt obj with
  | none => simp [ArrayIter.ctor_obj_NoInc, ho]
  | some o =>
    by_cases hc : (o.isCollection && o.asArray != 0) = true
    · simp only [ArrayIter.ctor_obj_NoInc, ho, hc, if_true, ctor_dropKeys]
    · have hc' := Bool.eq_false_iff.mpr hc
      cases hs : ArrayIter.setObject self obj <;>
        simp [ArrayIter.ctor_obj_NoInc, ho, hc', hs]

theorem collections_at_dropKeys (obj : Nat) (o : ObjectData) (tv : TypedValue)
    (w : World σ) :
    (collections.at_ obj o tv w).map (fun x => (x.1, x.2.dropKeys))
      = collections.at_ obj o tv w.dropKeys := by
  cases hc : o.collections_at tv <;>
    simp [collections.at_, hc, World.dropKeys, Event.dropKey]

/-- C11: `IterateKV` behaves as `IterateV` does, the callbacks receiving a key besides the
value.  For every input value, heap and fuel, with the same pre-steps and with visitors
related by `kvFn(k, v) = vFn(v)`, the outcome of `IterateKV` with the keys of the logged
calls forgotten is the outcome of `IterateV`: the same result (or no result for both),
the same state of the caller, the same reference counts and the same events in the same
order, hence the same values up to the same element. -/
theorem C11_iterateKV_same_as_iterateV (h : Heap) (fuel : Nat) (it : TypedValue)
    (pa : Nat → σ → Bool × σ) (gV : TypedValue → σ → Bool × σ)
    (gKV : TypedValue × TypedValue → σ → Bool × σ) (preCollFn : Callback Nat σ)
    (objV : Callback TypedValue σ) (objKV : Callback (TypedValue × TypedValue) σ)
    (w : World σ) (hg : ∀ k v s, gKV (k, v) s = gV v s) (hobj : SameVisitor objV objKV) :
    forgetKeys (IterateKV h fuel it pa gKV preCollFn objKV w)
      = IterateV h fuel it (Callback.fn pa) (Callback.fn gV) preCollFn objV w.dropKeys := by
  by_cases hr : isRefType it.m_type = true
  · simp [forgetKeys, IterateKV, IterateV, hr]
  by_cases hal : isArrayLikeType it.m_type = true
  · simpa [IterateKV, IterateV, hr, hal] using do_array_dropKeys h fuel it.parr pa gV gKV hg w
  cases preCollFn with
  | const b => simp [forgetKeys, IterateKV, IterateV, hr, hal]
  | fn pc =>
    by_cases hty : it.m_type = DataType.KindOfObject
    swap
    · simp [forgetKeys, IterateKV, IterateV, hr, hal, hty]
    cases ho : h.objectAt it.pobj with
    | none => simp [forgetKeys, IterateKV, IterateV, hty, isRefType, isArrayLikeType, ho]
    | some o =>
      by_cases hcoll : o.isCollection = true
      · obtain ⟨h1, h2⟩ := call_helper_dropKeys (Callback.fn pc) (Callback.fn pc)
          Event.preCollFn Event.preCollFn it.pobj it.pobj (agree_refl _ _) rfl w
        by_cases hx : (ArrayData.call_helper (Callback.fn pc) Event.preCollFn it.pobj w).1
            = true
        · have hx' : (ArrayData.call_helper (Callback.fn pc) Event.preCollFn it.pobj
              w.dropKeys).1 = true := by rw [← h1]; exact hx
          simp only [forgetKeys, IterateKV, IterateV, hty, isRefType, isArrayLikeType, ho,
            hcoll, hx, hx', Bool.false_eq_true, if_false, if_true, bne_self_eq_false,
            Option.map_some', h2]
        · have hxf : (ArrayData.call_helper (Callback.fn pc) Event.preCollFn it.pobj w).1
              = false := by simpa using hx
          have hx' : (ArrayData.call_helper (Callback.fn pc) Event.preCollFn it.pobj
              w.dropKeys).1 = false := by rw [← h1]; exact hxf
          by_cases hview : (o.asArray != 0) = true
          · have harr := do_array_dropKeys h fuel o.asArray pa gV gKV hg
              (ArrayData.call_helper (Callback.fn pc) Event.preCollFn it.pobj w).2
            rw [h2] at harr
            simp only [IterateKV, IterateV, hty, isRefType, isArrayLikeType, ho,
              hcoll, hxf, hx', Bool.false_eq_true, if_false, if_true, bne_self_eq_false,
              hview]
            exact harr
          · have hview' := Bool.eq_false_iff.mpr hview
            by_cases hpair : (o.collectionType != CollectionType.Pair) = true
            · simp only [forgetKeys, IterateKV, IterateV, hty, isRefType, isArrayLikeType,
                ho, hcoll, hxf, hx', Bool.false_eq_true, if_false, if_true,
                bne_self_eq_false, hview', hpair, Option.map_none']
            · have hpair' := Bool.eq_false_iff.mpr hpair
              have hat0 := collections_at_dropKeys it.pobj o (make_tv_Int64 0)
                (ArrayData.call_helper (Callback.fn pc) Event.preCollFn it.pobj w).2
              rw [h2] at hat0
              cases hc0 : collections.at_ it.pobj o (make_tv_Int64 0)
                  (ArrayData.call_helper (Callback.fn pc) Event.preCollFn it.pobj w).2 with
              | none =>
                rw [hc0] at hat0
                simp only [forgetKeys, IterateKV, IterateV, hty, isRefType, isArrayLikeType,
                  ho, hcoll, hxf, hx', Bool.false_eq_true, if_false, if_true,
                  bne_self_eq_false, hview', hpair', hc0, ← hat0, Option.map_none']
              | some y0 =>
                obtain ⟨e0, w0⟩ := y0
                rw [hc0] at hat0
                simp only [Option.map_some'] at hat0
                obtain ⟨m1, m2⟩ := call_helper_dropKeys (Callback.fn gKV) (Callback.fn gV)
                  Event.ofKV Event.arrFn (make_tv_Int64 0, e0) e0
                  (fun s => hg (make_tv_Int64 0) e0 s) rfl w0
                by_cases hy : (ArrayData.call_helper (Callback.fn gKV) Event.ofKV
                    (make_tv_Int64 0, e0) w0).1 = true
                · have hy' : (ArrayData.call_helper (Callback.fn gV) Event.arrFn e0
                      w0.dropKeys).1 = true := by rw [← m1]; exact hy
                  simp only [forgetKeys, IterateKV, IterateV, hty, isRefType,
                    isArrayLikeType, ho, hcoll, hxf, hx', Bool.false_eq_true, if_false,
                    if_true, bne_self_eq_false, hview', hpair', hc0, ← hat0, hy, hy',
                    Bool.not_true, Option.map_some', m2]
                · have hyf : (ArrayData.call_helper (Callback.fn gKV) Event.ofKV
                      (make_tv_Int64 0, e0) w0).1 = false := by simpa using hy
                  have hy' : (ArrayData.call_helper (Callback.fn gV) Event.arrFn e0
                      w0.dropKeys).1 = false := by rw [← m1]; exact hyf
                  have hat1 := collections_at_dropKeys it.pobj o
                    { make_tv_Int64 0 with m_data := 1 }
                    (ArrayData.call_helper (Callback.fn gKV) Event.ofKV
                      (make_tv_Int64 0, e0) w0).2
                  rw [m2] at hat1
                  cases hc1 : collections.at_ it.pobj o { make_tv_Int64 0 with m_data := 1 }
                      (ArrayData.call_helper (Callback.fn gKV) Event.ofKV
                        (make_tv_Int64 0, e0) w0).2 with
                  | none =>
                    rw [hc1] at hat1
                    simp only [forgetKeys, IterateKV, IterateV, hty, isRefType,
                      isArrayLikeType, ho, hcoll, hxf, hx', Bool.false_eq_true, if_false,
                      if_true, bne_self_eq_false, hview', hpair', hc0, ← hat0, hyf, hy',
                      Bool.not_false, hc1, ← hat1, Option.map_none']
                  | some y1 =>
                    obtain ⟨e1, w1⟩ := y1
                    rw [hc1] at hat1
                    simp only [Option.map_some'] at hat1
                    obtain ⟨-, n2⟩ := call_helper_dropKeys (Callback.fn gKV)
                      (Callback.fn gV) Event.ofKV Event.arrFn
                      ({ make_tv_Int64 0 with m_data := 1 }, e1) e1
                      (fun s => hg _ e1 s) rfl w1
                    simp only [forgetKeys, IterateKV, IterateV, hty, isRefType,
                      isArrayLikeType, ho, hcoll, hxf, hx', Bool.false_eq_true, if_false,
                      if_true, bne_self_eq_false, hview', hpair', hc0, ← hat0, hyf, hy',
                      Bool.not_false, hc1, ← hat1, Option.map_some', n2]
      · have hcoll' := Bool.eq_false_iff.mpr hcoll
        cases objKV with
        | const b =>
          cases objV with
          | const b' =>
            have hb : b = b' := hobj (make_tv_Int64 0) (make_tv_Int64 0)
            simp [forgetKeys, IterateKV, IterateV, hty, isRefType, isArrayLikeType, ho,
              hcoll', hb]
          | fn f' =>
            exact absurd (hobj (make_tv_Int64 0) (make_tv_Int64 0)) (by simp [Callback.Agree])
        | fn f =>
          cases objV with
          | const b' =>
            exact absurd (hobj (make_tv_Int64 0) (make_tv_Int64 0)) (by simp [Callback.Agree])
          | fn f' =>
            by_cases hiter : o.isIterable = true
            swap
            · simp [forgetKeys, IterateKV, IterateV, hty, isRefType, isArrayLikeType, ho,
                hcoll', hiter]
            have hctor := ctor_obj_NoInc_dropKeys h ArrayIter.uninit o.iterableObject w
            cases hc : ArrayIter.ctor_obj_NoInc h ArrayIter.uninit o.iterableObject w with
            | none =>
              rw [hc] at hctor
              simp [forgetKeys, IterateKV, IterateV, hty, isRefType, isArrayLikeType, ho,
                hcoll', hiter, hc, ← hctor]
            | some x =>
              obtain ⟨iter, w1⟩ := x
              rw [hc] at hctor
              have hloop := objLoop_dropKeys h (Callback.fn f') (Callback.fn f) hobj fuel
                iter w1
              cases hl : IterateKV.objLoop h (Callback.fn f) fuel iter w1 with
              | none =>
                rw [hl] at hloop
                simp [forgetKeys, IterateKV, IterateV, hty, isRefType, isArrayLikeType, ho,
                  hcoll', hiter, hc, ← hctor, hl, ← hloop]
              | some y =>
                obtain ⟨last, w2⟩ := y
                rw [hl] at hloop
                simp [forgetKeys, IterateKV, IterateV, hty, isRefType, isArrayLikeType, ho,
                  hcoll', hiter, hc, ← hctor, hl, ← hloop, destruct_dropKeys]

theorem C11_iterateKV_same_as_iterateV_witness :
    forgetKeys (IterateKV exHeap 4 exGenericValue exPreStepFalse exCountAllKV
        (Callback.fn exPreStepFalse) (Callback.const false) exWorld)
      = IterateV exHeap 4 exGenericValue (Callback.fn exPreStepFalse)
          (Callback.fn exCountAll) (Callback.fn exPreStepFalse) (Callback.const false)
          exWorld.dropKeys :=
  C11_iterateKV_same_as_iterateV exHeap 4 exGenericValue exPreStepFalse exCountAll
    exCountAllKV (Callback.fn exPreStepFalse) (Callback.const false) (Callback.const false)
    exWorld (fun _ _ _ => rfl) (fun _ _ => rfl)

/-! ## The array overload of `IterateKV` over a keyset -/

theorem pinnedWalk_fn (b : Bool) (p : Nat) (g : α → σ → Bool × σ) (ev : α → Event)
    (xs : List α) (w : World σ) :
    (pinnedWalk b p (Callback.fn g) ev xs w).user
        = visitorState g (xs.take (visitedCount g xs w.user)) w.user ∧
      (pinnedWalk b p (Callback.fn g) ev xs w).log
        = w.log ++ ((if b then [Event.incRefCount p] else []) ++
            ((xs.take (visitedCount g xs w.user)).map ev ++
              (if b then [Event.decRefArr p] else []))) := by
  have hu : (w.incRefCount p).user = w.user := rfl
  cases b with
  | false =>
    simp only [pinnedWalk, Bool.false_eq_true, if_false, walk_fn, List.nil_append,
      List.append_nil, and_self]
  | true =>
    simp only [pinnedWalk, if_true, walk_fn, hu]
    simp [World.decRefArr, World.incRefCount]

theorem arrFnKVCalls_map_diag (xs : List TypedValue) :
    arrFnKVCalls (xs.map (fun v => Event.arrFnKV v v)) = xs.map (fun v => (v, v)) := by
  induction xs with
  | nil => rfl
  | cons x xs ih =>
    simp only [arrFnKVCalls, List.map_cons, List.filterMap_cons] at ih ⊢
    rw [ih]

theorem arrFnKVCalls_walk_log (b : Bool) (p : Nat) (l mid : List Event) :
    arrFnKVCalls (l ++ ((if b then [Event.incRefCount p] else []) ++
        (mid ++ (if b then [Event.decRefArr p] else []))))
      = arrFnKVCalls l ++ arrFnKVCalls mid := by
  cases b <;> simp [arrFnKVCalls, List.filterMap_append]

theorem arrFnCalls_walk_log (b : Bool) (p : Nat) (l mid : List Event) :
    arrFnCalls (l ++ ((if b then [Event.incRefCount p] else []) ++
        (mid ++ (if b then [Event.decRefArr p] else []))))
      = arrFnCalls l ++ arrFnCalls mid := by
  cases b <;> simp [arrFnCalls, List.filterMap_append]

/-- C19: for a keyset container (the set-like layout, which is neither the packed nor the
mixed one) the array overload of `IterateKV` calls the visitor as `arrFn(v, v)` on the
values in iteration order, up to and including the first value on which it answers
`true`: these are the values, in the same order and up to the same one, on which the
array overload of `IterateV` calls the visitor `v ↦ arrFn(v, v)`, and the two leave the
same state of the caller and the same reference counts; both return `true`. -/
theorem C19_iterateKV_keyset_key_is_value (IncRef : Bool) (h : Heap) (fuel : Nat) (p : Nat)
    (ad : ArrayData) (gKV : TypedValue × TypedValue → σ → Bool × σ) (w : World σ)
    (hp : h.arrayAt p = some ad) (hks : ad.isKeyset = true)
    (hnm : ad.hasMixedLayout = false) (hnp : ad.hasPackedLayout = false) :
    ∃ wKV wV,
      IterateKV_array IncRef h fuel p gKV w = some (true, wKV) ∧
      IterateV_array IncRef h fuel p (Callback.fn (fun v => gKV (v, v))) w = some (true, wV) ∧
      arrFnKVCalls wKV.log = arrFnKVCalls w.log ++
        (ad.values.take (visitedCount (fun v => gKV (v, v)) ad.values w.user)).map
          (fun v => (v, v)) ∧
      arrFnCalls wV.log = arrFnCalls w.log ++
        ad.values.take (visitedCount (fun v => gKV (v, v)) ad.values w.user) ∧
      wKV.user = wV.user ∧ wKV.count = wV.count := by
  by_cases he : ad.empty = true
  · have hnil : ad.values = [] := by
      have : ad.elems.length = 0 := by simpa [ArrayData.empty, ArrayData.size] using he
      simp [ArrayData.values, List.length_eq_zero.mp this]
    refine ⟨w, w, by simp [IterateKV_array, hp, he], by simp [IterateV_array, hp, he], ?_⟩
    simp [hnil]
  · have he' := Bool.eq_false_iff.mpr he
    have hKV := pinnedWalk_fn IncRef p (fun v => gKV (v, v)) (fun v => Event.arrFnKV v v)
      ad.values w
    have hV := pinnedWalk_fn IncRef p (fun v => gKV (v, v)) Event.arrFn ad.values w
    obtain ⟨_, _, hcKV, _⟩ := pinnedWalk_shape IncRef p (Callback.fn (fun v => gKV (v, v)))
      (fun v => Event.arrFnKV v v) (fun _ => rfl) ad.values w
    obtain ⟨_, _, hcV, _⟩ := pinnedWalk_shape IncRef p (Callback.fn (fun v => gKV (v, v)))
      Event.arrFn (fun _ => rfl) ad.values w
    refine ⟨pinnedWalk IncRef p (Callback.fn (fun v => gKV (v, v)))
        (fun v => Event.arrFnKV v v) ad.values w,
      pinnedWalk IncRef p (Callback.fn (fun v => gKV (v, v))) Event.arrFn ad.values w,
      by simp [IterateKV_array, hp, he', hnm, hnp, hks, SetArray.Iterate],
      by simp [IterateV_array, hp, he', hnm, hnp, hks, SetArray.Iterate], ?_, ?_, ?_, ?_⟩
    · rw [hKV.2, arrFnKVCalls_walk_log, arrFnKVCalls_map_diag]
    · rw [hV.2, arrFnCalls_walk_log, arrFnCalls_map_arrFn]
    · rw [hKV.1, hV.1]
    · rw [hcKV, hcV]

theorem C19_iterateKV_keyset_key_is_value_witness :
    ∃ wKV wV,
      IterateKV_array true exKeysetHeap 0 8 exCountAllKV exWorld = some (true, wKV) ∧
      IterateV_array true exKeysetHeap 0 8 (Callback.fn (fun v => exCountAllKV (v, v)))
        exWorld = some (true, wV) ∧
      arrFnKVCalls wKV.log = arrFnKVCalls exWorld.log ++
        (exKeyset.values.take
          (visitedCount (fun v => exCountAllKV (v, v)) exKeyset.values exWorld.user)).map
          (fun v => (v, v)) ∧
      arrFnCalls wV.log = arrFnCalls exWorld.log ++
        exKeyset.values.take
          (visitedCount (fun v => exCountAllKV (v, v)) exKeyset.values exWorld.user) ∧
      wKV.user = wV.user ∧ wKV.count = wV.count :=
  C19_iterateKV_keyset_key_is_value true exKeysetHeap 0 8 exKeyset exCountAllKV exWorld
    rfl rfl rfl rfl

/-! ## The registry of the mutable iterators -/

namespace MIterTable

theorem fillFirstEmpty_length (e : Ent) :
    ∀ (xs ys : List Ent), fillFirstEmpty e xs = some ys → ys.length = xs.length := by
  intro xs
  induction xs with
  | nil => intro ys hy; simp [fillFirstEmpty] at hy
  | cons x xs ih =>
    intro ys hy
    by_cases hx : x.occupied = true
    · cases hr : fillFirstEmpty e xs with
      | none => simp [fillFirstEmpty, hx, hr] at hy
      | some xs' =>
        simp only [fillFirstEmpty, hx, if_true, hr, Option.some.injEq] at hy
        subst hy
        simp [ih xs' hr]
    · have hx' := Bool.eq_false_iff.mpr hx
      simp only [fillFirstEmpty, hx', Bool.false_eq_true, if_false, Option.some.injEq] at hy
      subst hy
      simp

theorem fillFirstEmpty_head (e : Ent) (he : e.occupied = true) (x : Ent) (xs ys : List Ent)
    (hy : fillFirstEmpty e (x :: xs) = some ys) :
    ∃ y ys', ys = y :: ys' ∧ y.occupied = true := by
  by_cases hx : x.occupied = true
  · cases hr : fillFirstEmpty e xs with
    | none => simp [fillFirstEmpty, hx, hr] at hy
    | some xs' =>
      simp only [fillFirstEmpty, hx, if_true, hr, Option.some.injEq] at hy
      exact ⟨x, xs', hy.symm, hx⟩
  · have hx' := Bool.eq_false_iff.mpr hx
    simp only [fillFirstEmpty, hx', Bool.false_eq_true, if_false, Option.some.injEq] at hy
    exact ⟨e, xs, hy.symm, he⟩

theorem fillFirstEmpty_none (e : Ent) :
    ∀ (xs : List Ent), fillFirstEmpty e xs = none → ∀ x ∈ xs, x.occupied = true := by
  intro xs
  induction xs with
  | nil => intro _ x hx; simp at hx
  | cons y ys ih =>
    intro hn x hx
    by_cases hy : y.occupied = true
    · cases hr : fillFirstEmpty e ys with
      | none =>
        rcases List.mem_cons.mp hx with h1 | h1
        · rw [h1]; exact hy
        · exact ih hr x h1
      | some ys' => simp [fillFirstEmpty, hy, hr] at hn
    · have hy' := Bool.eq_false_iff.mpr hy
      simp [fillFirstEmpty, hy'] at hn

theorem exists_of_head_occupied (t : MIterTable) (x : Ent) (xs : List Ent)
    (ht : t.ents = x :: xs) (hx : x.occupied = true) :
    t.strong_iterators_exist = true ∧ t.anyOccupied = true := by
  have hx' : (x.array != 0) = true := hx
  simp [strong_iterators_exist, anyOccupied, ht, hx, hx']

theorem takeOccupied_some :
    ∀ (xs : List Ent) (e : Ent) (ys : List Ent), takeOccupied xs = some (e, ys) →
      e.occupied = true ∧ ys.length = xs.length := by
  intro xs
  induction xs with
  | nil => intro e ys hy; simp [takeOccupied] at hy
  | cons x xs ih =>
    intro e ys hy
    by_cases hx : x.occupied = true
    · simp only [takeOccupied, hx, if_true, Option.some.injEq, Prod.mk.injEq] at hy
      obtain ⟨h1, h2⟩ := hy
      subst h1
      subst h2
      exact ⟨hx, by simp⟩
    · have hx' := Bool.eq_false_iff.mpr hx
      cases hr : takeOccupied xs with
      | none => simp [takeOccupied, hx', hr] at hy
      | some r =>
        obtain ⟨e', ys'⟩ := r
        simp only [takeOccupied, hx', Bool.false_eq_true, if_false, hr, Option.some.injEq,
          Prod.mk.injEq] at hy
        obtain ⟨h1, h2⟩ := hy
        subst h1
        subst h2
        obtain ⟨ho, hl⟩ := ih e' ys' hr
        exact ⟨ho, by simp [hl]⟩

theorem takeOccupied_none_iff :
    ∀ (xs : List Ent), takeOccupied xs = none ↔ xs.any Ent.occupied = false := by
  intro xs
  induction xs with
  | nil => simp [takeOccupied]
  | cons x xs ih =>
    by_cases hx : x.occupied = true
    · simp [takeOccupied, hx]
    · have hx' := Bool.eq_false_iff.mpr hx
      cases hr : takeOccupied xs with
      | none =>
        have := ih.mp hr
        simp [takeOccupied, hx', hr, this]
      | some r =>
        have hne : ¬ (xs.any Ent.occupied = false) := by
          intro hcon
          have := ih.mpr hcon
          rw [hr] at this
          exact Option.noConfusion this
        simp only [takeOccupied, hx', Bool.false_eq_true, if_false, hr, List.any_cons,
          Bool.false_or]
        constructor
        · intro hcon; exact Option.noConfusion hcon
        · intro hcon; exact absurd hcon hne

theorem coherent_clear : Coherent clear := by
  refine ⟨rfl, ?_, rfl⟩
  intro e he
  simp [clear] at he

theorem coherent_register (t : MIterTable) (array iter : Nat) (ht : Coherent t)
    (ha : array ≠ 0) :
    Coherent (t.register array iter) ∧ (t.register array iter).strong_iterators_exist = true := by
  obtain ⟨hlen, hex, _⟩ := ht
  have hocc : (⟨array, iter⟩ : Ent).occupied = true := by simp [Ent.occupied, ha]
  cases hents : t.ents with
  | nil => simp [hents, ents_size] at hlen
  | cons x xs =>
    cases hf : fillFirstEmpty ⟨array, iter⟩ t.ents with
    | some ys =>
      have hlen' := fillFirstEmpty_length _ _ _ hf
      rw [hents] at hf
      obtain ⟨y, ys', hys, hy⟩ := fillFirstEmpty_head _ hocc x xs ys hf
      have hreg : t.register array iter = { t with ents := ys } := by
        rw [← hents] at hf
        simp [register, hf]
      have hboth := exists_of_head_occupied { t with ents := ys } y ys' hys hy
      rw [hreg]
      exact ⟨⟨by simpa [hlen] using hlen', hex, by rw [hboth.1, hboth.2]⟩, hboth.1⟩
    | none =>
      have hall := fillFirstEmpty_none _ _ hf
      have hx : x.occupied = true := hall x (by rw [hents]; simp)
      have hreg : t.register array iter = { t with extras := ⟨array, iter⟩ :: t.extras } := by
        simp [register, hf]
      have hboth := exists_of_head_occupied
        { t with extras := ⟨array, iter⟩ :: t.extras } x xs hents hx
      rw [hreg]
      refine ⟨⟨hlen, ?_, by rw [hboth.1, hboth.2]⟩, hboth.1⟩
      intro e he
      rcases List.mem_cons.mp he with h1 | h1
      · rw [h1]; exact hocc
      · exact hex e h1

theorem coherent_refill (t : MIterTable) (hlen : t.ents.length = ents_size)
    (hex : ∀ e ∈ t.extras, e.occupied = true) : Coherent (refill t) := by
  cases hents : t.ents with
  | nil => simp [hents, ents_size] at hlen
  | cons first rest =>
    by_cases hfo : first.occupied = true
    · have hre : refill t = t := by simp [refill, hents, hfo]
      have hboth := exists_of_head_occupied t first rest hents hfo
      rw [hre]
      exact ⟨hlen, hex, by rw [hboth.1, hboth.2]⟩
    · have hfo' := Bool.eq_false_iff.mpr hfo
      cases htake : takeOccupied rest with
      | some r =>
        obtain ⟨e, rest'⟩ := r
        obtain ⟨heo, hl⟩ := takeOccupied_some rest e rest' htake
        have hre : refill t = { t with ents := e :: rest' } := by
          simp [refill, hents, hfo', htake]
        have hboth := exists_of_head_occupied { t with ents := e :: rest' } e rest' rfl heo
        rw [hre]
        refine ⟨?_, hex, by rw [hboth.1, hboth.2]⟩
        rw [hents] at hlen
        simpa [hl] using hlen
      | none =>
        have hnone := (takeOccupied_none_iff rest).mp htake
        cases hext : t.extras with
        | nil =>
          have hre : refill t = t := by simp [refill, hents, hfo', htake, hext]
          rw [hre]
          refine ⟨hlen, hex, ?_⟩
          have hfa : (first.array != 0) = false := hfo'
          simp [strong_iterators_exist, anyOccupied, hents, hext, hfo', hnone, hfa]
        | cons e more =>
          have heo : e.occupied = true := hex e (by rw [hext]; simp)
          have hre : refill t = { ents := e :: rest, extras := more } := by
            simp [refill, hents, hfo', htake, hext]
          have hboth := exists_of_head_occupied { ents := e :: rest, extras := more } e rest
            rfl heo
          rw [hre]
          refine ⟨?_, ?_, by rw [hboth.1, hboth.2]⟩
          · rw [hents] at hlen
            simpa using hlen
          · intro e' he'
            exact hex e' (by rw [hext]; exact List.mem_cons_of_mem _ he')

theorem coherent_unregister (t : MIterTable) (array iter : Nat) (ht : Coherent t) :
    Coherent (t.unregister array iter) := by
  obtain ⟨hlen, hex, _⟩ := ht
  apply coherent_refill
  · simpa using hlen
  · intro e he
    exact hex e (List.mem_filter.mp he).1

theorem coherent_of_reachable (t : MIterTable) (hr : Reachable t) : Coherent t := by
  induction hr with
  | clear => exact coherent_clear
  | register t array iter _ ha _ ih => exact (coherent_register t array iter ih ha).1
  | unregister t array iter _ ih => exact coherent_unregister t array iter ih

theorem unregister_last (t : MIterTable) (array iter : Nat) (ht : Coherent t)
    (hall : ∀ e ∈ t.ents ++ t.extras, e.occupied = true → e.array = array ∧ e.iter = iter) :
    (t.unregister array iter).strong_iterators_exist = false ∧
      (t.unregister array iter).anyOccupied = false := by
  obtain ⟨hlen, hex, _⟩ := ht
  have hents : (t.ents.map
      (fun e => if e.array == array && e.iter == iter then Ent.empty else e)).any
      Ent.occupied = false := by
    rw [List.any_eq_false]
    intro e' he'
    obtain ⟨e, he, hmap⟩ := List.mem_map.mp he'
    by_cases hi : (e.array == array && e.iter == iter) = true
    · simp only [hi, if_true] at hmap
      rw [← hmap]
      simp [Ent.empty, Ent.occupied]
    · have hb := Bool.eq_false_iff.mpr hi
      simp only [hb, Bool.false_eq_true, if_false] at hmap
      rw [← hmap]
      intro hocc
      obtain ⟨h1, h2⟩ := hall e (List.mem_append_left _ he) hocc
      exact hi (by simp [h1, h2])
  have hextras : t.extras.filter (fun e => !(e.array == array && e.iter == iter)) = [] := by
    rw [List.filter_eq_nil_iff]
    intro e he
    obtain ⟨h1, h2⟩ := hall e (List.mem_append_right _ he) (hex e he)
    simp [h1, h2]
  cases hm : t.ents.map
      (fun e => if e.array == array && e.iter == iter then Ent.empty else e) with
  | nil =>
    have : t.ents.length = 0 := by
      have := congrArg List.length hm
      simpa using this
    rw [this] at hlen
    simp [ents_size] at hlen
  | cons first rest =>
    rw [hm] at hents
    simp only [List.any_cons, Bool.or_eq_false_iff] at hents
    obtain ⟨hfo, hrest⟩ := hents
    have htake := (takeOccupied_none_iff rest).mpr hrest
    have hfa : (first.array != 0) = false := hfo
    have hre : t.unregister array iter = { ents := first :: rest, extras := [] } := by
      unfold unregister
      rw [hextras, hm]
      simp [refill, hfo, htake]
    rw [hre]
    simp [strong_iterators_exist, anyOccupied, hfo, hrest, hfa]

end MIterTable

/-- C13: the check for any active mutable iterator looks at the first inline slot of
`MIterTable` only.  In every state of the registry that can be reached, the first slot is
occupied exactly when some slot, inline or in the bag, is occupied; so the check is
`false` when nothing is registered, in particular on the cleared table; it is `true`
right after every registration, the first one included; and it is `false` again right
after the unregistration of the pair that makes up all the entries left. -/
theorem C13_registry_first_slot_tracks_any :
    (∀ t, MIterTable.Reachable t →
      (t.strong_iterators_exist = true ↔ t.anyOccupied = true)) ∧
    MIterTable.clear.strong_iterators_exist = false ∧
    (∀ t array iter, MIterTable.Reachable t → array ≠ 0 → iter ≠ 0 →
      (t.register array iter).strong_iterators_exist = true) ∧
    (∀ t array iter, MIterTable.Reachable t →
      (∀ e ∈ t.ents ++ t.extras, e.occupied = true → e.array = array ∧ e.iter = iter) →
      (t.unregister array iter).strong_iterators_exist = false ∧
        (t.unregister array iter).anyOccupied = false) := by
  refine ⟨?_, rfl, ?_, ?_⟩
  · intro t hr
    rw [(MIterTable.coherent_of_reachable t hr).2.2]
  · intro t array iter hr ha _
    exact (MIterTable.coherent_register t array iter
      (MIterTable.coherent_of_reachable t hr) ha).2
  · intro t array iter hr hall
    exact MIterTable.unregister_last t array iter (MIterTable.coherent_of_reachable t hr) hall

theorem C13_registry_first_slot_tracks_any_witness :
    (MIterTable.clear.register 8 64).strong_iterators_exist = true ∧
    ((MIterTable.clear.register 8 64).unregister 8 64).strong_iterators_exist = false ∧
    ((MIterTable.clear.register 8 64).unregister 8 64).anyOccupied = false :=
  ⟨C13_registry_first_slot_tracks_any.2.2.1 MIterTable.clear 8 64
      MIterTable.Reachable.clear (by decide) (by decide),
   C13_registry_first_slot_tracks_any.2.2.2 (MIterTable.clear.register 8 64) 8 64
      (MIterTable.Reachable.register MIterTable.clear 8 64 MIterTable.Reachable.clear
        (by decide) (by decide))
      (by decide)⟩

/-! ## `ArrayIter::advance` -/

theorem end_at_cursor {h : Heap} {p : Nat} {ad : ArrayData}
    (hp : h.arrayAt p = some ad) (h2 : p % 2 = 0) (hc : ad.CursorContract)
    (it : ArrayIter) (j : Nat) (hj : j ≤ ad.size) (hd : it.m_data = p)
    (hpos : it.m_pos = ad.cursorAt j) : it.end_ h = some (decide (j = ad.size)) := by
  subst hd
  rw [ArrayIter.end_of_container hp h2, hpos]
  rcases Nat.lt_or_ge j ad.size with hlt | hge
  · have hne := (hc.2 j hlt).1
    simp [hne, Nat.ne_of_lt hlt]
  · have hj' : j = ad.size := Nat.le_antisymm hj hge
    simp [hj', hc.1]

theorem ssize_wrap_pred (count : Int) (hlo : -2 ^ 63 ≤ count) (hhi : count < 2 ^ 63)
    (hne : count ≠ 0) :
    -2 ^ 63 ≤ ssize_wrap (count - 1) ∧ ssize_wrap (count - 1) < 2 ^ 63 ∧
      1 ≤ (count % 2 ^ 64).toNat ∧
      (ssize_wrap (count - 1) % 2 ^ 64).toNat = (count % 2 ^ 64).toNat - 1 := by
  unfold ssize_wrap
  refine ⟨by omega, by omega, by omega, by omega⟩

theorem advance_from {h : Heap} {p : Nat} {ad : ArrayData}
    (hp : h.arrayAt p = some ad) (h2 : p % 2 = 0) (hc : ad.CursorContract) :
    ∀ (fuel i : Nat) (it : ArrayIter) (count : Int), i ≤ ad.size → ad.size - i < fuel →
      it.m_data = p → it.m_pos = ad.cursorAt i → -2 ^ 63 ≤ count → count < 2 ^ 63 →
      ArrayIter.advance h fuel it count =
        some ({ it with m_pos := ad.cursorAt (i + min (count % 2 ^ 64).toNat (ad.size - i)) },
          min (count % 2 ^ 64).toNat (ad.size - i)) := by
  intro fuel
  induction fuel with
  | zero => intro i it count _ hf; omega
  | succ fuel ih =>
    intro i it count hi hf hd hpos hlo hhi
    have hend := end_at_cursor hp h2 hc it i hi hd hpos
    rcases Nat.lt_or_ge i ad.size with hlt | hge
    · have hdec : decide (i = ad.size) = false := by simp [Nat.ne_of_lt hlt]
      rw [hdec] at hend
      by_cases h0 : count = 0
      · subst h0
        simp only [ArrayIter.advance, hend]
        simp [← hpos]
      · have hlt' : i < ad.elems.length := hlt
        have hne' : it.m_pos ≠ ad.iter_end := by rw [hpos]; exact (hc.2 i hlt').1
        have hp' : h.arrayAt it.m_data = some ad := by rw [hd]; exact hp
        have h2' : it.m_data % 2 = 0 := by rw [hd]; exact h2
        have hnext := ArrayIter.next_of_container hp' h2' hne'
        obtain ⟨w1, w2, w3, w4⟩ := ssize_wrap_pred count hlo hhi h0
        have hrec := ih (i + 1) { it with m_pos := ad.iter_advance it.m_pos }
          (ssize_wrap (count - 1)) hlt (by omega) hd (by simp [ArrayData.cursorAt, hpos])
          w1 w2
        have hb : (count != 0) = true := by simpa using h0
        simp only [ArrayIter.advance, hend, hb, if_true, hnext, hrec, w4]
        have e1 : min ((count % 2 ^ 64).toNat - 1) (ad.size - (i + 1)) + 1
            = min (count % 2 ^ 64).toNat (ad.size - i) := by omega
        have e2 : i + 1 + min ((count % 2 ^ 64).toNat - 1) (ad.size - (i + 1))
            = i + min (count % 2 ^ 64).toNat (ad.size - i) := by omega
        rw [e1, e2]
    · have hi' : i = ad.size := Nat.le_antisymm hi hge
      have hdec : decide (i = ad.size) = true := by simp [hi']
      rw [hdec] at hend
      simp only [ArrayIter.advance, hend]
      have e0 : min (count % 2 ^ 64).toNat (ad.size - i) = 0 := by omega
      rw [e0]
      simp [← hpos]

/-- C21: `ArrayIter::advance(count)` never steps past the end.  For an iterator over a
container with `r` elements remaining and a `count` in the range of `ssize_t`, the loop
terminates (any fuel above `r` is enough) and the iterator it leaves behind is the one
reached by `n` calls of `next()`, `n` being the number of calls the loop made: for a
`count` that is not negative `n` is the minimum of `count` and `r`, so the iterator is at
its end exactly when `count` is at least `r`; for a negative `count` (and a container of
less than 2^63 elements) `n` is `r` and the iterator is at its end. -/
theorem C21_advance_never_steps_past_end (h : Heap) (p : Nat) (ad : ArrayData)
    (it : ArrayIter) (i : Nat) (count : Int) (fuel : Nat)
    (hp : h.arrayAt p = some ad) (h2 : p % 2 = 0) (hc : ad.CursorContract)
    (hd : it.m_data = p) (hpos : it.m_pos = ad.cursorAt i) (hi : i ≤ ad.size)
    (hf : ad.size - i < fuel) (hlo : -2 ^ 63 ≤ count) (hhi : count < 2 ^ 63)
    (hsz : ad.size < 2 ^ 63) :
    ∃ last n, ArrayIter.advance h fuel it count = some (last, n) ∧
      ArrayIter.nextN h n it = some last ∧
      (0 ≤ count → n = min count.toNat (ad.size - i) ∧
        last.end_ h = some (decide (ad.size - i ≤ count.toNat))) ∧
      (count < 0 → n = ad.size - i ∧ last.end_ h = some true) := by
  have hadv := advance_from hp h2 hc fuel i it count hi hf hd hpos hlo hhi
  have hle : i + min (count % 2 ^ 64).toNat (ad.size - i) ≤ ad.size := by omega
  have hn := ArrayIter.nextN_from hp h2 hc (min (count % 2 ^ 64).toNat (ad.size - i)) i it
    hle hd hpos
  have hend := end_at_cursor hp h2 hc
    { it with m_pos := ad.cursorAt (i + min (count % 2 ^ 64).toNat (ad.size - i)) }
    (i + min (count % 2 ^ 64).toNat (ad.size - i)) hle hd rfl
  refine ⟨_, _, hadv, hn, ?_, ?_⟩
  · intro h0
    have hu : (count % 2 ^ 64).toNat = count.toNat := by omega
    refine ⟨by rw [hu], ?_⟩
    rw [hend, hu]
    congr 1
    exact decide_eq_decide.mpr ⟨fun hq => by omega, fun hq => by omega⟩
  · intro hneg
    have hu : min (count % 2 ^ 64).toNat (ad.size - i) = ad.size - i := by omega
    refine ⟨hu, ?_⟩
    rw [hend, hu]
    have : i + (ad.size - i) = ad.size := by omega
    simp [this]

theorem C21_advance_never_steps_past_end_witness :
    ∃ last n, ArrayIter.advance exHeap 3
        { m_data := 16, m_pos := 4, m_itype := IterType.TypeArray,
          m_nextHelperIdx := IterNextIndex.Array } (-1) = some (last, n) ∧
      ArrayIter.nextN exHeap n
        { m_data := 16, m_pos := 4, m_itype := IterType.TypeArray,
          m_nextHelperIdx := IterNextIndex.Array } = some last ∧
      (0 ≤ (-1 : Int) → n = min (-1 : Int).toNat (exGeneric.size - 0) ∧
        last.end_ exHeap = some (decide (exGeneric.size - 0 ≤ (-1 : Int).toNat))) ∧
      ((-1 : Int) < 0 → n = exGeneric.size - 0 ∧ last.end_ exHeap = some true) :=
  C21_advance_never_steps_past_end exHeap 16 exGeneric
    { m_data := 16, m_pos := 4, m_itype := IterType.TypeArray,
      m_nextHelperIdx := IterNextIndex.Array } 0 (-1) 3
    rfl (by decide) (by decide) rfl rfl (by decide) (by decide) (by decide) (by decide)
    (by decide)

/-! ## `ArrayIter::nextLocal` -/

theorem ctor_Local_of_container {h : Heap} {p : Nat} {ad : ArrayData}
    (hp : h.arrayAt p = some ad) (h2 : p % 2 = 0) (self : ArrayIter) :
    ∃ it, ArrayIter.ctor_Local h self p = some it ∧ it.m_data = 0 ∧
      it.m_pos = ad.iter_begin := by
  have hne := ArrayIter.arrayAt_ne_zero hp
  have hL := setArrayData_of_container hp h2 true self
  exact ⟨_, by simp [ArrayIter.ctor_Local, hL, hp, hne]; rfl, rfl, rfl⟩

theorem nextLocal_at {h : Heap} {p : Nat} {ad : ArrayData}
    (hp : h.arrayAt p = some ad) (hc : ad.CursorContract) (it : ArrayIter) (i : Nat)
    (hi : i < ad.size) (hd : it.m_data = 0) (hpos : it.m_pos = ad.cursorAt i) :
    it.nextLocal h p =
      some (decide (i + 1 = ad.size), { it with m_pos := ad.cursorAt (i + 1) }) := by
  have hlt : i < ad.elems.length := hi
  have hne : it.m_pos ≠ ad.iter_end := by rw [hpos]; exact (hc.2 i hlt).1
  have hga : it.getArrayData = some 0 := by
    simp [ArrayIter.getArrayData, ArrayIter.hasArrayData, hd]
  have hnew : (ad.iter_advance it.m_pos == ad.iter_end) = decide (i + 1 = ad.size) := by
    have hcur : ad.iter_advance it.m_pos = ad.cursorAt (i + 1) := by
      simp [ArrayData.cursorAt, hpos]
    rw [hcur]
    rcases Nat.lt_or_ge (i + 1) ad.size with hlt1 | hge1
    · have hne1 := (hc.2 (i + 1) hlt1).1
      simp [hne1, Nat.ne_of_lt hlt1]
    · have he : i + 1 = ad.size := by omega
      simp [he, hc.1]
  have hb : (it.m_pos == ad.iter_end) = false := by simpa using hne
  simp only [ArrayIter.nextLocal, hp, hga, bne_self_eq_false, Bool.false_eq_true, if_false,
    hb, hnew]
  simp [ArrayData.cursorAt, hpos]

theorem nextLocalN_from {h : Heap} {p : Nat} {ad : ArrayData}
    (hp : h.arrayAt p = some ad) (hc : ad.CursorContract) :
    ∀ (k i : Nat) (it : ArrayIter), i + k ≤ ad.size → it.m_data = 0 →
      it.m_pos = ad.cursorAt i →
      ArrayIter.nextLocalN h p k it =
        some ((List.range k).map (fun j => decide (i + j + 1 = ad.size)),
          { it with m_pos := ad.cursorAt (i + k) }) := by
  intro k
  induction k with
  | zero =>
    intro i it _ _ hpos
    simp [ArrayIter.nextLocalN, ← hpos]
  | succ k ih =>
    intro i it hi hd hpos
    have hstep := nextLocal_at hp hc it i (by omega) hd hpos
    have hrec := ih (i + 1) { it with m_pos := ad.cursorAt (i + 1) } (by omega) hd rfl
    simp only [ArrayIter.nextLocalN, hstep, hrec]
    have e1 : i + 1 + k = i + (k + 1) := by omega
    rw [e1, List.range_succ_eq_map, List.map_cons, List.map_map]
    have e2 : (fun j => decide (i + 1 + j + 1 = ad.size))
        = (fun j => decide (i + j + 1 = ad.size)) ∘ Nat.succ := by
      funext j
      have : i + 1 + j + 1 = i + Nat.succ j + 1 := by omega
      simp [this]
    rw [e2]

/-- C22: `nextLocal(ad)` moves the cursor one step with the advance primitive of `ad` and
answers `true` exactly when the new cursor is the end sentinel of `ad`.  From the iterator
`ArrayIter(ad, Local)` over a container with `n ≥ 1` elements, the call number `j + 1`
(for `j < n`) is made at the cursor of the element of index `j` and answers whether
`j + 1 = n`: the first `n - 1` calls answer `false`, the `n`-th answers `true`, and the
cursor is then the end sentinel. -/
theorem C22_nextLocal_true_at_last_element (h : Heap) (self : ArrayIter) (p : Nat)
    (ad : ArrayData) (hp : h.arrayAt p = some ad) (h2 : p % 2 = 0)
    (hc : ad.CursorContract) (hn : 1 ≤ ad.size) :
    ∃ it0, ArrayIter.ctor_Local h self p = some it0 ∧
      (∀ j, j < ad.size →
        ∃ bs it_j it', ArrayIter.nextLocalN h p j it0 = some (bs, it_j) ∧
          it_j.nextLocal h p = some (decide (j + 1 = ad.size), it') ∧
          it'.m_pos = ad.iter_advance it_j.m_pos ∧
          (decide (j + 1 = ad.size) = true ↔ it'.m_pos = ad.iter_end)) ∧
      (∃ last, ArrayIter.nextLocalN h p ad.size it0
          = some (List.replicate (ad.size - 1) false ++ [true], last) ∧
        last.m_pos = ad.iter_end) := by
  obtain ⟨it0, hctor, hd, hpos⟩ := ctor_Local_of_container hp h2 self
  have hpos0 : it0.m_pos = ad.cursorAt 0 := by simp [ArrayData.cursorAt, hpos]
  refine ⟨it0, hctor, ?_, ?_⟩
  · intro j hj
    have hN := nextLocalN_from hp hc j 0 it0 (by omega) hd hpos0
    have hstep := nextLocal_at hp hc { it0 with m_pos := ad.cursorAt (0 + j) } (0 + j)
      (by omega) hd rfl
    simp only [Nat.zero_add] at hN hstep
    refine ⟨_, _, _, hN, hstep, rfl, ?_⟩
    simp only [decide_eq_true_eq]
    constructor
    · intro he
      show ad.cursorAt (j + 1) = ad.iter_end
      rw [he]
      exact hc.1
    · intro he
      by_contra hne
      have hlt : j + 1 < ad.elems.length := by
        have : j + 1 < ad.size := by omega
        exact this
      exact (hc.2 (j + 1) hlt).1 he
  · have hN := nextLocalN_from hp hc ad.size 0 it0 (by omega) hd hpos0
    simp only [Nat.zero_add] at hN
    refine ⟨{ it0 with m_pos := ad.cursorAt ad.size }, ?_, hc.1⟩
    rw [hN]
    congr 2
    apply List.ext_getElem
    · simp
      omega
    · intro k hk1 hk2
      simp only [List.length_map, List.length_range] at hk1
      simp only [List.getElem_map, List.getElem_range]
      by_cases hlast : k + 1 = ad.size
      · have hk : k = ad.size - 1 := by omega
        subst hk
        simp [hlast]
      · have hk : k < ad.size - 1 := by omega
        rw [List.getElem_append_left (by simpa using hk)]
        simp [hlast]

theorem C22_nextLocal_true_at_last_element_witness :
    ∃ it0, ArrayIter.ctor_Local exHeap ArrayIter.uninit 8 = some it0 ∧
      (∀ j, j < exPacked.size →
        ∃ bs it_j it', ArrayIter.nextLocalN exHeap 8 j it0 = some (bs, it_j) ∧
          it_j.nextLocal exHeap 8 = some (decide (j + 1 = exPacked.size), it') ∧
          it'.m_pos = exPacked.iter_advance it_j.m_pos ∧
          (decide (j + 1 = exPacked.size) = true ↔ it'.m_pos = exPacked.iter_end)) ∧
      (∃ last, ArrayIter.nextLocalN exHeap 8 exPacked.size it0
          = some (List.replicate (exPacked.size - 1) false ++ [true], last) ∧
        last.m_pos = exPacked.iter_end) :=
  C22_nextLocal_true_at_last_element exHeap ArrayIter.uninit 8 exPacked rfl (by decide)
    (by decide) (by decide)

/-! ## The result of the array overloads -/

theorem IterateV_array_result (IncRef : Bool) (h : Heap) (fuel : Nat) (p : Nat)
    (arrFn : Callback TypedValue σ) (w : World σ) (r : Bool × World σ)
    (hr : IterateV_array IncRef h fuel p arrFn w = some r) : r.1 = true := by
  cases ha : h.arrayAt p with
  | none => simp [IterateV_array, ha] at hr
  | some a =>
    simp only [IterateV_array, ha] at hr
    split_ifs at hr
    · cases hr; rfl
    · cases hr; rfl
    · cases hr; rfl
    · cases hr; rfl
    · cases hc : ArrayIter.ctor h ArrayIter.uninit p w with
      | none => simp [hc] at hr
      | some x =>
        obtain ⟨iter, w1⟩ := x
        simp only [hc] at hr
        cases hl : IterateV_array.loop h arrFn fuel iter w1 with
        | none => simp [hl] at hr
        | some y =>
          obtain ⟨last, w2⟩ := y
          simp only [hl, Option.some.injEq] at hr
          rw [← hr]

theorem IterateKV_array_result (IncRef : Bool) (h : Heap) (fuel : Nat) (p : Nat)
    (arrFn : TypedValue × TypedValue → σ → Bool × σ) (w : World σ) (r : Bool × World σ)
    (hr : IterateKV_array IncRef h fuel p arrFn w = some r) : r.1 = true := by
  cases ha : h.arrayAt p with
  | none => simp [IterateKV_array, ha] at hr
  | some a =>
    simp only [IterateKV_array, ha] at hr
    split_ifs at hr
    · cases hr; rfl
    · cases hr; rfl
    · cases hr; rfl
    · cases hr; rfl
    · cases hc : ArrayIter.ctor h ArrayIter.uninit p w with
      | none => simp [hc] at hr
      | some x =>
        obtain ⟨iter, w1⟩ := x
        simp only [hc] at hr
        cases hl : IterateKV_array.loop h (Callback.fn arrFn) fuel iter w1 with
        | none => simp [hl] at hr
        | some y =>
          obtain ⟨last, w2⟩ := y
          simp only [hl, Option.some.injEq] at hr
          rw [← hr]

/-- C23: the array overloads of `IterateV` and `IterateKV` return `true` and nothing else.
Whatever the heap, the visitor and the fuel, a result they give is `true`; over a
container that obeys the position-cursor contract they do give a result, also when the
visitor asked to stop early; and over an empty container they return `true` with the
world as it was, the visitor not having been called. -/
theorem C23_array_overloads_return_true (IncRef : Bool) (h : Heap) (fuel : Nat) (p : Nat)
    (ad : ArrayData) (arrFn : Callback TypedValue σ)
    (arrFnKV : TypedValue × TypedValue → σ → Bool × σ) (w : World σ) :
    (∀ r, IterateV_array IncRef h fuel p arrFn w = some r → r.1 = true) ∧
    (∀ r, IterateKV_array IncRef h fuel p arrFnKV w = some r → r.1 = true) ∧
    (h.arrayAt p = some ad → p % 2 = 0 → ad.CursorContract → ad.size < fuel →
      (∃ w', IterateV_array IncRef h fuel p arrFn w = some (true, w')) ∧
      (∃ w', IterateKV_array IncRef h fuel p arrFnKV w = some (true, w'))) ∧
    (h.arrayAt p = some ad → ad.empty = true →
      IterateV_array IncRef h fuel p arrFn w = some (true, w) ∧
      IterateKV_array IncRef h fuel p arrFnKV w = some (true, w)) := by
  refine ⟨IterateV_array_result IncRef h fuel p arrFn w,
    IterateKV_array_result IncRef h fuel p arrFnKV w, ?_, ?_⟩
  · intro hp h2 hc hf
    exact ⟨⟨_, IterateV_array_eq hp h2 hc IncRef fuel hf arrFn w⟩,
      ⟨_, IterateKV_array_eq hp h2 hc IncRef fuel hf arrFnKV w⟩⟩
  · intro hp he
    exact ⟨by simp [IterateV_array, hp, he], by simp [IterateKV_array, hp, he]⟩

theorem C23_array_overloads_return_true_witness :
    ((∃ w', IterateV_array true exHeap 4 8 (Callback.fn exStopAfterTwo) exWorld
        = some (true, w')) ∧
      (∃ w', IterateKV_array true exHeap 4 8 exStopAtOnceKV exWorld = some (true, w'))) ∧
    (IterateV_array true exHeap 4 24 (Callback.fn exStopAfterTwo) exWorld
        = some (true, exWorld) ∧
      IterateKV_array true exHeap 4 24 exStopAtOnceKV exWorld = some (true, exWorld)) :=
  ⟨(C23_array_overloads_return_true true exHeap 4 8 exPacked (Callback.fn exStopAfterTwo)
      exStopAtOnceKV exWorld).2.2.1 rfl (by decide) (by decide) (by decide),
   (C23_array_overloads_return_true true exHeap 4 24 exEmpty (Callback.fn exStopAfterTwo)
      exStopAtOnceKV exWorld).2.2.2 rfl rfl⟩

end HPHP
